import Mathlib

/-!
# Spatial querying: Basic, Grid, Quadtree and SpatialHash over DynamicBuffer

A shallow embedding of `src/js/utility.js` (DynamicBuffer), `src/js/basic.js`,
`src/js/grid.js`, `src/js/quadtree.js` and `src/js/spatialhash.js`.

Modelling conventions

* A JavaScript object is a reference `Ref`; `===` on objects is equality of references.
  The bounds of the objects are read through `B : Bounds` (reference to `Box2`); no index
  operation writes `min` or `max`, so `B` is a read-only parameter. The only object field an
  index operation writes is `alpha` (in `Quadnode.insert`); that field is the map `Alpha`,
  threaded through the operations that write it.
* Numbers are rationals. `~~x` is `toInt32`: truncation toward zero followed by the
  wrap-around into the signed 32-bit range. The quotients and products that grid.js computes
  are rounded to the nearest double (`fl`); the other files are read with exact arithmetic.
* A JavaScript array is a length and a slot map (`JSArray`); a slot never written reads as
  `none` (`undefined`).
* Loops are folds over the list of indices they run through.
-/

namespace SQ

/-! ## Objects and geometry -/

/-- An object reference; two objects are identical exactly when their references are equal. -/
abbrev Ref := Nat

/-- THREE.Vector2: a point of the plane. -/
structure Vector2 where
  x : ℚ
  y : ℚ
deriving DecidableEq

/-- THREE.Box2: an axis-aligned box given by its two corners. -/
structure Box2 where
  min : Vector2
  max : Vector2
deriving DecidableEq

/-- The bounds of every object, read by the index operations. -/
abbrev Bounds := Ref → Box2

/-- The `alpha` field of every object (written by `Quadnode.insert`). -/
abbrev Alpha := Ref → ℚ

/-- Modelled from the spec: THREE.Box2.containsBox of the external three.js library
("contains = this region's bounds are at least the other's on every side"). -/
def Box2.containsBox (a b : Box2) : Bool :=
  decide (a.min.x ≤ b.min.x) && decide (b.max.x ≤ a.max.x) &&
  decide (a.min.y ≤ b.min.y) && decide (b.max.y ≤ a.max.y)

/-- Modelled from the spec: THREE.Box2.isIntersectionBox of the external three.js library
("intersects = regions overlap with positive area or touch"): false exactly when the two boxes
are separated along one axis. -/
def Box2.isIntersectionBox (a b : Box2) : Bool :=
  !(decide (b.max.x < a.min.x) || decide (b.min.x > a.max.x) ||
    decide (b.max.y < a.min.y) || decide (b.min.y > a.max.y))

/-- Modelled from the spec: THREE.Box2.center of the external three.js library, the midpoint
`(min + max) * 0.5`. -/
def Box2.center (b : Box2) : Vector2 :=
  ⟨(b.min.x + b.max.x) * (1 / 2), (b.min.y + b.max.y) * (1 / 2)⟩

/-- A box is well-formed when `min <= max` on both axes. -/
def Box2.WellFormed (b : Box2) : Prop :=
  b.min.x ≤ b.max.x ∧ b.min.y ≤ b.max.y

instance (b : Box2) : Decidable b.WellFormed := by
  unfold Box2.WellFormed; infer_instance

/-- The overlap test every strategy applies to a query and a stored object:
`obj.isIntersectionBox(stored) || obj.containsBox(stored) || stored.containsBox(obj)`. -/
def overlaps (B : Bounds) (obj stored : Ref) : Bool :=
  (B obj).isIntersectionBox (B stored) || (B obj).containsBox (B stored) ||
    (B stored).containsBox (B obj)

/-- The body of the scan loops: `obj !== stored` and the overlap test. -/
def hit (B : Bounds) (obj stored : Ref) : Bool :=
  decide (obj ≠ stored) && overlaps B obj stored

/-- The operator `~~x`: truncate toward zero, then wrap into the signed 32-bit range. -/
def toInt32 (x : ℚ) : Int :=
  let m := (Int.tdiv x.num x.den) % 4294967296
  if m ≥ 2147483648 then m - 4294967296 else m

/-- The power `2^e` of two, for an integer exponent. -/
def pow2 (e : Int) : ℚ :=
  if 0 ≤ e then ((2 ^ e.toNat : Nat) : ℚ) else 1 / ((2 ^ (-e).toNat : Nat) : ℚ)

/-- The number `r` with `2^r <= n < 2^(r+1)` for `n >= 1`, found by halving (at most `fuel`
times; `fuel = n` is enough). -/
def log2Floor : Nat → Nat → Nat
  | 0, _ => 0
  | fuel + 1, n => if 2 ≤ n then log2Floor fuel (n / 2) + 1 else 0

/-- The binary exponent of a rational `q` other than 0: the `e` with
`2^e <= |q| < 2^(e+1)`. -/
def binExponent (q : ℚ) : Int :=
  let k : Int :=
    (log2Floor q.num.natAbs q.num.natAbs : Int) - (log2Floor q.den q.den : Int)
  if pow2 k ≤ |q| then k else k - 1

/-- Rounding to the nearest integer, a tie to the even one. -/
def roundHalfEven (q : ℚ) : Int :=
  if q - ⌊q⌋ < 1 / 2 then ⌊q⌋
  else if 1 / 2 < q - ⌊q⌋ then ⌊q⌋ + 1
  else if ⌊q⌋ % 2 = 0 then ⌊q⌋ else ⌊q⌋ + 1

/-- The double nearest to `q`, the result of an arithmetic operation of JavaScript whose exact
value is `q` (IEEE 754 binary64, round to nearest, ties to even): 53 significant bits, and a
unit in the last place of at least `2^-1074`. A value of `2^1024` or more stands for
Infinity. -/
def fl (q : ℚ) : ℚ :=
  if q = 0 then 0
  else
    let e := max (binExponent q - 52) (-1074)
    (roundHalfEven (q / pow2 e) : ℚ) * pow2 e

/-- The expression `~~(a / b)` on two doubles: the quotient is rounded to a double and then
truncated and wrapped by `~~`. The quotient is Infinity or NaN when `b` is 0 and Infinity when
it overflows, and `~~` of those is 0. -/
def truncDiv (a b : ℚ) : Int :=
  if b = 0 ∨ pow2 1024 ≤ |fl (a / b)| then 0 else toInt32 (fl (a / b))

/-- The indices `lo, lo+1, ..., hi` a loop `for (i = lo; i <= hi; i++)` runs through. -/
def intRange (lo hi : Int) : List Int :=
  (List.range (hi - lo + 1).toNat).map (fun (k : Nat) => lo + (k : Int))

/-! ## DynamicBuffer (utility.js) -/

/-- A JavaScript array: its `length` and its slots (`none` is `undefined`). -/
structure JSArray where
  length : Nat
  get : Nat → Option Ref

/-- The array `new Array(n)`: length `n`, every slot empty. -/
def JSArray.new (n : Nat) : JSArray := ⟨n, fun _ => none⟩

/-- The assignment `a[i] = v`; writing at or past the length extends the array. -/
def JSArray.set (a : JSArray) (i : Nat) (v : Option Ref) : JSArray :=
  ⟨max a.length (i + 1), fun j => if j = i then v else a.get j⟩

/-- DynamicBuffer: `count` live slots at the front of `data`. -/
structure DynamicBuffer where
  count : Nat
  data : JSArray

/-- DynamicBuffer.prototype.init; `new DynamicBuffer()` without argument is `init 0`. -/
def DynamicBuffer.init (initial : Nat) : DynamicBuffer :=
  ⟨0, JSArray.new (if initial > 8 then initial else 8)⟩

/-- DynamicBuffer.prototype.push. -/
def DynamicBuffer.push (b : DynamicBuffer) (obj : Ref) : DynamicBuffer :=
  let data :=
    if b.count = b.data.length then
      (List.range b.data.length).foldl (fun d i => d.set i (b.data.get i))
        (JSArray.new (b.data.length * 2))
    else b.data
  ⟨b.count + 1, data.set b.count (some obj)⟩

/-- One iteration of the loop of DynamicBuffer.prototype.remove on the state
`(data, removed)`. -/
def DynamicBuffer.removeStep (obj : Ref) (st : JSArray × Bool) (i : Nat) : JSArray × Bool :=
  if st.2 then (st.1.set (i - 1) (st.1.get i), true)
  else if st.1.get i = some obj then (st.1, true) else st

/-- DynamicBuffer.prototype.remove: the buffer afterwards and the returned flag. -/
def DynamicBuffer.remove (b : DynamicBuffer) (obj : Ref) : DynamicBuffer × Bool :=
  let st := (List.range b.count).foldl (DynamicBuffer.removeStep obj) (b.data, false)
  (⟨if st.2 then b.count - 1 else b.count, st.1⟩, st.2)

/-- DynamicBuffer.prototype.contains. -/
def DynamicBuffer.contains (b : DynamicBuffer) (obj : Ref) : Bool :=
  (List.range b.count).any (fun i => decide (b.data.get i = some obj))

/-- DynamicBuffer.prototype.clear. -/
def DynamicBuffer.clear (b : DynamicBuffer) : DynamicBuffer :=
  { b with count := 0 }

/-- The live contents: the objects in the first `count` slots, in slot order. In every buffer
built by init, push, remove and clear these slots all hold an object. -/
def DynamicBuffer.live (b : DynamicBuffer) : List Ref :=
  (List.range b.count).filterMap b.data.get

/-- The preamble of every `intersects`: `if (!result) result = new DynamicBuffer();`
followed by `result.clear()`. -/
def resultBuffer (result : Option DynamicBuffer) : DynamicBuffer :=
  (match result with
   | some r => r
   | none => DynamicBuffer.init 0).clear

/-- The scan `for (i = 0; i < buffer.count; i++)` that pushes every hit
(Basic.intersects, Quadtree.intersects, Quadnode.intersects). -/
def scanPush (B : Bounds) (obj : Ref) (buffer result : DynamicBuffer) : DynamicBuffer :=
  buffer.live.foldl (fun res stored => if hit B obj stored then res.push stored else res) result

/-- The scan of one cell that pushes every hit not yet in the result
(Grid.intersects, SpatialHash.intersects). -/
def scanPushNew (B : Bounds) (obj : Ref) (buffer result : DynamicBuffer) : DynamicBuffer :=
  buffer.live.foldl
    (fun res stored =>
      if hit B obj stored then (if !res.contains stored then res.push stored else res) else res)
    result

/-- The outcome of a call: the state afterwards and the value the call evaluates to
(`none` is `undefined`, the value of a function body without `return`). -/
structure Call (σ : Type) where
  state : σ
  ret : Option Bool

/-! ## Basic (basic.js) -/

/-- Basic: one global buffer. -/
structure Basic where
  data : DynamicBuffer

/-- Basic.prototype.init. -/
def Basic.init : Basic := ⟨DynamicBuffer.init 0⟩

/-- Basic.prototype.clear. -/
def Basic.clear (s : Basic) : Basic := ⟨s.data.clear⟩

/-- Basic.prototype.insert: an empty body. -/
def Basic.insert (s : Basic) (_obj : Ref) : Call Basic := ⟨s, none⟩

/-- Basic.prototype.remove: an empty body. -/
def Basic.remove (s : Basic) (_obj : Ref) : Call Basic := ⟨s, none⟩

/-- Basic.prototype.intersects. -/
def Basic.intersects (B : Bounds) (s : Basic) (obj : Ref) (result : Option DynamicBuffer) :
    DynamicBuffer :=
  scanPush B obj s.data (resultBuffer result)

/-- Basic.prototype.reset. -/
def Basic.reset (_s : Basic) (objs : List Ref) : Basic :=
  ⟨objs.foldl (fun d o => d.push o) Basic.init.data⟩

/-! ## Grid (grid.js) -/

/-- A cell of the grid or of the spatial hash: a DynamicBuffer carrying the `min` and `max`
corners that render reads. -/
structure Cell where
  buf : DynamicBuffer
  min : Vector2
  max : Vector2

/-- The call `cell.push(obj)` on a cell. -/
def Cell.push (c : Cell) (obj : Ref) : Cell := { c with buf := c.buf.push obj }

/-- The call `cell.remove(obj)` on a cell (the returned flag is dropped by the callers). -/
def Cell.remove (c : Cell) (obj : Ref) : Cell := { c with buf := (c.buf.remove obj).1 }

/-- The call `cell.clear()` on a cell. -/
def Cell.clear (c : Cell) : Cell := { c with buf := c.buf.clear }

/-- The four loop bounds `xMin, yMin, xMax, yMax` computed at the head of insert, remove and
intersects. -/
structure CellRange where
  xMin : Int
  yMin : Int
  xMax : Int
  yMax : Int
deriving DecidableEq

/-- Grid: the world box, the division counts, the cell sizes and the rows of cells. A cell
size that is not a finite number (a division count of 0, or no reset yet) is kept as 0: `~~`
of a quotient by it is 0 in both cases. -/
structure Grid where
  box : Box2
  divisionsX : Nat
  divisionsY : Nat
  sizeX : ℚ
  sizeY : ℚ
  data : List (List Cell)

/-- The head of Grid.prototype.insert, remove and intersects: the cell range of a box,
`~~(coordinate / size)`, followed by "Bound the min/max values". -/
def Grid.range (g : Grid) (b : Box2) : CellRange :=
  let xMin := truncDiv b.min.x g.sizeX
  let yMin := truncDiv b.min.y g.sizeY
  let xMax := truncDiv b.max.x g.sizeX
  let yMax := truncDiv b.max.y g.sizeY
  { xMin := if xMin < 0 then 0 else xMin
    yMin := if yMin < 0 then 0 else yMin
    xMax := if xMax ≥ (g.divisionsX : Int) then (g.divisionsX : Int) - 1 else xMax
    yMax := if yMax ≥ (g.divisionsY : Int) then (g.divisionsY : Int) - 1 else yMax }

/-- The read `this.data[y][x]`. -/
def Grid.cell (data : List (List Cell)) (y x : Int) : Option Cell :=
  if 0 ≤ y ∧ 0 ≤ x then
    match data[y.toNat]? with
    | some row => row[x.toNat]?
    | none => none
  else none

/-- A method call on `this.data[y][x]` that changes the cell in place. -/
def Grid.modifyCell (f : Cell → Cell) (data : List (List Cell)) (y x : Int) :
    List (List Cell) :=
  if 0 ≤ y ∧ 0 ≤ x then data.modify (fun row => row.modify f x.toNat) y.toNat else data

/-- The double loop `for y in yMin..yMax, for x in xMin..xMax` applying a call to each cell. -/
def Grid.forCells (f : Cell → Cell) (r : CellRange) (data : List (List Cell)) :
    List (List Cell) :=
  (intRange r.yMin r.yMax).foldl
    (fun d y => (intRange r.xMin r.xMax).foldl (fun d x => Grid.modifyCell f d y x) d) data

/-- Grid.prototype.clear. -/
def Grid.clear (g : Grid) : Grid :=
  { g with data := g.data.map (fun row => row.map Cell.clear) }

/-- Grid.prototype.insert. -/
def Grid.insert (B : Bounds) (g : Grid) (obj : Ref) : Grid :=
  { g with data := Grid.forCells (fun c => c.push obj) (g.range (B obj)) g.data }

/-- Grid.prototype.remove. -/
def Grid.remove (B : Bounds) (g : Grid) (obj : Ref) : Grid :=
  { g with data := Grid.forCells (fun c => c.remove obj) (g.range (B obj)) g.data }

/-- Grid.prototype.intersects. -/
def Grid.intersects (B : Bounds) (g : Grid) (obj : Ref) (result : Option DynamicBuffer) :
    DynamicBuffer :=
  let r := g.range (B obj)
  (intRange r.yMin r.yMax).foldl
    (fun res y => (intRange r.xMin r.xMax).foldl
      (fun res x =>
        match Grid.cell g.data y x with
        | some buffer => scanPushNew B obj buffer.buf res
        | none => res) res)
    (resultBuffer result)

/-- The cell Grid.prototype.reset builds at row `y`, column `x`: an empty buffer with the
corners of the cell, the rounded products `x * sizeX`, `(x + 1) * sizeX` (and likewise in
`y`). -/
def Grid.newCell (sizeX sizeY : ℚ) (y x : Nat) : Cell :=
  { buf := DynamicBuffer.init 0
    min := ⟨fl ((x : ℚ) * sizeX), fl ((y : ℚ) * sizeY)⟩
    max := ⟨fl (((x : ℚ) + 1) * sizeX), fl (((y : ℚ) + 1) * sizeY)⟩ }

/-- The first part of Grid.prototype.reset: the new box, the cell sizes (the rounded
quotients `width / divisionsX`, `height / divisionsY`) and the empty cells. -/
def Grid.rebuild (g : Grid) (width height : ℚ) : Grid :=
  let sizeX := fl (width / (g.divisionsX : ℚ))
  let sizeY := fl (height / (g.divisionsY : ℚ))
  let data := (List.range g.divisionsY).map (fun (y : Nat) =>
    (List.range g.divisionsX).map (fun (x : Nat) => Grid.newCell sizeX sizeY y x))
  { g with box := ⟨⟨0, 0⟩, ⟨width, height⟩⟩, sizeX := sizeX, sizeY := sizeY, data := data }

/-- Grid.prototype.reset: rebuild the cells, then insert all the objects. -/
def Grid.reset (B : Bounds) (g : Grid) (objs : List Ref) (width height : ℚ) : Grid :=
  objs.foldl (Grid.insert B) (g.rebuild width height)

/-- Grid.prototype.init: 7 by 6 divisions, then `reset([], 1, 1)` (sizes and cells are
unset before that reset). -/
def Grid.init (B : Bounds) : Grid :=
  Grid.reset B ⟨⟨⟨0, 0⟩, ⟨1, 1⟩⟩, 7, 6, 0, 0, []⟩ [] 1 1

/-! ## Quadtree and Quadnode (quadtree.js) -/

/-- The four children of a node that is not a leaf. -/
inductive Quadrant where
  | nw
  | ne
  | se
  | sw
deriving DecidableEq

/-- Quadnode: box, center, level, data buffer; a node that is not a leaf (`leaf = false`)
owns the four children `nw, ne, se, sw`, given as a map from `Quadrant`. The colour table
`mult` is the same constant in every node and is read by render only. -/
inductive Quadnode where
  | leaf (box : Box2) (center : Vector2) (level : Nat) (data : DynamicBuffer)
  | inner (box : Box2) (center : Vector2) (level : Nat) (data : DynamicBuffer)
      (child : Quadrant → Quadnode)

/-- The field `box`. -/
def Quadnode.box : Quadnode → Box2
  | .leaf b _ _ _ => b
  | .inner b _ _ _ _ => b

/-- The field `center`. -/
def Quadnode.center : Quadnode → Vector2
  | .leaf _ c _ _ => c
  | .inner _ c _ _ _ => c

/-- The field `level`. -/
def Quadnode.level : Quadnode → Nat
  | .leaf _ _ l _ => l
  | .inner _ _ l _ _ => l

/-- The field `data`. -/
def Quadnode.data : Quadnode → DynamicBuffer
  | .leaf _ _ _ d => d
  | .inner _ _ _ d _ => d

/-- The field `leaf`. -/
def Quadnode.isLeaf : Quadnode → Bool
  | .leaf _ _ _ _ => true
  | .inner _ _ _ _ _ => false

/-- The box of each child built by Quadnode.prototype.init. -/
def Quadnode.childBox (box : Box2) (center : Vector2) : Quadrant → Box2
  | .nw => ⟨⟨box.min.x, box.min.y⟩, ⟨center.x, center.y⟩⟩
  | .ne => ⟨⟨center.x, box.min.y⟩, ⟨box.max.x, center.y⟩⟩
  | .se => ⟨⟨center.x, center.y⟩, ⟨box.max.x, box.max.y⟩⟩
  | .sw => ⟨⟨box.min.x, center.y⟩, ⟨center.x, box.max.y⟩⟩

/-- Quadnode.prototype.init: children are built exactly when `level > 1`. -/
def Quadnode.init (box : Box2) : Nat → Quadnode
  | 0 => .leaf box box.center 0 (DynamicBuffer.init 0)
  | 1 => .leaf box box.center 1 (DynamicBuffer.init 0)
  | (l + 2) => .inner box box.center (l + 2) (DynamicBuffer.init 0)
      (fun q => Quadnode.init (Quadnode.childBox box box.center q) (l + 1))

/-- Quadnode.prototype.clear. -/
def Quadnode.clear : Quadnode → Quadnode
  | .leaf box c l data => .leaf box c l data.clear
  | .inner box c l data child => .inner box c l data.clear (fun q => (child q).clear)

/-- The child chosen by the center comparisons of Quadnode.prototype.insert and remove. -/
def Quadnode.route (center c : Vector2) : Quadrant :=
  if center.y ≤ c.y then (if center.x ≤ c.x then .nw else .ne)
  else (if center.x ≤ c.x then .sw else .se)

/-- The write `obj.alpha = a`. -/
def Alpha.set (A : Alpha) (obj : Ref) (a : ℚ) : Alpha :=
  fun r => if r = obj then a else A r

/-- Quadnode.prototype.insert: the returned flag, the node afterwards and the alpha fields
afterwards. -/
def Quadnode.insert (B : Bounds) (obj : Ref) (center : Vector2) :
    Quadnode → Alpha → Bool × Quadnode × Alpha
  | .leaf box c l data, A =>
      if box.containsBox (B obj) then
        (true, .leaf box c l (data.push obj), A.set obj (1 / 4 * (l : ℚ)))
      else (false, .leaf box c l data, A)
  | .inner box c l data child, A =>
      if box.containsBox (B obj) then
        let r := Quadnode.insert B obj center (child (Quadnode.route center c)) A
        let child1 := Function.update child (Quadnode.route center c) r.2.1
        if r.1 then (true, .inner box c l data child1, r.2.2)
        else (true, .inner box c l (data.push obj) child1, r.2.2.set obj (1 / 4 * (l : ℚ)))
      else (false, .inner box c l data child, A)

/-- Quadnode.prototype.remove: the returned flag and the node afterwards. -/
def Quadnode.remove (B : Bounds) (obj : Ref) (center : Vector2) :
    Quadnode → Bool × Quadnode
  | .leaf box c l data =>
      if box.containsBox (B obj) then
        ((data.remove obj).2, .leaf box c l (data.remove obj).1)
      else (false, .leaf box c l data)
  | .inner box c l data child =>
      if box.containsBox (B obj) then
        let r := Quadnode.remove B obj center (child (Quadnode.route center c))
        let child1 := Function.update child (Quadnode.route center c) r.2
        if r.1 then (true, .inner box c l data child1)
        else ((data.remove obj).2, .inner box c l (data.remove obj).1 child1)
      else (false, .inner box c l data child)

/-- Quadnode.prototype.intersects: the result buffer afterwards. -/
def Quadnode.intersects (B : Bounds) (obj : Ref) (center : Vector2) :
    Quadnode → DynamicBuffer → DynamicBuffer
  | .leaf box _ _ data, result =>
      if !box.isIntersectionBox (B obj) && !box.containsBox (B obj) then result
      else scanPush B obj data result
  | .inner box _ _ data child, result =>
      if !box.isIntersectionBox (B obj) && !box.containsBox (B obj) then result
      else
        let result := scanPush B obj data result
        let result := Quadnode.intersects B obj center (child .nw) result
        let result := Quadnode.intersects B obj center (child .ne) result
        let result := Quadnode.intersects B obj center (child .sw) result
        Quadnode.intersects B obj center (child .se) result

/-- Quadtree: the world box, the depth, the overflow buffer `data` and the root node. -/
structure Quadtree where
  box : Box2
  depth : Nat
  data : DynamicBuffer
  root : Quadnode

/-- Quadtree.prototype.clear. -/
def Quadtree.clear (t : Quadtree) : Quadtree :=
  { t with root := t.root.clear }

/-- Quadtree.prototype.insert. -/
def Quadtree.insert (B : Bounds) (t : Quadtree) (obj : Ref) (A : Alpha) :
    Call (Quadtree × Alpha) :=
  let r := t.root.insert B obj (B obj).center A
  if !r.1 then ⟨({ t with root := r.2.1, data := t.data.push obj }, r.2.2), none⟩
  else ⟨({ t with root := r.2.1 }, r.2.2), none⟩

/-- Quadtree.prototype.remove. -/
def Quadtree.remove (B : Bounds) (t : Quadtree) (obj : Ref) : Call Quadtree :=
  let r := t.root.remove B obj (B obj).center
  if !r.1 then ⟨{ t with root := r.2, data := (t.data.remove obj).1 }, none⟩
  else ⟨{ t with root := r.2 }, none⟩

/-- Quadtree.prototype.intersects. -/
def Quadtree.intersects (B : Bounds) (t : Quadtree) (obj : Ref)
    (result : Option DynamicBuffer) : DynamicBuffer :=
  let result := scanPush B obj t.data (resultBuffer result)
  t.root.intersects B obj (B obj).center result

/-- Quadtree.prototype.reset. -/
def Quadtree.reset (B : Bounds) (t : Quadtree) (objs : List Ref) (width height : ℚ)
    (A : Alpha) : Quadtree × Alpha :=
  let box : Box2 := ⟨⟨0, 0⟩, ⟨width, height⟩⟩
  objs.foldl (fun s o => (Quadtree.insert B s.1 o s.2).state)
    ({ t with box := box, data := DynamicBuffer.init 0, root := Quadnode.init box t.depth }, A)

/-- Quadtree.prototype.init: depth 4, then `reset([], 1, 1)` (the root is unset before that
reset). -/
def Quadtree.init (B : Bounds) (A : Alpha) : Quadtree :=
  (Quadtree.reset B
    ⟨⟨⟨0, 0⟩, ⟨1, 1⟩⟩, 4, DynamicBuffer.init 0, Quadnode.init ⟨⟨0, 0⟩, ⟨1, 1⟩⟩ 0⟩ [] 1 1 A).1

/-! ## SpatialHash (spatialhash.js) -/

/-- A JavaScript object used as a sparse map from integer keys, in order of creation. -/
abbrev JSObject (V : Type) := List (Int × V)

/-- The read `m[k]`. -/
def JSObject.get? {V : Type} : JSObject V → Int → Option V
  | [], _ => none
  | (k1, v1) :: m, k => if k1 = k then some v1 else JSObject.get? m k

/-- The write `m[k] = v`. -/
def JSObject.set {V : Type} : JSObject V → Int → V → JSObject V
  | [], k, v => [(k, v)]
  | (k1, v1) :: m, k, v => if k1 = k then (k, v) :: m else (k1, v1) :: JSObject.set m k v

/-- SpatialHash: the cell sizes and the rows of cells, keyed by row and column index. -/
structure SpatialHash where
  sizeX : ℚ
  sizeY : ℚ
  data : JSObject (JSObject Cell)

/-- The head of SpatialHash.prototype.insert, remove and intersects: the cell range of a
box, `~~(coordinate / size)`. -/
def SpatialHash.range (s : SpatialHash) (b : Box2) : CellRange :=
  { xMin := toInt32 (b.min.x / s.sizeX)
    yMin := toInt32 (b.min.y / s.sizeY)
    xMax := toInt32 (b.max.x / s.sizeX)
    yMax := toInt32 (b.max.y / s.sizeY) }

/-- SpatialHash.prototype.clear. -/
def SpatialHash.clear (s : SpatialHash) : SpatialHash :=
  { s with data := s.data.map (fun row => (row.1, row.2.map (fun c => (c.1, c.2.clear)))) }

/-- The body of the inner loop of SpatialHash.prototype.insert: create the cell when it is
missing, then push. -/
def SpatialHash.insertCell (s : SpatialHash) (obj : Ref) (y : Int) (row : JSObject Cell)
    (x : Int) : JSObject Cell :=
  let cell : Cell :=
    match row.get? x with
    | some c => c
    | none =>
      { buf := DynamicBuffer.init 0
        min := ⟨(x : ℚ) * s.sizeX, (y : ℚ) * s.sizeY⟩
        max := ⟨(x : ℚ) * s.sizeX + s.sizeX, (y : ℚ) * s.sizeY + s.sizeY⟩ }
  row.set x (cell.push obj)

/-- The body of the outer loop of SpatialHash.prototype.insert: create the row when it is
missing, then run the inner loop over the columns. -/
def SpatialHash.insertRow (s : SpatialHash) (obj : Ref) (r : CellRange)
    (d : JSObject (JSObject Cell)) (y : Int) : JSObject (JSObject Cell) :=
  let row : JSObject Cell :=
    match d.get? y with
    | some row => row
    | none => []
  JSObject.set d y ((intRange r.xMin r.xMax).foldl (SpatialHash.insertCell s obj y) row)

/-- SpatialHash.prototype.insert. -/
def SpatialHash.insert (B : Bounds) (s : SpatialHash) (obj : Ref) : SpatialHash :=
  let r := s.range (B obj)
  { s with data := (intRange r.yMin r.yMax).foldl (SpatialHash.insertRow s obj r) s.data }

/-- The body of the inner loop of SpatialHash.prototype.remove. -/
def SpatialHash.removeCell (obj : Ref) (row : JSObject Cell) (x : Int) : JSObject Cell :=
  match row.get? x with
  | some c => row.set x (c.remove obj)
  | none => row

/-- The body of the outer loop of SpatialHash.prototype.remove: skip a missing row, else
run the inner loop over the columns. -/
def SpatialHash.removeRow (obj : Ref) (r : CellRange) (d : JSObject (JSObject Cell))
    (y : Int) : JSObject (JSObject Cell) :=
  match d.get? y with
  | some row => JSObject.set d y ((intRange r.xMin r.xMax).foldl (SpatialHash.removeCell obj) row)
  | none => d

/-- SpatialHash.prototype.remove. -/
def SpatialHash.remove (B : Bounds) (s : SpatialHash) (obj : Ref) : SpatialHash :=
  let r := s.range (B obj)
  { s with data := (intRange r.yMin r.yMax).foldl (SpatialHash.removeRow obj r) s.data }

/-- SpatialHash.prototype.intersects. -/
def SpatialHash.intersects (B : Bounds) (s : SpatialHash) (obj : Ref)
    (result : Option DynamicBuffer) : DynamicBuffer :=
  let r := s.range (B obj)
  (intRange r.yMin r.yMax).foldl
    (fun res y =>
      match s.data.get? y with
      | some row => (intRange r.xMin r.xMax).foldl
          (fun res x =>
            match row.get? x with
            | some buffer => scanPushNew B obj buffer.buf res
            | none => res) res
      | none => res)
    (resultBuffer result)

/-- SpatialHash.prototype.reset. -/
def SpatialHash.reset (B : Bounds) (s : SpatialHash) (objs : List Ref) : SpatialHash :=
  objs.foldl (SpatialHash.insert B) { s with data := [] }

/-- SpatialHash.prototype.init: cell size 110 by 110, then `reset([])`. -/
def SpatialHash.init (B : Bounds) : SpatialHash :=
  SpatialHash.reset B ⟨110, 110, []⟩ []

/-! ## Notions used to state the properties -/

/-- All objects held in the buffers of a subtree, in the order in which
Quadnode.prototype.intersects visits the nodes. -/
def Quadnode.stored : Quadnode → List Ref
  | .leaf _ _ _ data => data.live
  | .inner _ _ _ data child =>
      data.live ++ ((child .nw).stored ++ ((child .ne).stored ++
        ((child .sw).stored ++ (child .se).stored)))

/-- The objects Quadnode.prototype.intersects appends to the result, in order. -/
def Quadnode.hits (B : Bounds) (obj : Ref) : Quadnode → List Ref
  | .leaf box _ _ data =>
      if !box.isIntersectionBox (B obj) && !box.containsBox (B obj) then []
      else data.live.filter (hit B obj)
  | .inner box _ _ data child =>
      if !box.isIntersectionBox (B obj) && !box.containsBox (B obj) then []
      else data.live.filter (hit B obj) ++ ((child .nw).hits B obj ++ ((child .ne).hits B obj ++
        ((child .sw).hits B obj ++ (child .se).hits B obj)))

/-- Every object held anywhere in a subtree is contained in the box of the root of that
subtree, and so on for every subtree. -/
def Quadnode.Fits (B : Bounds) : Quadnode → Prop
  | .leaf box _ _ data => ∀ r, r ∈ data.live → box.containsBox (B r) = true
  | .inner box _ _ data child =>
      (∀ r, r ∈ data.live → box.containsBox (B r) = true) ∧
      ∀ q, (∀ r, r ∈ (child q).stored → box.containsBox (B r) = true) ∧ (child q).Fits B

/-- All objects held by a quadtree: the overflow buffer, then the nodes. -/
def Quadtree.stored (t : Quadtree) : List Ref :=
  t.data.live ++ t.root.stored

/-- The live contents of the grid cell at row `y`, column `x` (empty when there is no such
cell). -/
def Grid.cellLive (data : List (List Cell)) (y x : Int) : List Ref :=
  match Grid.cell data y x with
  | some c => c.buf.live
  | none => []

/-- The live contents of the cell at column `x` of a spatial-hash row (empty when the cell
has not been created). -/
def SpatialHash.rowLive (row : JSObject Cell) (x : Int) : List Ref :=
  match row.get? x with
  | some c => c.buf.live
  | none => []

/-- The live contents of the spatial-hash cell at row `y`, column `x` (empty when the row or
the cell has not been created). -/
def SpatialHash.cellLive (data : JSObject (JSObject Cell)) (y x : Int) : List Ref :=
  match data.get? y with
  | some row => SpatialHash.rowLive row x
  | none => []

/-- A number whose `~~` does not wrap around: it lies in the signed 32-bit range. -/
def InInt32 (x : ℚ) : Prop := -2147483648 ≤ x ∧ x < 2147483648

/-- A box all of whose cell quotients `coordinate / size` lie in the signed 32-bit range. -/
def Box2.InInt32 (sizeX sizeY : ℚ) (b : Box2) : Prop :=
  SQ.InInt32 (b.min.x / sizeX) ∧ SQ.InInt32 (b.max.x / sizeX) ∧
    SQ.InInt32 (b.min.y / sizeY) ∧ SQ.InInt32 (b.max.y / sizeY)

instance (x : ℚ) : Decidable (InInt32 x) := by
  unfold InInt32; infer_instance

instance (sizeX sizeY : ℚ) (b : Box2) : Decidable (b.InInt32 sizeX sizeY) := by
  unfold Box2.InInt32; infer_instance

/-- The bounds map that gives the object `r` the `r`-th box of a list. -/
def boxes (l : List Box2) : Bounds :=
  fun r => l.getD r ⟨⟨0, 0⟩, ⟨0, 0⟩⟩

/-- A box from its four coordinates `[[x0, y0], [x1, y1]]`. -/
def box (x0 y0 x1 y1 : ℚ) : Box2 := ⟨⟨x0, y0⟩, ⟨x1, y1⟩⟩

/-- Quadtree states reached from a reset on pairwise-distinct objects by removes and by
inserts of an object that is not held at that moment (bounds may differ from call to call). -/
inductive Quadtree.InsertedOnce : Quadtree → Prop where
  | reset (B : Bounds) (t : Quadtree) (objs : List Ref) (w h : ℚ) (A : Alpha) :
      objs.Nodup → Quadtree.InsertedOnce (Quadtree.reset B t objs w h A).1
  | insert (B : Bounds) (t : Quadtree) (obj : Ref) (A : Alpha) :
      Quadtree.InsertedOnce t → obj ∉ t.stored →
        Quadtree.InsertedOnce (Quadtree.insert B t obj A).state.1
  | remove (B : Bounds) (t : Quadtree) (obj : Ref) :
      Quadtree.InsertedOnce t → Quadtree.InsertedOnce (Quadtree.remove B t obj).state

/-! ## Concrete scenes -/

/-- The alpha fields before any call. -/
def alpha0 : Alpha := fun _ => 1

/-- The scene of the specification: objects 0, 1, 2 are `A = [[0,0],[50,50]]`,
`B = [[40,40],[90,90]]` and `C = [[900,900],[950,950]]`. -/
def sceneABC : Bounds :=
  boxes [box 0 0 50 50, box 40 40 90 90, box 900 900 950 950]

/-- Object 0 reaches `2^31` cells to the right of the origin of a hash with cell size 110;
object 1 is a small query box inside it. -/
def sceneWide : Bounds :=
  boxes [box 0 0 236223201280 10, box 5 5 6 6]

/-- Object 0 lies to the right of a world 700 wide; object 1 overlaps it. -/
def sceneOutside : Bounds :=
  boxes [box 800 0 810 10, box 805 5 815 15]

/-- Object 0 is a small box, object 1 a query box around it. -/
def sceneNested : Bounds :=
  boxes [box 1 1 2 2, box 0 0 3 3]

/-- Two boxes with `min > max`: object 1 contains object 0 according to containsBox. -/
def sceneMalformed : Bounds :=
  boxes [box 3 3 1 1, box 3 3 (5 / 2) (5 / 2)]

/-- Object 0 lies outside a world 10 by 10; object 1 overlaps it. -/
def sceneOverflow : Bounds :=
  boxes [box 20 20 30 30, box 25 25 35 35]

/-- The buffer obtained from `new DynamicBuffer()` by pushing the objects of a list. -/
def bufferOf (l : List Ref) : DynamicBuffer :=
  l.foldl (fun d o => d.push o) (DynamicBuffer.init 0)

/-- Object 0 lies at negative coordinates, `[[-50,-50],[-10,-10]]`. -/
def sceneNegative : Bounds :=
  boxes [box (-50) (-50) (-10) (-10)]

/-- Object 0 is the box `[[95,0],[105,10]]` of the boundary scenario. -/
def sceneBoundary : Bounds :=
  boxes [box 95 0 105 10]

/-- Rounding toward zero: the floor of a number that is not negative, the ceiling of a
negative one. -/
def roundTowardZero (x : ℚ) : Int :=
  if 0 ≤ x then ⌊x⌋ else -⌊-x⌋

/-- The buffer `r1` is the buffer `r` after a sequence of push calls: the same buffer object,
with its storage, further filled. -/
def DynamicBuffer.PushedFrom (r r1 : DynamicBuffer) : Prop :=
  ∃ l : List Ref, r1 = l.foldl (fun d o => d.push o) r

/-- The `level` fields of the nodes of a subtree whose data buffer holds the object `o`. -/
def Quadnode.holderLevels (o : Ref) : Quadnode → List Nat
  | .leaf _ _ l data => if o ∈ data.live then [l] else []
  | .inner _ _ l data child =>
      (if o ∈ data.live then [l] else []) ++
        ((child .nw).holderLevels o ++ ((child .ne).holderLevels o ++
          ((child .sw).holderLevels o ++ (child .se).holderLevels o)))

/-- A point lies in a box, borders included. -/
def Box2.HasPoint (b : Box2) (p : Vector2) : Prop :=
  b.min.x ≤ p.x ∧ p.x ≤ b.max.x ∧ b.min.y ≤ p.y ∧ p.y ≤ b.max.y

/-- A point lies strictly inside a box. -/
def Box2.HasInteriorPoint (b : Box2) (p : Vector2) : Prop :=
  b.min.x < p.x ∧ p.x < b.max.x ∧ b.min.y < p.y ∧ p.y < b.max.y

/-- A point is one of the four corners of a box. -/
def Box2.HasCorner (b : Box2) (p : Vector2) : Prop :=
  (p.x = b.min.x ∨ p.x = b.max.x) ∧ (p.y = b.min.y ∨ p.y = b.max.y)

/-- The width of a box. -/
def Box2.width (b : Box2) : ℚ := b.max.x - b.min.x

/-- The height of a box. -/
def Box2.height (b : Box2) : ℚ := b.max.y - b.min.y

/-- The shape of a complete tree of equal quadrants: a leaf has level 1; a node that is not a
leaf has a level above 1 and four children one level lower, each with a box that is contained
in the box of the node, has half its width and half its height and has the center of the node
as a corner; the four child boxes cover the box of the node, and two distinct children share
no interior point; every child has this shape again. -/
def Quadnode.Shape : Quadnode → Prop
  | .leaf _ _ l _ => l = 1
  | .inner box _ l _ child =>
      1 < l ∧
      (∀ q, (child q).level + 1 = l ∧ box.containsBox (child q).box = true ∧
        (child q).box.width = box.width / 2 ∧ (child q).box.height = box.height / 2 ∧
        (child q).box.HasCorner box.center ∧ (child q).Shape) ∧
      (∀ p, box.HasPoint p → ∃ q, (child q).box.HasPoint p) ∧
      (∀ q1 q2 p, q1 ≠ q2 →
        ¬ ((child q1).box.HasInteriorPoint p ∧ (child q2).box.HasInteriorPoint p))

/-- The node with every data buffer replaced by a fresh one: what is left is the geometry
and the levels. -/
def Quadnode.skeleton : Quadnode → Quadnode
  | .leaf box c l _ => .leaf box c l (DynamicBuffer.init 0)
  | .inner box c l _ child => .inner box c l (DynamicBuffer.init 0) (fun q => (child q).skeleton)

/-- The geometry Quadnode.prototype.init gives to a subtree: the center of a node is the
center of its box, and the boxes of the children are the four boxes built from the corners
and the center. -/
def Quadnode.Built : Quadnode → Prop
  | .leaf _ _ _ _ => True
  | .inner box c _ _ child =>
      c = box.center ∧ ∀ q, (child q).box = Quadnode.childBox box c q ∧ (child q).Built

/-- The storage invariant of the nodes: every object held in the data buffer of a node is
contained in the box of that node and, when the node is not a leaf, in the box of none of
its four children; and so on for the children. -/
def Quadnode.Deepest (B : Bounds) : Quadnode → Prop
  | .leaf box _ _ data => ∀ r, r ∈ data.live → box.containsBox (B r) = true
  | .inner box _ _ data child =>
      (∀ r, r ∈ data.live →
        box.containsBox (B r) = true ∧ ∀ q, (child q).box.containsBox (B r) = false) ∧
      ∀ q, (child q).Deepest B

/-- The quadtree states reached from a reset by insert, remove and clear calls, all on boxes
with the bounds `B`, where every inserted box is well-formed. -/
inductive Quadtree.Reachable (B : Bounds) : Quadtree → Prop where
  | reset (t : Quadtree) (objs : List Ref) (w h : ℚ) (A : Alpha) :
      (∀ o, o ∈ objs → (B o).WellFormed) →
        Quadtree.Reachable B (Quadtree.reset B t objs w h A).1
  | insert (t : Quadtree) (obj : Ref) (A : Alpha) :
      Quadtree.Reachable B t → (B obj).WellFormed →
        Quadtree.Reachable B (Quadtree.insert B t obj A).state.1
  | remove (t : Quadtree) (obj : Ref) :
      Quadtree.Reachable B t → Quadtree.Reachable B (Quadtree.remove B t obj).state
  | clear (t : Quadtree) :
      Quadtree.Reachable B t → Quadtree.Reachable B t.clear

/-! ## render -/

/-- THREE.Color: the three components written by `setRGB` (`none` is NaN). -/
structure Color where
  r : Option ℚ
  g : Option ℚ
  b : Option ℚ
deriving DecidableEq

/-- The fields of the boxes that render reads or writes: the bounds, the opacity `alpha` and
the `color`. Indexed objects and boxes of the visual pool are boxes of the same kind and live
in the same store. -/
structure Heap where
  bounds : Bounds
  alpha : Alpha
  color : Ref → Color

/-- Modelled from the spec: THREE.Box2.set of the external three.js library (render "sets
bounds/color/opacity per occupied region"): the box takes the given corners. -/
def Box2.set (_b : Box2) (min max : Vector2) : Box2 := ⟨min, max⟩

/-- Modelled from the spec: THREE.Color.setRGB of the external three.js library ("RGB tint"):
the color takes the given components. -/
def Color.setRGB (_c : Color) (r g b : Option ℚ) : Color := ⟨r, g, b⟩

/-- The three writes of the render loops to a pool box `r`: `alpha = 0.975`,
`color.setRGB(0.329 * m, 0.918 * m, 0.945 * m)` and `set(min, max)`. -/
def Heap.paint (H : Heap) (r : Ref) (m : Option ℚ) (min max : Vector2) : Heap :=
  { bounds := fun r1 => if r1 = r then (H.bounds r1).set min max else H.bounds r1
    alpha := H.alpha.set r (39 / 40)
    color := fun r1 =>
      if r1 = r then
        (H.color r1).setRGB (m.map (fun (m : ℚ) => 329 / 1000 * m))
          (m.map (fun (m : ℚ) => 459 / 500 * m)) (m.map (fun (m : ℚ) => 189 / 200 * m))
      else H.color r1 }

/-- The write `alpha = 0` to a pool box `r`. -/
def Heap.blank (H : Heap) (r : Ref) : Heap :=
  { H with alpha := H.alpha.set r 0 }

/-- The last loop of every render, `for (i = used; i < boxes.count; i++)
boxes.data[i].alpha = 0`. The result `none` is the TypeError of a write through a slot that
holds no box. -/
def blankRest (pool : DynamicBuffer) (used : Nat) (H : Heap) : Option Heap :=
  (List.range' used (pool.count - used)).foldl
    (fun (st : Option Heap) (i : Nat) =>
      st.bind (fun (H1 : Heap) => (pool.data.get i).map (fun (r : Ref) => H1.blank r)))
    (some H)

/-- The body `if (count > 0) ...` shared by the render loops, on the state `(index, boxes)`:
a region that holds objects is written to the pool box at slot `index`, and `index` advances. -/
def renderRegion (pool : DynamicBuffer) (count : Nat) (m : Option ℚ) (min max : Vector2)
    (st : Nat × Heap) : Option (Nat × Heap) :=
  if count > 0 then
    (pool.data.get st.1).map (fun (r : Ref) => (st.1 + 1, st.2.paint r m min max))
  else some st

/-- Basic.prototype.render. -/
def Basic.render (_s : Basic) (pool : DynamicBuffer) (H : Heap) : Option Heap :=
  blankRest pool 0 H

/-- The body of the inner loop of Grid.prototype.render at row `y`, column `x`; reading a
cell that does not exist is a TypeError. -/
def Grid.renderCell (g : Grid) (pool : DynamicBuffer) (y : Nat) (st : Option (Nat × Heap))
    (x : Nat) : Option (Nat × Heap) :=
  st.bind (fun (st1 : Nat × Heap) =>
    (Grid.cell g.data (y : Int) (x : Int)).bind (fun (cell : Cell) =>
      renderRegion pool cell.buf.count (some (2 / 5)) cell.min cell.max st1))

/-- Grid.prototype.render. -/
def Grid.render (g : Grid) (pool : DynamicBuffer) (H : Heap) : Option Heap :=
  ((List.range g.divisionsY).foldl
      (fun (st : Option (Nat × Heap)) (y : Nat) =>
        (List.range g.divisionsX).foldl (Grid.renderCell g pool y) st)
      (some (0, H))).bind
    (fun (st : Nat × Heap) => blankRest pool st.1 st.2)

/-- The lookup `this.mult[this.level]` in the table `[0, 0.18, 0.42, 0.75, 1, 1]`
(`none` is `undefined`). -/
def Quadnode.mult (level : Nat) : Option ℚ :=
  ([0, 9 / 50, 21 / 50, 3 / 4, 1, 1] : List ℚ).get? level

/-- Quadnode.prototype.render on the state `(index, boxes)`: the children `nw, ne, se, sw`
first, then the node. -/
def Quadnode.render (pool : DynamicBuffer) : Quadnode → Nat × Heap → Option (Nat × Heap)
  | .leaf box _ l data, st =>
      renderRegion pool data.count (Quadnode.mult l) box.min box.max st
  | .inner box _ l data child, st =>
      (((((child .nw).render pool st).bind
        (fun (st1 : Nat × Heap) => (child .ne).render pool st1)).bind
        (fun (st1 : Nat × Heap) => (child .se).render pool st1)).bind
        (fun (st1 : Nat × Heap) => (child .sw).render pool st1)).bind
        (fun (st1 : Nat × Heap) =>
          renderRegion pool data.count (Quadnode.mult l) box.min box.max st1)

/-- Quadtree.prototype.render. -/
def Quadtree.render (t : Quadtree) (pool : DynamicBuffer) (H : Heap) : Option Heap :=
  (t.root.render pool (0, H)).bind (fun (st : Nat × Heap) => blankRest pool st.1 st.2)

/-- The body of the inner loop of SpatialHash.prototype.render on one cell of a row. -/
def SpatialHash.renderCell (pool : DynamicBuffer) (st : Option (Nat × Heap))
    (cell : Int × Cell) : Option (Nat × Heap) :=
  st.bind (fun (st1 : Nat × Heap) =>
    renderRegion pool cell.2.buf.count (some (2 / 5)) cell.2.min cell.2.max st1)

/-- The entries of an object in the order in which a `for ... in` loop visits its keys: the
keys that are array indices (the integers from 0 to `2^32 - 2`) in ascending order first, then
the other keys (the negative ones) in order of creation. -/
def JSObject.forInOrder {V : Type} (o : JSObject V) : List (Int × V) :=
  (o.filter (fun (e : Int × V) => decide (0 ≤ e.1 ∧ e.1 < 4294967295))).insertionSort
      (fun (a b : Int × V) => a.1 ≤ b.1) ++
    o.filter (fun (e : Int × V) => !decide (0 ≤ e.1 ∧ e.1 < 4294967295))

/-- SpatialHash.prototype.render: the two `for ... in` loops visit every row and every cell
once (the tests `!row` and `!cell` never hold, a key is only ever given a row or a cell). -/
def SpatialHash.render (s : SpatialHash) (pool : DynamicBuffer) (H : Heap) : Option Heap :=
  ((JSObject.forInOrder s.data).foldl
      (fun (st : Option (Nat × Heap)) (row : Int × JSObject Cell) =>
        (JSObject.forInOrder row.2).foldl (SpatialHash.renderCell pool) st)
      (some (0, H))).bind
    (fun (st : Nat × Heap) => blankRest pool st.1 st.2)

/-- Every slot of a buffer below its `count` holds a box (as in every buffer built by init,
push, remove and clear). -/
def DynamicBuffer.Filled (pool : DynamicBuffer) : Prop :=
  ∀ i, i < pool.count → (pool.data.get i).isSome = true

instance (pool : DynamicBuffer) : Decidable pool.Filled := by
  unfold DynamicBuffer.Filled; infer_instance

/-- Two stores agree on every field of every box that is not a box of the pool. -/
def Heap.SameOutside (pool : DynamicBuffer) (H H1 : Heap) : Prop :=
  ∀ r, r ∉ pool.live →
    H1.bounds r = H.bounds r ∧ H1.alpha r = H.alpha r ∧ H1.color r = H.color r

/-- The number of pool boxes a region takes: one when it holds objects, else none. -/
def occupied (count : Nat) : Nat := if count > 0 then 1 else 0

/-- The number of pool boxes the cell at row `y`, column `x` of a grid takes. -/
def Grid.occupiedAt (g : Grid) (y x : Nat) : Nat :=
  match Grid.cell g.data (y : Int) (x : Int) with
  | some c => occupied c.buf.count
  | none => 0

/-- The number of occupied cells of a grid. -/
def Grid.occupied (g : Grid) : Nat :=
  ((List.range g.divisionsY).map (fun (y : Nat) =>
    ((List.range g.divisionsX).map (fun (x : Nat) => g.occupiedAt y x)).sum)).sum

/-- The grid has a cell at every row below `divisionsY` and column below `divisionsX` (as
after every reset). -/
def Grid.HasCells (g : Grid) : Prop :=
  ∀ y, y < g.divisionsY → ∀ x, x < g.divisionsX →
    (Grid.cell g.data (y : Int) (x : Int)).isSome = true

instance (g : Grid) : Decidable g.HasCells := by
  unfold Grid.HasCells; infer_instance

/-- All objects held in the cells of a grid. -/
def Grid.stored (g : Grid) : List Ref :=
  g.data.flatMap (fun (row : List Cell) => row.flatMap (fun (c : Cell) => c.buf.live))

/-- The number of occupied nodes of a subtree. -/
def Quadnode.occupied : Quadnode → Nat
  | .leaf _ _ _ data => SQ.occupied data.count
  | .inner _ _ _ data child =>
      (child .nw).occupied + (child .ne).occupied + (child .se).occupied +
        (child .sw).occupied + SQ.occupied data.count

/-- The number of occupied cells of a spatial hash. -/
def SpatialHash.occupied (s : SpatialHash) : Nat :=
  (s.data.map (fun (row : Int × JSObject Cell) =>
    (row.2.map (fun (c : Int × Cell) => SQ.occupied c.2.buf.count)).sum)).sum

/-- All objects held in the cells of a spatial hash. -/
def SpatialHash.stored (s : SpatialHash) : List Ref :=
  s.data.flatMap (fun (row : Int × JSObject Cell) =>
    row.2.flatMap (fun (c : Int × Cell) => c.2.buf.live))

/-- Every color white, as in the boxes the demo creates. -/
def color0 : Ref → Color := fun _ => ⟨some 1, some 1, some 1⟩

/-- Object 0 is `[[0,0],[50,50]]` and object 1 is `[[60,60],[70,70]]`: both lie in the grid
cell `[[0,0],[100,100]]` of a world 700 by 600 and do not overlap. -/
def sceneRender : Bounds :=
  boxes [box 0 0 50 50, box 60 60 70 70]

/-- The boxes of the scene of the specification with opacity 1 and white color. -/
def heapABC : Heap := ⟨sceneABC, alpha0, color0⟩

/-- A visual pool of four boxes 10, 11, 12, 13, none of them an object of the scene. -/
def poolABC : DynamicBuffer := bufferOf [10, 11, 12, 13]

/-- The four strategies after a reset on the objects 0, 1, 2 of the scene of the
specification, on a world 700 by 600. -/
def basicABC : Basic := Basic.reset Basic.init [0, 1, 2]

/-- The grid after a reset on the objects 0, 1, 2 on a world 700 by 600. -/
def gridABC : Grid := Grid.reset sceneABC (Grid.init sceneABC) [0, 1, 2] 700 600

/-- The quadtree after a reset on the objects 0, 1, 2 on a world 700 by 600. -/
def quadtreeABC : Quadtree :=
  (Quadtree.reset sceneABC (Quadtree.init sceneABC alpha0) [0, 1, 2] 700 600 alpha0).1

/-- The spatial hash after a reset on the objects 0, 1, 2. -/
def hashABC : SpatialHash := SpatialHash.reset sceneABC (SpatialHash.init sceneABC) [0, 1, 2]

/-- The calls `remove(o)` for the objects of a list in turn: the buffer afterwards and the
returned flags, in call order. -/
def DynamicBuffer.removeAll (b : DynamicBuffer) (l : List Ref) : DynamicBuffer × List Bool :=
  l.foldl
    (fun (st : DynamicBuffer × List Bool) (o : Ref) =>
      ((st.1.remove o).1, st.2 ++ [(st.1.remove o).2]))
    (b, [])

/-- The buffer states reached from init by push, remove and clear calls (contains changes
nothing). -/
inductive DynamicBuffer.Reachable : DynamicBuffer → Prop where
  | init (initial : Nat) : DynamicBuffer.Reachable (DynamicBuffer.init initial)
  | push (b : DynamicBuffer) (o : Ref) :
      DynamicBuffer.Reachable b → DynamicBuffer.Reachable (b.push o)
  | remove (b : DynamicBuffer) (o : Ref) :
      DynamicBuffer.Reachable b → DynamicBuffer.Reachable (b.remove o).1
  | clear (b : DynamicBuffer) :
      DynamicBuffer.Reachable b → DynamicBuffer.Reachable b.clear

/-- A call of Basic.insert or of Basic.remove. -/
inductive BasicCall where
  | insert (o : Ref)
  | remove (o : Ref)

/-- The state after one call of Basic.insert or Basic.remove. -/
def Basic.call (s : Basic) : BasicCall → Basic
  | .insert o => (Basic.insert s o).state
  | .remove o => (Basic.remove s o).state

/-- The state after a sequence of insert and remove calls. -/
def Basic.run (s : Basic) (calls : List BasicCall) : Basic :=
  calls.foldl Basic.call s

/-- Following the words of the claim, not the code: the child chosen by comparing the center
`oc` of the object with the center `nc` of the node; `oc.y <= nc.y` selects the north pair,
`oc.x <= nc.x` selects the west child of the pair. -/
def chosenChild (oc nc : Vector2) : Quadrant :=
  match decide (oc.y ≤ nc.y), decide (oc.x ≤ nc.x) with
  | true, true => .nw
  | true, false => .ne
  | false, true => .sw
  | false, false => .se

/-- Following the words of the claim, not the code: the path from a node down to the node
that receives `o`; at each node that is not a leaf the child is chosen by the centers, and
the descent continues only while the box of the chosen child fully contains `o`. -/
def Quadnode.descent (B : Bounds) (o : Ref) : Quadnode → List Quadrant
  | .leaf _ _ _ _ => []
  | .inner _ c _ _ child =>
      if (child (chosenChild (B o).center c)).box.containsBox (B o) then
        chosenChild (B o).center c :: (child (chosenChild (B o).center c)).descent B o
      else []

/-- Following the words of the claim, not the code: append `o` to the data buffer of the node
at the end of a path and change no other node. -/
def Quadnode.pushAt (o : Ref) : List Quadrant → Quadnode → Quadnode
  | [], .leaf box c l data => .leaf box c l (data.push o)
  | [], .inner box c l data child => .inner box c l (data.push o) child
  | _ :: _, .leaf box c l data => .leaf box c l data
  | q :: p, .inner box c l data child =>
      .inner box c l data (Function.update child q (Quadnode.pushAt o p (child q)))

/-- The slots of a buffer below its `count` hold pairwise different boxes. -/
def DynamicBuffer.Distinct (pool : DynamicBuffer) : Prop :=
  ∀ i, i < pool.count → ∀ j, j < pool.count → pool.data.get i = pool.data.get j → i = j

instance (pool : DynamicBuffer) : Decidable pool.Distinct := by
  unfold DynamicBuffer.Distinct; infer_instance

/-- The boxes of the nodes of a subtree whose data buffer holds at least one object, in the
order in which Quadnode.prototype.render visits them: the children `nw, ne, se, sw`, then the
node. -/
def Quadnode.regions : Quadnode → List Box2
  | .leaf box _ _ data => if data.count > 0 then [box] else []
  | .inner box _ _ data child =>
      (child .nw).regions ++ (child .ne).regions ++ (child .se).regions ++
        (child .sw).regions ++ (if data.count > 0 then [box] else [])

/-- A render step `F` on the state `(index, boxes)` paints the regions `regs` into the pool:
started at index `i` with room for them, it returns `i` plus their number, the box in slot
`i + k` has opacity 0.975 and the bounds of the `k`-th region, and opacity and bounds of every
box that is in none of these slots are unchanged. -/
def Paints (pool : DynamicBuffer) (F : Nat × Heap → Option (Nat × Heap)) (regs : List Box2) :
    Prop :=
  ∀ (i : Nat) (H : Heap), i + regs.length ≤ pool.count →
    ∃ H1, F (i, H) = some (i + regs.length, H1) ∧
      (∀ (k : Nat) (r : Ref), k < regs.length → pool.data.get (i + k) = some r →
        H1.alpha r = 39 / 40 ∧ regs[k]? = some (H1.bounds r)) ∧
      (∀ (r : Ref), (∀ (k : Nat), k < regs.length → pool.data.get (i + k) ≠ some r) →
        H1.alpha r = H.alpha r ∧ H1.bounds r = H.bounds r)

/-- Boxes at doubles next to a cell border of a world 1000 by 1000 cut into 7 columns and 6
rows. Object 0 is the box `[[10,y],[20,y]]` with `y = 500 - 2^-44` (499.99999999999994, the
double below 500, the border of rows 2 and 3). Object 1 is `[[10,y1],[20,1005]]` with
`y1 = 1000 - 2^-43` (999.9999999999999, the double below 1000), and object 2 is the box
`[[0,990],[30,1010]]` around its minimum corner. -/
def sceneRounding : Bounds :=
  boxes [box 10 (8796093022207999 / 17592186044416) 20 (8796093022207999 / 17592186044416),
    box 10 (8796093022207999 / 8796093022208) 20 1005, box 0 990 30 1010]

/-- A box that starts inside a world `w` by `h` and inside a grid reset to that world: it is
well-formed, `0 <= min.x < w`, `0 <= min.y < h`, the column and the row the code computes for
its minimum corner, `~~(min.x / sizeX)` and `~~(min.y / sizeY)`, lie below the division
counts, and the rounded quotients of its maximum corner lie below `2^31`, so `~~` does not
wrap. -/
def Grid.StartsInside (g : Grid) (w h : ℚ) (b : Box2) : Prop :=
  b.WellFormed ∧ (0 ≤ b.min.x ∧ b.min.x < w) ∧ (0 ≤ b.min.y ∧ b.min.y < h) ∧
    (truncDiv b.min.x g.sizeX < (g.divisionsX : Int) ∧
      truncDiv b.min.y g.sizeY < (g.divisionsY : Int)) ∧
    (fl (b.max.x / g.sizeX) < 2147483648 ∧ fl (b.max.y / g.sizeY) < 2147483648)

instance (g : Grid) (w h : ℚ) (b : Box2) : Decidable (g.StartsInside w h b) := by
  unfold Grid.StartsInside; infer_instance

/-! # Theorems -/

/-! ## DynamicBuffer -/

theorem JSArray_get_set (a : JSArray) (i : Nat) (v : Option Ref) (j : Nat) :
    (a.set i v).get j = if j = i then v else a.get j := rfl

theorem JSArray_copy_get (f : Nat → Option Ref) (n : Nat) (a0 : JSArray) (j : Nat) :
    ((List.range n).foldl (fun d i => d.set i (f i)) a0).get j =
      if j < n then f j else a0.get j := by
  induction n with
  | zero => simp
  | succ n ih =>
    rw [List.range_succ, List.foldl_append]
    simp only [List.foldl_cons, List.foldl_nil, JSArray_get_set, ih]
    by_cases h1 : j = n
    · subst h1; simp
    · by_cases h2 : j < n
      · have : j < n + 1 := by omega
        simp [h1, h2, this]
      · have : ¬ j < n + 1 := by omega
        simp [h1, h2, this]

theorem filterMap_range_congr (f g : Nat → Option Ref) (n : Nat)
    (h : ∀ i, i < n → f i = g i) :
    (List.range n).filterMap f = (List.range n).filterMap g := by
  induction n with
  | zero => simp
  | succ n ih =>
    rw [List.range_succ, List.filterMap_append, List.filterMap_append,
      ih (fun i hi => h i (by omega))]
    simp only [List.filterMap_cons, List.filterMap_nil, h n (by omega)]

@[simp] theorem DynamicBuffer.live_init (n : Nat) : (DynamicBuffer.init n).live = [] := by
  simp [DynamicBuffer.init, DynamicBuffer.live]

@[simp] theorem DynamicBuffer.live_clear (b : DynamicBuffer) : b.clear.live = [] := by
  simp [DynamicBuffer.clear, DynamicBuffer.live]

@[simp] theorem live_resultBuffer (r : Option DynamicBuffer) : (resultBuffer r).live = [] := by
  simp [resultBuffer]

@[simp] theorem DynamicBuffer.live_push (b : DynamicBuffer) (o : Ref) :
    (b.push o).live = b.live ++ [o] := by
  unfold DynamicBuffer.push DynamicBuffer.live
  simp only []
  rw [List.range_succ, List.filterMap_append]
  congr 1
  · apply filterMap_range_congr
    intro i hi
    rw [JSArray_get_set]
    have hne : i ≠ b.count := by omega
    simp only [hne, if_false]
    split
    · next h =>
      rw [JSArray_copy_get]
      have : i < b.data.length := by omega
      simp [this]
    · rfl
  · simp [JSArray_get_set]

theorem DynamicBuffer_contains_iff (b : DynamicBuffer) (o : Ref) :
    b.contains o = true ↔ o ∈ b.live := by
  simp [DynamicBuffer.contains, DynamicBuffer.live, List.mem_filterMap]

theorem mem_filterMap_range (g : Nat → Option Ref) (n : Nat) (o : Ref) :
    o ∈ (List.range n).filterMap g ↔ ∃ i, i < n ∧ g i = some o := by
  simp [List.mem_filterMap]

theorem DynamicBuffer_removeLoop_spec (obj : Ref) (data : JSArray) (n : Nat) :
    (((List.range n).foldl (DynamicBuffer.removeStep obj) (data, false)).2 = false ∧
      ((List.range n).foldl (DynamicBuffer.removeStep obj) (data, false)).1 = data ∧
      ∀ i, i < n → data.get i ≠ some obj) ∨
    (((List.range n).foldl (DynamicBuffer.removeStep obj) (data, false)).2 = true ∧
      ∃ k, k < n ∧ data.get k = some obj ∧ (∀ i, i < k → data.get i ≠ some obj) ∧
        ∀ j, ((List.range n).foldl (DynamicBuffer.removeStep obj) (data, false)).1.get j =
          if k ≤ j ∧ j + 1 < n then data.get (j + 1) else data.get j) := by
  induction n with
  | zero => left; simp
  | succ n ih =>
    rw [List.range_succ, List.foldl_append]
    simp only [List.foldl_cons, List.foldl_nil]
    rcases ih with ⟨h2, h1, hno⟩ | ⟨h2, k, hk, hget, hfirst, hshift⟩
    · by_cases hn : data.get n = some obj
      · right
        refine ⟨?_, n, by omega, hn, hno, ?_⟩
        · simp [DynamicBuffer.removeStep, h2, h1, hn]
        · intro j
          have : ¬ (n ≤ j ∧ j + 1 < n + 1) := by omega
          have t2 : ¬ (n ≤ j ∧ j < n) := by omega
          simp [DynamicBuffer.removeStep, h2, h1, hn, this, t2]
      · left
        refine ⟨?_, ?_, ?_⟩
        · simp [DynamicBuffer.removeStep, h2, h1, hn]
        · simp [DynamicBuffer.removeStep, h2, h1, hn]
        · intro i hi
          by_cases hin : i = n
          · subst hin; exact hn
          · exact hno i (by omega)
    · right
      refine ⟨?_, k, by omega, hget, hfirst, ?_⟩
      · simp [DynamicBuffer.removeStep, h2]
      · intro j
        simp only [DynamicBuffer.removeStep, h2, if_true, JSArray_get_set, hshift]
        by_cases hj : j = n - 1
        · subst hj
          have c1 : ¬ (k ≤ n ∧ n + 1 < n) := by omega
          have c2 : k ≤ n - 1 ∧ n - 1 + 1 < n + 1 := by omega
          have c3 : n - 1 + 1 = n := by omega
          simp [c1, c2, c3]
        · by_cases hc : k ≤ j ∧ j + 1 < n
          · have c2 : k ≤ j ∧ j + 1 < n + 1 := by omega
            simp [hj, hc, c2]
          · have c2 : ¬ (k ≤ j ∧ j + 1 < n + 1) := by omega
            have c4 : ¬ (k ≤ j ∧ j < n) := by omega
            simp [hj, hc, c2, c4]

theorem erase_shift (obj : Ref) (g : Nat → Option Ref) (k n : Nat) (hk : k < n)
    (hg : g k = some obj) (hfirst : ∀ i, i < k → g i ≠ some obj) :
    (List.range (n - 1)).filterMap (fun j => if k ≤ j ∧ j + 1 < n then g (j + 1) else g j) =
      ((List.range n).filterMap g).erase obj := by
  induction n with
  | zero => omega
  | succ n ih =>
    by_cases hkn : k = n
    · subst hkn
      rw [List.range_succ, List.filterMap_append]
      have hnot : obj ∉ (List.range k).filterMap g := by
        rw [mem_filterMap_range]
        rintro ⟨i, hi, hgi⟩
        exact hfirst i hi hgi
      rw [List.erase_append_right _ hnot]
      simp only [Nat.add_sub_cancel, List.filterMap_cons, List.filterMap_nil, hg]
      simp only [List.erase_cons_head, List.append_nil]
      apply filterMap_range_congr
      intro i hi
      have : ¬ (k ≤ i ∧ i + 1 < k + 1) := by omega
      simp [this]
    · have hk2 : k < n := by omega
      have hmem : obj ∈ (List.range n).filterMap g := by
        rw [mem_filterMap_range]
        exact ⟨k, hk2, hg⟩
      rw [List.range_succ (n := n), List.filterMap_append, List.erase_append_left _ hmem,
        ← ih hk2]
      have hn : n + 1 - 1 = (n - 1) + 1 := by omega
      rw [hn, List.range_succ, List.filterMap_append]
      congr 1
      · apply filterMap_range_congr
        intro i hi
        by_cases hc : k ≤ i
        · have c1 : k ≤ i ∧ i + 1 < n + 1 := by omega
          have c2 : k ≤ i ∧ i + 1 < n := by omega
          simp [c1, c2]
        · simp [hc]
      · have c1 : k ≤ n - 1 ∧ n - 1 + 1 < n + 1 := by omega
        have c3 : n - 1 + 1 = n := by omega
        have c4 : k ≤ n - 1 ∧ n < n + 1 := by omega
        simp only [List.filterMap_cons, List.filterMap_nil, c3, if_pos c4]

theorem DynamicBuffer_live_remove (b : DynamicBuffer) (o : Ref) :
    (b.remove o).1.live = b.live.erase o := by
  unfold DynamicBuffer.remove DynamicBuffer.live
  simp only []
  rcases DynamicBuffer_removeLoop_spec o b.data b.count with
    ⟨h2, h1, hno⟩ | ⟨h2, k, hk, hget, hfirst, hshift⟩
  · have hnot : o ∉ (List.range b.count).filterMap b.data.get := by
      rw [mem_filterMap_range]
      rintro ⟨i, hi, hgi⟩
      exact hno i hi hgi
    simp only [h2, h1, Bool.false_eq_true, if_false]
    rw [List.erase_of_not_mem hnot]
  · simp only [h2, if_true]
    rw [← erase_shift o b.data.get k b.count hk hget hfirst]
    apply filterMap_range_congr
    intro i _
    rw [hshift]

theorem DynamicBuffer_remove_ret (b : DynamicBuffer) (o : Ref) :
    (b.remove o).2 = true ↔ o ∈ b.live := by
  unfold DynamicBuffer.remove DynamicBuffer.live
  simp only []
  rw [mem_filterMap_range]
  rcases DynamicBuffer_removeLoop_spec o b.data b.count with
    ⟨h2, h1, hno⟩ | ⟨h2, k, hk, hget, hfirst, hshift⟩
  · rw [h2]
    constructor
    · intro h; cases h
    · rintro ⟨i, hi, hgi⟩
      exact absurd hgi (hno i hi)
  · rw [h2]
    exact ⟨fun _ => ⟨k, hk, hget⟩, fun _ => rfl⟩

theorem DynamicBuffer_remove_eq_of_false (b : DynamicBuffer) (o : Ref)
    (h : (b.remove o).2 = false) : (b.remove o).1 = b := by
  unfold DynamicBuffer.remove at h ⊢
  simp only [] at h ⊢
  rcases DynamicBuffer_removeLoop_spec o b.data b.count with
    ⟨h2, h1, hno⟩ | ⟨h2, k, hk, hget, hfirst, hshift⟩
  · simp only [h2, h1, Bool.false_eq_true, if_false]
  · rw [h2] at h; cases h

theorem live_scanPush (B : Bounds) (q : Ref) (buf res : DynamicBuffer) :
    (scanPush B q buf res).live = res.live ++ buf.live.filter (hit B q) := by
  unfold scanPush
  generalize buf.live = l
  induction l generalizing res with
  | nil => simp
  | cons a l ih =>
    simp only [List.foldl_cons]
    rw [ih]
    by_cases h : hit B q a = true
    · simp [h, List.filter_cons]
    · simp [h, List.filter_cons]

theorem foldl_push_live (objs : List Ref) (d : DynamicBuffer) :
    (objs.foldl (fun d o => d.push o) d).live = d.live ++ objs := by
  induction objs generalizing d with
  | nil => simp
  | cons a l ih => simp [ih]

/-- Membership after a fold whose step adds `P a` to the live contents. -/
theorem foldl_live_mem {α : Type} (step : DynamicBuffer → α → DynamicBuffer)
    (P : α → Ref → Prop)
    (hstep : ∀ res a r, r ∈ (step res a).live ↔ r ∈ res.live ∨ P a r)
    (l : List α) (res : DynamicBuffer) (r : Ref) :
    r ∈ (l.foldl step res).live ↔ r ∈ res.live ∨ ∃ a, a ∈ l ∧ P a r := by
  induction l generalizing res with
  | nil => simp
  | cons a l ih =>
    simp only [List.foldl_cons, ih, hstep, List.mem_cons]
    constructor
    · rintro ((h | h) | ⟨b, hb, h⟩)
      · exact Or.inl h
      · exact Or.inr ⟨a, Or.inl rfl, h⟩
      · exact Or.inr ⟨b, Or.inr hb, h⟩
    · rintro (h | ⟨b, hb | hb, h⟩)
      · exact Or.inl (Or.inl h)
      · subst hb; exact Or.inl (Or.inr h)
      · exact Or.inr ⟨b, hb, h⟩

theorem foldl_live_nodup {α : Type} (step : DynamicBuffer → α → DynamicBuffer)
    (hstep : ∀ res a, res.live.Nodup → (step res a).live.Nodup)
    (l : List α) (res : DynamicBuffer) (h : res.live.Nodup) :
    (l.foldl step res).live.Nodup := by
  induction l generalizing res with
  | nil => simpa using h
  | cons a l ih => exact ih _ (hstep res a h)

theorem mem_scanPushNew (B : Bounds) (q : Ref) (buf res : DynamicBuffer) (r : Ref) :
    r ∈ (scanPushNew B q buf res).live ↔
      r ∈ res.live ∨ (r ∈ buf.live ∧ hit B q r = true) := by
  unfold scanPushNew
  rw [foldl_live_mem _ (fun a r => a = r ∧ hit B q r = true)]
  · constructor
    · rintro (h | ⟨a, ha, rfl, h⟩)
      · exact Or.inl h
      · exact Or.inr ⟨ha, h⟩
    · rintro (h | ⟨h1, h2⟩)
      · exact Or.inl h
      · exact Or.inr ⟨r, h1, rfl, h2⟩
  · intro res a r
    by_cases h : hit B q a = true
    · by_cases hc : res.contains a = true
      · have hm := (DynamicBuffer_contains_iff res a).1 hc
        simp only [h, hc, if_true, Bool.not_true, Bool.false_eq_true, if_false]
        constructor
        · exact Or.inl
        · rintro (h1 | ⟨rfl, _⟩)
          · exact h1
          · exact hm
      · simp only [h, hc, if_true, Bool.not_false, DynamicBuffer.live_push, List.mem_append,
          List.mem_singleton]
        constructor
        · rintro (h1 | rfl)
          · exact Or.inl h1
          · exact Or.inr ⟨rfl, h⟩
        · rintro (h1 | ⟨rfl, _⟩)
          · exact Or.inl h1
          · exact Or.inr rfl
    · simp only [h, Bool.false_eq_true, if_false]
      constructor
      · exact Or.inl
      · rintro (h1 | ⟨rfl, h2⟩)
        · exact h1
        · exact absurd h2 h

theorem nodup_scanPushNew (B : Bounds) (q : Ref) (buf res : DynamicBuffer)
    (h : res.live.Nodup) : (scanPushNew B q buf res).live.Nodup := by
  unfold scanPushNew
  apply foldl_live_nodup _ _ _ _ h
  intro res a hres
  by_cases h1 : hit B q a = true
  · by_cases hc : res.contains a = true
    · simpa [h1, hc] using hres
    · have hm : a ∉ res.live := fun hm => hc ((DynamicBuffer_contains_iff res a).2 hm)
      simp only [h1, hc, if_true, Bool.not_false, DynamicBuffer.live_push]
      exact List.Nodup.append hres (List.nodup_singleton a) (by simpa using hm)
  · simpa [h1] using hres

theorem hit_ne (B : Bounds) (q r : Ref) (h : hit B q r = true) : r ≠ q := by
  unfold hit at h
  simp only [Bool.and_eq_true, decide_eq_true_eq] at h
  exact fun e => h.1 e.symm

theorem Basic_live_reset (s : Basic) (objs : List Ref) :
    (Basic.reset s objs).data.live = objs := by
  simp [Basic.reset, foldl_push_live, Basic.init]

theorem Basic_live_intersects (B : Bounds) (s : Basic) (q : Ref) (res : Option DynamicBuffer) :
    (Basic.intersects B s q res).live = s.data.live.filter (hit B q) := by
  simp [Basic.intersects, live_scanPush]

/-! ## Quadnode and Quadtree -/

theorem Quadnode_live_intersects (B : Bounds) (q : Ref) (c : Vector2) (n : Quadnode)
    (res : DynamicBuffer) :
    (Quadnode.intersects B q c n res).live = res.live ++ n.hits B q := by
  induction n generalizing res with
  | leaf box ce l data =>
    unfold Quadnode.intersects Quadnode.hits
    split <;> simp [live_scanPush]
  | inner box ce l data child ih =>
    unfold Quadnode.intersects Quadnode.hits
    split
    · simp
    · simp only [ih, live_scanPush, List.append_assoc]

theorem Quadnode_hits_sublist (B : Bounds) (q : Ref) (n : Quadnode) :
    (n.hits B q).Sublist (n.stored.filter (hit B q)) := by
  induction n with
  | leaf box ce l data =>
    unfold Quadnode.hits Quadnode.stored
    split
    · exact List.nil_sublist _
    · exact List.Sublist.refl _
  | inner box ce l data child ih =>
    unfold Quadnode.hits Quadnode.stored
    split
    · exact List.nil_sublist _
    · simp only [List.filter_append]
      exact List.Sublist.append (List.Sublist.refl _)
        (List.Sublist.append (ih .nw) (List.Sublist.append (ih .ne)
          (List.Sublist.append (ih .sw) (ih .se))))

theorem Box2_containsBox_iff (a b : Box2) :
    a.containsBox b = true ↔
      a.min.x ≤ b.min.x ∧ b.max.x ≤ a.max.x ∧ a.min.y ≤ b.min.y ∧ b.max.y ≤ a.max.y := by
  unfold Box2.containsBox
  simp only [Bool.and_eq_true, decide_eq_true_eq]
  tauto

theorem Box2_isIntersectionBox_iff (a b : Box2) :
    a.isIntersectionBox b = true ↔
      a.min.x ≤ b.max.x ∧ b.min.x ≤ a.max.x ∧ a.min.y ≤ b.max.y ∧ b.min.y ≤ a.max.y := by
  unfold Box2.isIntersectionBox
  simp only [Bool.not_eq_true', Bool.or_eq_false_iff, decide_eq_false_iff_not, not_lt,
    gt_iff_lt]
  tauto

theorem overlaps_iff (B : Bounds) (a b : Ref) :
    overlaps B a b = true ↔
      ((B a).isIntersectionBox (B b) = true ∨ (B a).containsBox (B b) = true) ∨
        (B b).containsBox (B a) = true := by
  unfold overlaps
  simp only [Bool.or_eq_true]

theorem overlaps_comm (B : Bounds) (a b : Ref) : overlaps B a b = overlaps B b a := by
  rw [Bool.eq_iff_iff, overlaps_iff, overlaps_iff, Box2_isIntersectionBox_iff,
    Box2_isIntersectionBox_iff]
  tauto

theorem hit_iff (B : Bounds) (a b : Ref) :
    hit B a b = true ↔ a ≠ b ∧ overlaps B a b = true := by
  unfold hit
  simp only [Bool.and_eq_true, decide_eq_true_eq]

theorem hit_comm (B : Bounds) (a b : Ref) : hit B a b = hit B b a := by
  rw [Bool.eq_iff_iff, hit_iff, hit_iff, overlaps_comm B a b]
  exact ⟨fun h => ⟨fun e => h.1 e.symm, h.2⟩, fun h => ⟨fun e => h.1 e.symm, h.2⟩⟩

theorem visited_iff (box b : Box2) :
    (!box.isIntersectionBox b && !box.containsBox b) = false ↔
      box.isIntersectionBox b = true ∨ box.containsBox b = true := by
  cases box.isIntersectionBox b <;> cases box.containsBox b <;> simp

/-- A node whose box contains a well-formed stored box is visited by every query that
overlaps the stored box. -/
theorem visit_of_overlaps (B : Bounds) (box : Box2) (q r : Ref)
    (hc : box.containsBox (B r) = true) (hw : (B r).WellFormed)
    (ho : overlaps B q r = true) :
    (!box.isIntersectionBox (B q) && !box.containsBox (B q)) = false := by
  rw [visited_iff]
  rw [overlaps_iff] at ho
  rw [Box2_containsBox_iff] at hc
  obtain ⟨hw1, hw2⟩ := hw
  obtain ⟨c1, c2, c3, c4⟩ := hc
  rcases ho with (h | h) | h
  · rw [Box2_isIntersectionBox_iff] at h
    obtain ⟨h1, h2, h3, h4⟩ := h
    left
    rw [Box2_isIntersectionBox_iff]
    refine ⟨?_, ?_, ?_, ?_⟩ <;> linarith
  · rw [Box2_containsBox_iff] at h
    obtain ⟨h1, h2, h3, h4⟩ := h
    left
    rw [Box2_isIntersectionBox_iff]
    refine ⟨?_, ?_, ?_, ?_⟩ <;> linarith
  · rw [Box2_containsBox_iff] at h
    obtain ⟨h1, h2, h3, h4⟩ := h
    right
    rw [Box2_containsBox_iff]
    refine ⟨?_, ?_, ?_, ?_⟩ <;> linarith

theorem Quadnode_mem_hits (B : Bounds) (q r : Ref) (n : Quadnode) (hf : n.Fits B)
    (hr : r ∈ n.stored) (hh : hit B q r = true) (hw : (B r).WellFormed) :
    r ∈ n.hits B q := by
  have ho := ((hit_iff B q r).1 hh).2
  induction n with
  | leaf box ce l data =>
    unfold Quadnode.stored at hr
    unfold Quadnode.Fits at hf
    unfold Quadnode.hits
    rw [visit_of_overlaps B box q r (hf r hr) hw ho]
    simp only [Bool.false_eq_true, if_false, List.mem_filter]
    exact ⟨hr, hh⟩
  | inner box ce l data child ih =>
    unfold Quadnode.stored at hr
    unfold Quadnode.Fits at hf
    unfold Quadnode.hits
    have hbox : box.containsBox (B r) = true := by
      simp only [List.mem_append] at hr
      rcases hr with h | h | h | h | h
      · exact hf.1 r h
      · exact (hf.2 .nw).1 r h
      · exact (hf.2 .ne).1 r h
      · exact (hf.2 .sw).1 r h
      · exact (hf.2 .se).1 r h
    rw [visit_of_overlaps B box q r hbox hw ho]
    simp only [Bool.false_eq_true, if_false, List.mem_append, List.mem_filter]
    simp only [List.mem_append] at hr
    rcases hr with h | h | h | h | h
    · exact Or.inl ⟨h, hh⟩
    · exact Or.inr (Or.inl (ih .nw (hf.2 .nw).2 h))
    · exact Or.inr (Or.inr (Or.inl (ih .ne (hf.2 .ne).2 h)))
    · exact Or.inr (Or.inr (Or.inr (Or.inl (ih .sw (hf.2 .sw).2 h))))
    · exact Or.inr (Or.inr (Or.inr (Or.inr (ih .se (hf.2 .se).2 h))))

theorem Quadnode_insert_ret (B : Bounds) (obj : Ref) (c : Vector2) (n : Quadnode) (A : Alpha) :
    (Quadnode.insert B obj c n A).1 = n.box.containsBox (B obj) := by
  cases n with
  | leaf box ce l data =>
    unfold Quadnode.insert Quadnode.box
    split <;> simp_all
  | inner box ce l data child =>
    unfold Quadnode.insert Quadnode.box
    split
    · simp only []
      split <;> simp_all
    · simp_all

theorem Quadnode_insert_of_not (B : Bounds) (obj : Ref) (c : Vector2) (n : Quadnode)
    (A : Alpha) (h : n.box.containsBox (B obj) = false) :
    Quadnode.insert B obj c n A = (false, n, A) := by
  cases n with
  | leaf box ce l data =>
    unfold Quadnode.box at h
    unfold Quadnode.insert
    simp [h]
  | inner box ce l data child =>
    unfold Quadnode.box at h
    unfold Quadnode.insert
    simp [h]

theorem Quadnode_insert_box (B : Bounds) (obj : Ref) (c : Vector2) (n : Quadnode) (A : Alpha) :
    (Quadnode.insert B obj c n A).2.1.box = n.box := by
  cases n with
  | leaf box ce l data =>
    unfold Quadnode.insert
    split <;> rfl
  | inner box ce l data child =>
    unfold Quadnode.insert
    split
    · simp only []
      split <;> rfl
    · rfl

theorem Quadnode_stored_inner_update_count (box : Box2) (ce : Vector2) (l : Nat)
    (data : DynamicBuffer) (child : Quadrant → Quadnode) (q0 : Quadrant) (n1 : Quadnode)
    (a : Ref) :
    List.count a (Quadnode.inner box ce l data (Function.update child q0 n1)).stored +
        List.count a (child q0).stored =
      List.count a (Quadnode.inner box ce l data child).stored + List.count a n1.stored := by
  cases q0 <;> simp [Quadnode.stored, Function.update, List.count_append] <;> omega

theorem Quadnode_insert_stored (B : Bounds) (obj : Ref) (c : Vector2) (n : Quadnode)
    (A : Alpha) (h : n.box.containsBox (B obj) = true) :
    (Quadnode.insert B obj c n A).2.1.stored.Perm (obj :: n.stored) := by
  induction n generalizing A with
  | leaf box ce l data =>
    unfold Quadnode.box at h
    unfold Quadnode.insert
    simp only [h, if_true, Quadnode.stored, DynamicBuffer.live_push]
    exact List.perm_append_singleton obj data.live
  | inner box ce l data child ih =>
    unfold Quadnode.box at h
    unfold Quadnode.insert
    simp only [h, if_true]
    by_cases hr : (Quadnode.insert B obj c (child (Quadnode.route c ce)) A).1 = true
    · simp only [hr, if_true]
      have hc := hr
      rw [Quadnode_insert_ret] at hc
      have ih1 := ih (Quadnode.route c ce) A hc
      rw [List.perm_iff_count]
      intro a
      have h1 := Quadnode_stored_inner_update_count box ce l data child (Quadnode.route c ce)
        (Quadnode.insert B obj c (child (Quadnode.route c ce)) A).2.1 a
      have h2 := List.perm_iff_count.1 ih1 a
      rw [List.count_cons] at h2 ⊢
      omega
    · have hc : (child (Quadnode.route c ce)).box.containsBox (B obj) = false := by
        rw [← Quadnode_insert_ret B obj c _ A]
        simpa using hr
      rw [Quadnode_insert_of_not B obj c _ A hc]
      simp only [Bool.false_eq_true, if_false, Function.update_eq_self, Quadnode.stored,
        DynamicBuffer.live_push]
      rw [List.perm_iff_count]
      intro a
      simp only [List.count_append, List.count_cons, List.count_nil]
      omega

theorem Quadnode_insert_fits (B : Bounds) (obj : Ref) (c : Vector2) (n : Quadnode)
    (A : Alpha) (hf : n.Fits B) : (Quadnode.insert B obj c n A).2.1.Fits B := by
  induction n generalizing A with
  | leaf box ce l data =>
    unfold Quadnode.insert
    split
    · next h =>
      unfold Quadnode.Fits at hf ⊢
      intro r hr
      simp only [DynamicBuffer.live_push, List.mem_append, List.mem_singleton] at hr
      rcases hr with hr | rfl
      · exact hf r hr
      · exact h
    · exact hf
  | inner box ce l data child ih =>
    unfold Quadnode.insert
    split
    · next h =>
      simp only []
      by_cases hr : (Quadnode.insert B obj c (child (Quadnode.route c ce)) A).1 = true
      · simp only [hr, if_true]
        have hc := hr
        rw [Quadnode_insert_ret] at hc
        unfold Quadnode.Fits at hf ⊢
        refine ⟨hf.1, fun q => ?_⟩
        by_cases hq : q = Quadnode.route c ce
        · subst hq
          simp only [Function.update_same]
          refine ⟨fun r hr1 => ?_, ih _ A (hf.2 _).2⟩
          have hp := (Quadnode_insert_stored B obj c _ A hc).mem_iff.1 hr1
          rcases List.mem_cons.1 hp with rfl | hp
          · exact h
          · exact (hf.2 _).1 r hp
        · simp only [Function.update_noteq hq]
          exact hf.2 q
      · have hc : (child (Quadnode.route c ce)).box.containsBox (B obj) = false := by
          rw [← Quadnode_insert_ret B obj c _ A]
          simpa using hr
        rw [Quadnode_insert_of_not B obj c _ A hc]
        simp only [Bool.false_eq_true, if_false, Function.update_eq_self]
        unfold Quadnode.Fits at hf ⊢
        refine ⟨fun r hr1 => ?_, hf.2⟩
        simp only [DynamicBuffer.live_push, List.mem_append, List.mem_singleton] at hr1
        rcases hr1 with hr1 | rfl
        · exact hf.1 r hr1
        · exact h
    · exact hf

theorem Quadnode_stored_init (box : Box2) (l : Nat) : (Quadnode.init box l).stored = [] := by
  induction l using Nat.strong_induction_on generalizing box with
  | _ l ih =>
    match l with
    | 0 => simp [Quadnode.init, Quadnode.stored]
    | 1 => simp [Quadnode.init, Quadnode.stored]
    | (k + 2) =>
      simp [Quadnode.init, Quadnode.stored, ih (k + 1) (by omega)]

theorem Quadnode_fits_init (B : Bounds) (box : Box2) (l : Nat) :
    (Quadnode.init box l).Fits B := by
  induction l using Nat.strong_induction_on generalizing box with
  | _ l ih =>
    match l with
    | 0 => simp [Quadnode.init, Quadnode.Fits]
    | 1 => simp [Quadnode.init, Quadnode.Fits]
    | (k + 2) =>
      simp only [Quadnode.init, Quadnode.Fits, DynamicBuffer.live_init, List.not_mem_nil,
        false_implies, implies_true, true_and, Quadnode_stored_init]
      intro q
      exact ih (k + 1) (by omega) _

theorem Quadtree_insert_stored (B : Bounds) (t : Quadtree) (obj : Ref) (A : Alpha) :
    (Quadtree.insert B t obj A).state.1.stored.Perm (obj :: t.stored) := by
  unfold Quadtree.insert
  by_cases hr : (t.root.insert B obj (B obj).center A).1 = true
  · have hc := hr
    rw [Quadnode_insert_ret] at hc
    simp only [hr, Bool.not_true, Bool.false_eq_true, if_false, Quadtree.stored]
    have hp := Quadnode_insert_stored B obj (B obj).center t.root A hc
    rw [List.perm_iff_count] at hp ⊢
    intro a
    have := hp a
    simp only [List.count_append, List.count_cons] at this ⊢
    omega
  · have hc : t.root.box.containsBox (B obj) = false := by
      rw [← Quadnode_insert_ret B obj (B obj).center _ A]
      simpa using hr
    rw [Quadnode_insert_of_not B obj _ _ A hc]
    simp only [Bool.not_false, if_true, Quadtree.stored, DynamicBuffer.live_push]
    rw [List.perm_iff_count]
    intro a
    simp only [List.count_append, List.count_cons, List.count_nil]
    omega

theorem Quadtree_insert_fits (B : Bounds) (t : Quadtree) (obj : Ref) (A : Alpha)
    (hf : t.root.Fits B) : (Quadtree.insert B t obj A).state.1.root.Fits B := by
  unfold Quadtree.insert
  have := Quadnode_insert_fits B obj (B obj).center t.root A hf
  simp only []
  split <;> exact this

theorem Quadtree_foldl_insert_stored (B : Bounds) (objs : List Ref) (s : Quadtree × Alpha) :
    (objs.foldl (fun s o => (Quadtree.insert B s.1 o s.2).state) s).1.stored.Perm
      (objs ++ s.1.stored) := by
  induction objs generalizing s with
  | nil => simp
  | cons o objs ih =>
    simp only [List.foldl_cons]
    refine (ih _).trans ?_
    refine (List.Perm.append_left objs (Quadtree_insert_stored B s.1 o s.2)).trans ?_
    simp only [List.cons_append]
    exact List.perm_middle

theorem Quadtree_foldl_insert_fits (B : Bounds) (objs : List Ref) (s : Quadtree × Alpha)
    (hf : s.1.root.Fits B) :
    (objs.foldl (fun s o => (Quadtree.insert B s.1 o s.2).state) s).1.root.Fits B := by
  induction objs generalizing s with
  | nil => simpa using hf
  | cons o objs ih =>
    simp only [List.foldl_cons]
    exact ih _ (Quadtree_insert_fits B s.1 o s.2 hf)

theorem Quadtree_reset_stored (B : Bounds) (t : Quadtree) (objs : List Ref) (w h : ℚ)
    (A : Alpha) : (Quadtree.reset B t objs w h A).1.stored.Perm objs := by
  unfold Quadtree.reset
  refine (Quadtree_foldl_insert_stored B objs _).trans ?_
  simp [Quadtree.stored, Quadnode_stored_init]

theorem Quadtree_reset_fits (B : Bounds) (t : Quadtree) (objs : List Ref) (w h : ℚ)
    (A : Alpha) : (Quadtree.reset B t objs w h A).1.root.Fits B := by
  unfold Quadtree.reset
  exact Quadtree_foldl_insert_fits B objs _ (Quadnode_fits_init B _ _)

theorem Quadtree_live_intersects (B : Bounds) (t : Quadtree) (q : Ref)
    (res : Option DynamicBuffer) :
    (Quadtree.intersects B t q res).live =
      t.data.live.filter (hit B q) ++ t.root.hits B q := by
  simp [Quadtree.intersects, Quadnode_live_intersects, live_scanPush]

theorem Quadtree_intersects_sublist (B : Bounds) (t : Quadtree) (q : Ref)
    (res : Option DynamicBuffer) :
    (Quadtree.intersects B t q res).live.Sublist (t.stored.filter (hit B q)) := by
  rw [Quadtree_live_intersects]
  unfold Quadtree.stored
  rw [List.filter_append]
  exact List.Sublist.append (List.Sublist.refl _) (Quadnode_hits_sublist B q t.root)

theorem Quadtree_mem_intersects (B : Bounds) (t : Quadtree) (q : Ref)
    (res : Option DynamicBuffer) (hf : t.root.Fits B)
    (hw : ∀ s, s ∈ t.stored → (B s).WellFormed) (r : Ref) :
    r ∈ (Quadtree.intersects B t q res).live ↔ r ∈ t.stored ∧ hit B q r = true := by
  constructor
  · intro h
    have := (Quadtree_intersects_sublist B t q res).subset h
    simpa [List.mem_filter] using this
  · rintro ⟨h1, h2⟩
    rw [Quadtree_live_intersects]
    unfold Quadtree.stored at h1
    rcases List.mem_append.1 h1 with h | h
    · exact List.mem_append_left _ (List.mem_filter.2 ⟨h, h2⟩)
    · exact List.mem_append_right _
        (Quadnode_mem_hits B q r t.root hf h h2
          (hw r (by unfold Quadtree.stored; exact List.mem_append_right _ h)))

theorem Quadnode_remove_spec (B : Bounds) (obj : Ref) (c : Vector2) (n : Quadnode) :
    ((Quadnode.remove B obj c n).1 = true →
        n.stored.Perm (obj :: (Quadnode.remove B obj c n).2.stored)) ∧
      ((Quadnode.remove B obj c n).1 = false → (Quadnode.remove B obj c n).2 = n) := by
  induction n with
  | leaf box ce l data =>
    unfold Quadnode.remove
    split
    · simp only [Quadnode.stored]
      constructor
      · intro h
        rw [DynamicBuffer_live_remove]
        exact List.perm_cons_erase ((DynamicBuffer_remove_ret data obj).1 h)
      · intro h
        rw [DynamicBuffer_remove_eq_of_false data obj h]
    · simp
  | inner box ce l data child ih =>
    unfold Quadnode.remove
    split
    · simp only []
      by_cases hr : (Quadnode.remove B obj c (child (Quadnode.route c ce))).1 = true
      · simp only [hr, if_true, true_implies, Bool.true_eq_false, false_implies, and_true]
        have ih1 := (ih (Quadnode.route c ce)).1 hr
        rw [List.perm_iff_count]
        intro a
        have h1 := Quadnode_stored_inner_update_count box ce l data child (Quadnode.route c ce)
          (Quadnode.remove B obj c (child (Quadnode.route c ce))).2 a
        have h2 := List.perm_iff_count.1 ih1 a
        rw [List.count_cons] at h2 ⊢
        omega
      · have hr2 : (Quadnode.remove B obj c (child (Quadnode.route c ce))).1 = false := by
          simpa using hr
        have ih2 := (ih (Quadnode.route c ce)).2 hr2
        simp only [hr2, Bool.false_eq_true, if_false, ih2, Function.update_eq_self]
        constructor
        · intro h
          simp only [Quadnode.stored, DynamicBuffer_live_remove]
          have hm := (DynamicBuffer_remove_ret data obj).1 h
          have hp := List.perm_cons_erase hm
          rw [List.perm_iff_count] at hp ⊢
          intro a
          have := hp a
          simp only [List.count_append, List.count_cons] at this ⊢
          omega
        · intro h
          rw [DynamicBuffer_remove_eq_of_false data obj h]
    · simp

theorem Quadtree_remove_stored_sublist_count (B : Bounds) (t : Quadtree) (obj : Ref) (a : Ref) :
    List.count a (Quadtree.remove B t obj).state.stored ≤ List.count a t.stored := by
  unfold Quadtree.remove
  simp only []
  by_cases hr : (t.root.remove B obj (B obj).center).1 = true
  · have hp := (Quadnode_remove_spec B obj (B obj).center t.root).1 hr
    have := List.perm_iff_count.1 hp a
    simp only [hr, Bool.not_true, Bool.false_eq_true, if_false, Quadtree.stored,
      List.count_append]
    rw [List.count_cons] at this
    omega
  · have hr2 : (t.root.remove B obj (B obj).center).1 = false := by simpa using hr
    have he := (Quadnode_remove_spec B obj (B obj).center t.root).2 hr2
    simp only [hr2, Bool.not_false, if_true, Quadtree.stored, List.count_append, he,
      DynamicBuffer_live_remove]
    have := (List.erase_sublist obj t.data.live).count_le a
    omega

theorem Quadtree_remove_nodup (B : Bounds) (t : Quadtree) (obj : Ref)
    (h : t.stored.Nodup) : (Quadtree.remove B t obj).state.stored.Nodup := by
  rw [List.nodup_iff_count_le_one] at h ⊢
  intro a
  exact le_trans (Quadtree_remove_stored_sublist_count B t obj a) (h a)

theorem Quadtree_insert_nodup (B : Bounds) (t : Quadtree) (obj : Ref) (A : Alpha)
    (h : t.stored.Nodup) (hn : obj ∉ t.stored) :
    (Quadtree.insert B t obj A).state.1.stored.Nodup := by
  rw [(Quadtree_insert_stored B t obj A).nodup_iff]
  exact List.nodup_cons.2 ⟨hn, h⟩

theorem mem_erase_append_self (l : List Ref) (o r : Ref) :
    r ∈ (l ++ [o]).erase o ↔ r ∈ l := by
  by_cases h : o ∈ l
  · rw [List.erase_append_left _ h]
    simp only [List.mem_append, List.mem_singleton]
    constructor
    · rintro (h1 | rfl)
      · exact List.mem_of_mem_erase h1
      · exact h
    · intro h1
      by_cases e : r = o
      · exact Or.inr e
      · exact Or.inl ((List.mem_erase_of_ne e).2 h1)
  · rw [List.erase_append_right _ h]
    simp

theorem DynamicBuffer_mem_live_push_remove (b : DynamicBuffer) (o r : Ref) :
    r ∈ ((b.push o).remove o).1.live ↔ r ∈ b.live := by
  rw [DynamicBuffer_live_remove, DynamicBuffer.live_push, mem_erase_append_self]

theorem DynamicBuffer_push_remove_ret (b : DynamicBuffer) (o : Ref) :
    ((b.push o).remove o).2 = true := by
  rw [DynamicBuffer_remove_ret, DynamicBuffer.live_push]
  simp

theorem Quadnode_remove_of_not (B : Bounds) (obj : Ref) (c : Vector2) (n : Quadnode)
    (h : n.box.containsBox (B obj) = false) :
    Quadnode.remove B obj c n = (false, n) := by
  cases n with
  | leaf box ce l data =>
    unfold Quadnode.box at h
    unfold Quadnode.remove
    simp [h]
  | inner box ce l data child =>
    unfold Quadnode.box at h
    unfold Quadnode.remove
    simp [h]

theorem Quadnode_mem_hits_leaf (B : Bounds) (q : Ref) (box : Box2) (ce : Vector2) (l : Nat)
    (data : DynamicBuffer) (r : Ref) :
    r ∈ (Quadnode.leaf box ce l data).hits B q ↔
      (!box.isIntersectionBox (B q) && !box.containsBox (B q)) = false ∧
        r ∈ data.live ∧ hit B q r = true := by
  unfold Quadnode.hits
  cases (!box.isIntersectionBox (B q) && !box.containsBox (B q)) <;> simp [List.mem_filter]

theorem Quadnode_mem_hits_inner (B : Bounds) (q : Ref) (box : Box2) (ce : Vector2) (l : Nat)
    (data : DynamicBuffer) (child : Quadrant → Quadnode) (r : Ref) :
    r ∈ (Quadnode.inner box ce l data child).hits B q ↔
      (!box.isIntersectionBox (B q) && !box.containsBox (B q)) = false ∧
        ((r ∈ data.live ∧ hit B q r = true) ∨ ∃ d, r ∈ (child d).hits B q) := by
  simp only [Quadnode.hits]
  cases (!box.isIntersectionBox (B q) && !box.containsBox (B q))
  · simp only [Bool.false_eq_true, if_false, List.mem_append, List.mem_filter, true_and]
    constructor
    · rintro (h | h | h | h | h)
      · exact Or.inl h
      · exact Or.inr ⟨.nw, h⟩
      · exact Or.inr ⟨.ne, h⟩
      · exact Or.inr ⟨.sw, h⟩
      · exact Or.inr ⟨.se, h⟩
    · rintro (h | ⟨d, h⟩)
      · exact Or.inl h
      · cases d
        · exact Or.inr (Or.inl h)
        · exact Or.inr (Or.inr (Or.inl h))
        · exact Or.inr (Or.inr (Or.inr (Or.inr h)))
        · exact Or.inr (Or.inr (Or.inr (Or.inl h)))
  · simp

/-- Inserting an object into a node that accepts it and removing it again: the removal
succeeds and every query sees the same objects as before. -/
theorem Quadnode_insert_remove (B : Bounds) (obj : Ref) (c : Vector2) (n : Quadnode)
    (A : Alpha) (h : n.box.containsBox (B obj) = true) :
    (Quadnode.remove B obj c (Quadnode.insert B obj c n A).2.1).1 = true ∧
      ∀ q r, r ∈ (Quadnode.remove B obj c (Quadnode.insert B obj c n A).2.1).2.hits B q ↔
        r ∈ n.hits B q := by
  induction n generalizing A with
  | leaf box ce l data =>
    unfold Quadnode.box at h
    unfold Quadnode.insert
    simp only [h, if_true]
    unfold Quadnode.remove
    simp only [h, if_true, DynamicBuffer_push_remove_ret, true_and]
    intro q r
    rw [Quadnode_mem_hits_leaf, Quadnode_mem_hits_leaf, DynamicBuffer_mem_live_push_remove]
  | inner box ce l data child ih =>
    unfold Quadnode.box at h
    unfold Quadnode.insert
    simp only [h, if_true]
    by_cases hr : (Quadnode.insert B obj c (child (Quadnode.route c ce)) A).1 = true
    · have hc := hr
      rw [Quadnode_insert_ret] at hc
      obtain ⟨ih1, ih2⟩ := ih (Quadnode.route c ce) A hc
      simp only [hr, if_true]
      unfold Quadnode.remove
      simp only [h, if_true, Function.update_same, ih1, Function.update_idem, true_and]
      intro q r
      rw [Quadnode_mem_hits_inner, Quadnode_mem_hits_inner]
      have key : ∀ d, r ∈ ((Function.update child (Quadnode.route c ce)
          (Quadnode.remove B obj c
            (Quadnode.insert B obj c (child (Quadnode.route c ce)) A).2.1).2) d).hits B q ↔
          r ∈ (child d).hits B q := by
        intro d
        by_cases hd : d = Quadnode.route c ce
        · subst hd
          simp only [Function.update_same]
          exact ih2 q r
        · simp only [Function.update_noteq hd]
      simp only [key]
    · have hc : (child (Quadnode.route c ce)).box.containsBox (B obj) = false := by
        rw [← Quadnode_insert_ret B obj c _ A]
        simpa using hr
      rw [Quadnode_insert_of_not B obj c _ A hc]
      simp only [Bool.false_eq_true, if_false, Function.update_eq_self]
      unfold Quadnode.remove
      simp only [h, if_true, Quadnode_remove_of_not B obj c _ hc, Bool.false_eq_true, if_false,
        Function.update_eq_self, DynamicBuffer_push_remove_ret, true_and]
      intro q r
      rw [Quadnode_mem_hits_inner, Quadnode_mem_hits_inner,
        DynamicBuffer_mem_live_push_remove]

theorem Quadtree_insert_remove_mem (B : Bounds) (t : Quadtree) (obj : Ref) (A : Alpha)
    (q : Ref) (res : Option DynamicBuffer) (r : Ref) :
    r ∈ (Quadtree.intersects B
          (Quadtree.remove B (Quadtree.insert B t obj A).state.1 obj).state q res).live ↔
      r ∈ (Quadtree.intersects B t q res).live := by
  rw [Quadtree_live_intersects, Quadtree_live_intersects]
  unfold Quadtree.insert
  by_cases hc : t.root.box.containsBox (B obj) = true
  · have hr : (t.root.insert B obj (B obj).center A).1 = true := by
      rw [Quadnode_insert_ret]; exact hc
    obtain ⟨h1, h2⟩ := Quadnode_insert_remove B obj (B obj).center t.root A hc
    simp only [hr, Bool.not_true, Bool.false_eq_true, if_false]
    unfold Quadtree.remove
    simp only [h1, Bool.not_true, Bool.false_eq_true, if_false, List.mem_append, h2]
  · have hc2 : t.root.box.containsBox (B obj) = false := by simpa using hc
    rw [Quadnode_insert_of_not B obj _ _ A hc2]
    simp only [Bool.not_false, if_true]
    unfold Quadtree.remove
    simp only [Quadnode_remove_of_not B obj _ _ hc2, Bool.not_false, if_true, List.mem_append,
      List.mem_filter, DynamicBuffer_mem_live_push_remove]

/-! ## Grid -/

theorem mem_intRange (lo hi y : Int) : y ∈ intRange lo hi ↔ lo ≤ y ∧ y ≤ hi := by
  unfold intRange
  simp only [List.mem_map, List.mem_range]
  constructor
  · rintro ⟨k, hk, rfl⟩
    omega
  · rintro ⟨h1, h2⟩
    refine ⟨(y - lo).toNat, ?_, ?_⟩ <;> omega

theorem nodup_intRange (lo hi : Int) : (intRange lo hi).Nodup := by
  unfold intRange
  have hinj : Function.Injective (fun (k : Nat) => lo + (k : Int)) := by
    intro a b h
    simp only at h
    omega
  exact List.Nodup.map hinj (List.nodup_range _)

theorem Grid_cell_modifyCell (f : Cell → Cell) (data : List (List Cell)) (y x y1 x1 : Int) :
    Grid.cell (Grid.modifyCell f data y x) y1 x1 =
      if y1 = y ∧ x1 = x then (Grid.cell data y x).map f else Grid.cell data y1 x1 := by
  unfold Grid.modifyCell
  by_cases hg : 0 ≤ y ∧ 0 ≤ x
  · simp only [hg, and_self, if_true]
    unfold Grid.cell
    by_cases hg1 : 0 ≤ y1 ∧ 0 ≤ x1
    · simp only [hg, hg1, and_self, if_true, List.getElem?_modify]
      by_cases hy : y1 = y
      · subst hy
        cases hrow : data[y1.toNat]? with
        | none => simp
        | some row =>
          simp only [Option.map_eq_map, Option.map_some', if_true, true_and,
            List.getElem?_modify]
          by_cases hx : x1 = x
          · subst hx
            simp
          · have : x.toNat ≠ x1.toNat := by omega
            simp [hx, this]
      · have : y.toNat ≠ y1.toNat := by omega
        simp [hy, this]
    · have : ¬ (y1 = y ∧ x1 = x) := by
        rintro ⟨rfl, rfl⟩
        exact hg1 hg
      simp [hg1, this]
  · simp only [hg, if_false]
    by_cases he : y1 = y ∧ x1 = x
    · obtain ⟨rfl, rfl⟩ := he
      simp [Grid.cell, hg]
    · simp [he]

theorem Grid_cell_foldl_row (f : Cell → Cell) (y : Int) (xs : List Int) (hxs : xs.Nodup)
    (data : List (List Cell)) (y1 x1 : Int) :
    Grid.cell (xs.foldl (fun d x => Grid.modifyCell f d y x) data) y1 x1 =
      if y1 = y ∧ x1 ∈ xs then (Grid.cell data y1 x1).map f else Grid.cell data y1 x1 := by
  induction xs generalizing data with
  | nil => simp
  | cons a xs ih =>
    obtain ⟨ha, hxs1⟩ := List.nodup_cons.1 hxs
    simp only [List.foldl_cons, ih hxs1, Grid_cell_modifyCell, List.mem_cons]
    by_cases hy : y1 = y
    · subst hy
      by_cases hx : x1 = a
      · subst hx
        simp [ha]
      · by_cases hm : x1 ∈ xs
        · simp [hx, hm]
        · simp [hx, hm]
    · simp [hy]

theorem Grid_cell_forCells (f : Cell → Cell) (r : CellRange) (data : List (List Cell))
    (y1 x1 : Int) :
    Grid.cell (Grid.forCells f r data) y1 x1 =
      if (r.yMin ≤ y1 ∧ y1 ≤ r.yMax) ∧ (r.xMin ≤ x1 ∧ x1 ≤ r.xMax) then
        (Grid.cell data y1 x1).map f
      else Grid.cell data y1 x1 := by
  unfold Grid.forCells
  simp only [← mem_intRange]
  have hys := nodup_intRange r.yMin r.yMax
  generalize intRange r.yMin r.yMax = ys at hys
  induction ys generalizing data with
  | nil => simp
  | cons a ys ih =>
    obtain ⟨ha, hys1⟩ := List.nodup_cons.1 hys
    simp only [List.foldl_cons, ih _ hys1, Grid_cell_foldl_row f a _ (nodup_intRange _ _),
      List.mem_cons]
    by_cases hy : y1 = a
    · subst hy
      by_cases hx : x1 ∈ intRange r.xMin r.xMax
      · simp [ha, hx]
      · simp [ha, hx]
    · by_cases hm : y1 ∈ ys
      · simp [hy, hm]
      · simp [hy, hm]

theorem Grid_cellLive_forCells (f : Cell → Cell) (F : List Ref → List Ref)
    (hf : ∀ c, (f c).buf.live = F c.buf.live) (hF : F [] = [])
    (r : CellRange) (data : List (List Cell)) (y1 x1 : Int) :
    Grid.cellLive (Grid.forCells f r data) y1 x1 =
      if (r.yMin ≤ y1 ∧ y1 ≤ r.yMax) ∧ (r.xMin ≤ x1 ∧ x1 ≤ r.xMax) then
        F (Grid.cellLive data y1 x1)
      else Grid.cellLive data y1 x1 := by
  unfold Grid.cellLive
  rw [Grid_cell_forCells]
  cases Grid.cell data y1 x1 with
  | none => simp [hF]
  | some c =>
    by_cases h : (r.yMin ≤ y1 ∧ y1 ≤ r.yMax) ∧ (r.xMin ≤ x1 ∧ x1 ≤ r.xMax)
    · simp [h, hf]
    · simp [h]

theorem Grid_cellLive_insert (B : Bounds) (g : Grid) (o : Ref) (y1 x1 : Int) :
    Grid.cellLive (Grid.insert B g o).data y1 x1 =
      if ((g.range (B o)).yMin ≤ y1 ∧ y1 ≤ (g.range (B o)).yMax) ∧
          ((g.range (B o)).xMin ≤ x1 ∧ x1 ≤ (g.range (B o)).xMax) ∧
          (Grid.cell g.data y1 x1).isSome = true then
        Grid.cellLive g.data y1 x1 ++ [o]
      else Grid.cellLive g.data y1 x1 := by
  unfold Grid.insert Grid.cellLive
  simp only [Grid_cell_forCells]
  cases hc : Grid.cell g.data y1 x1 with
  | none => simp
  | some c =>
    by_cases h : ((g.range (B o)).yMin ≤ y1 ∧ y1 ≤ (g.range (B o)).yMax) ∧
          ((g.range (B o)).xMin ≤ x1 ∧ x1 ≤ (g.range (B o)).xMax)
    · simp [h, Cell.push]
    · simp [h]

theorem Grid_cellLive_remove (B : Bounds) (g : Grid) (o : Ref) (y1 x1 : Int) :
    Grid.cellLive (Grid.remove B g o).data y1 x1 =
      if ((g.range (B o)).yMin ≤ y1 ∧ y1 ≤ (g.range (B o)).yMax) ∧
          ((g.range (B o)).xMin ≤ x1 ∧ x1 ≤ (g.range (B o)).xMax) then
        (Grid.cellLive g.data y1 x1).erase o
      else Grid.cellLive g.data y1 x1 := by
  unfold Grid.remove
  exact Grid_cellLive_forCells _ (fun l => l.erase o)
    (fun c => by simp [Cell.remove, DynamicBuffer_live_remove]) (by simp) _ _ _ _

theorem Grid_mem_intersects (B : Bounds) (g : Grid) (q : Ref) (res : Option DynamicBuffer)
    (r : Ref) :
    r ∈ (Grid.intersects B g q res).live ↔
      hit B q r = true ∧ ∃ y x, ((g.range (B q)).yMin ≤ y ∧ y ≤ (g.range (B q)).yMax) ∧
        ((g.range (B q)).xMin ≤ x ∧ x ≤ (g.range (B q)).xMax) ∧
        r ∈ Grid.cellLive g.data y x := by
  unfold Grid.intersects
  simp only []
  rw [foldl_live_mem _ (fun y r => hit B q r = true ∧ ∃ x,
    ((g.range (B q)).xMin ≤ x ∧ x ≤ (g.range (B q)).xMax) ∧ r ∈ Grid.cellLive g.data y x)]
  · simp only [live_resultBuffer, List.not_mem_nil, false_or, mem_intRange]
    constructor
    · rintro ⟨y, hy, hh, x, hx, hm⟩
      exact ⟨hh, y, x, hy, hx, hm⟩
    · rintro ⟨hh, y, x, hy, hx, hm⟩
      exact ⟨y, hy, hh, x, hx, hm⟩
  · intro res y r
    rw [foldl_live_mem _ (fun x r => hit B q r = true ∧ r ∈ Grid.cellLive g.data y x)]
    · simp only [mem_intRange]
      constructor
      · rintro (h | ⟨x, hx, hh, hm⟩)
        · exact Or.inl h
        · exact Or.inr ⟨hh, x, hx, hm⟩
      · rintro (h | ⟨hh, x, hx, hm⟩)
        · exact Or.inl h
        · exact Or.inr ⟨x, hx, hh, hm⟩
    · intro res x r
      unfold Grid.cellLive
      cases Grid.cell g.data y x with
      | none => simp
      | some c =>
        simp only [mem_scanPushNew]
        tauto

theorem Grid_nodup_intersects (B : Bounds) (g : Grid) (q : Ref) (res : Option DynamicBuffer) :
    (Grid.intersects B g q res).live.Nodup := by
  unfold Grid.intersects
  simp only []
  apply foldl_live_nodup
  · intro res y hres
    apply foldl_live_nodup _ _ _ _ hres
    intro res x hres
    cases Grid.cell g.data y x with
    | none => exact hres
    | some c => exact nodup_scanPushNew B q c.buf res hres
  · simp

theorem Grid_range_insert (B : Bounds) (g : Grid) (o : Ref) (b : Box2) :
    (Grid.insert B g o).range b = g.range b := rfl

theorem Grid_range_remove (B : Bounds) (g : Grid) (o : Ref) (b : Box2) :
    (Grid.remove B g o).range b = g.range b := rfl

theorem Grid_isSome_cell_insert (B : Bounds) (g : Grid) (o : Ref) (y x : Int) :
    (Grid.cell (Grid.insert B g o).data y x).isSome = (Grid.cell g.data y x).isSome := by
  unfold Grid.insert
  simp only [Grid_cell_forCells]
  split <;> simp

theorem Grid_range_foldl_insert (B : Bounds) (objs : List Ref) (g : Grid) (b : Box2) :
    (objs.foldl (Grid.insert B) g).range b = g.range b := by
  induction objs generalizing g with
  | nil => rfl
  | cons o objs ih => simp only [List.foldl_cons, ih, Grid_range_insert]

theorem Grid_mem_cellLive_foldl_insert (B : Bounds) (objs : List Ref) (g : Grid)
    (y x : Int) (r : Ref) :
    r ∈ Grid.cellLive (objs.foldl (Grid.insert B) g).data y x ↔
      r ∈ Grid.cellLive g.data y x ∨
        (r ∈ objs ∧ (((g.range (B r)).yMin ≤ y ∧ y ≤ (g.range (B r)).yMax) ∧
          ((g.range (B r)).xMin ≤ x ∧ x ≤ (g.range (B r)).xMax)) ∧
          (Grid.cell g.data y x).isSome = true) := by
  induction objs generalizing g with
  | nil => simp
  | cons o objs ih =>
    simp only [List.foldl_cons, ih, Grid_cellLive_insert, Grid_range_insert,
      Grid_isSome_cell_insert, List.mem_cons]
    by_cases h : (((g.range (B o)).yMin ≤ y ∧ y ≤ (g.range (B o)).yMax) ∧
          ((g.range (B o)).xMin ≤ x ∧ x ≤ (g.range (B o)).xMax) ∧
          (Grid.cell g.data y x).isSome = true)
    · simp only [h, and_self, if_true, List.mem_append, List.mem_singleton]
      constructor
      · rintro ((h1 | rfl) | ⟨h1, h2⟩)
        · exact Or.inl h1
        · exact Or.inr ⟨Or.inl rfl, ⟨h.1, h.2.1⟩, trivial⟩
        · exact Or.inr ⟨Or.inr h1, h2⟩
      · rintro (h1 | ⟨rfl | h1, h2⟩)
        · exact Or.inl (Or.inl h1)
        · exact Or.inl (Or.inr rfl)
        · exact Or.inr ⟨h1, h2⟩
    · simp only [h, if_false]
      constructor
      · rintro (h1 | ⟨h1, h2⟩)
        · exact Or.inl h1
        · exact Or.inr ⟨Or.inr h1, h2⟩
      · rintro (h1 | ⟨rfl | h1, h2⟩)
        · exact Or.inl h1
        · exact absurd ⟨h2.1.1, h2.1.2, h2.2⟩ h
        · exact Or.inr ⟨h1, h2⟩

theorem Grid_range_bounds (g : Grid) (b : Box2) :
    0 ≤ (g.range b).yMin ∧ (g.range b).yMax < (g.divisionsY : Int) ∧
      0 ≤ (g.range b).xMin ∧ (g.range b).xMax < (g.divisionsX : Int) := by
  unfold Grid.range
  simp only []
  refine ⟨?_, ?_, ?_, ?_⟩ <;> split <;> omega

/-- The cells built by Grid.prototype.reset before the objects are inserted. -/
theorem Grid_cell_fresh (nY nX : Nat) (mk : Nat → Nat → Cell) (y x : Int) :
    Grid.cell ((List.range nY).map (fun y => (List.range nX).map (fun x => mk y x))) y x =
      if (0 ≤ y ∧ y < (nY : Int)) ∧ (0 ≤ x ∧ x < (nX : Int)) then some (mk y.toNat x.toNat)
      else none := by
  unfold Grid.cell
  by_cases hg : 0 ≤ y ∧ 0 ≤ x
  · simp only [hg, and_self, if_true, true_and]
    by_cases hy : y < (nY : Int)
    · have hy1 : y.toNat < nY := by omega
      simp only [List.getElem?_map, List.getElem?_range hy1, Option.map_some', hy, true_and]
      by_cases hx : x < (nX : Int)
      · have hx1 : x.toNat < nX := by omega
        simp [List.getElem?_range hx1, hx]
      · have hx1 : ¬ x.toNat < nX := by omega
        have : (List.range nX)[x.toNat]? = none := by
          rw [List.getElem?_eq_none_iff]; simp; omega
        simp [this, hx]
    · have hy1 : ¬ y.toNat < nY := by omega
      have : (List.range nY)[y.toNat]? = none := by
        rw [List.getElem?_eq_none_iff]; simp; omega
      simp [this, hy]
  · have : ¬ ((0 ≤ y ∧ y < (nY : Int)) ∧ (0 ≤ x ∧ x < (nX : Int))) := by
      rintro ⟨⟨h1, _⟩, h2, _⟩
      exact hg ⟨h1, h2⟩
    simp [hg, this]

theorem Grid_mem_cellLive_reset (B : Bounds) (g : Grid) (objs : List Ref) (w h : ℚ)
    (y x : Int) (r : Ref) :
    r ∈ Grid.cellLive (Grid.reset B g objs w h).data y x ↔
      r ∈ objs ∧ (((Grid.reset B g objs w h).range (B r)).yMin ≤ y ∧
          y ≤ ((Grid.reset B g objs w h).range (B r)).yMax) ∧
        (((Grid.reset B g objs w h).range (B r)).xMin ≤ x ∧
          x ≤ ((Grid.reset B g objs w h).range (B r)).xMax) := by
  unfold Grid.reset
  simp only [Grid_range_foldl_insert, Grid_mem_cellLive_foldl_insert]
  have hd : (g.rebuild w h).data = (List.range g.divisionsY).map (fun (y : Nat) =>
        (List.range g.divisionsX).map (fun (x : Nat) =>
          Grid.newCell (fl (w / (g.divisionsX : ℚ))) (fl (h / (g.divisionsY : ℚ))) y x)) := rfl
  have hY : (g.rebuild w h).divisionsY = g.divisionsY := rfl
  have hX : (g.rebuild w h).divisionsX = g.divisionsX := rfl
  have hb := Grid_range_bounds (g.rebuild w h) (B r)
  rw [hY, hX] at hb
  simp only [Grid.cellLive, hd, Grid_cell_fresh]
  constructor
  · rintro (h1 | ⟨h1, h2, _⟩)
    · split at h1
      · next c hc =>
        split at hc
        · cases hc
          simp [Grid.newCell] at h1
        · cases hc
      · simp at h1
    · exact ⟨h1, h2⟩
  · rintro ⟨h1, h2⟩
    refine Or.inr ⟨h1, h2, ?_⟩
    obtain ⟨b1, b2, b3, b4⟩ := hb
    have c : (0 ≤ y ∧ y < (g.divisionsY : Int)) ∧ (0 ≤ x ∧ x < (g.divisionsX : Int)) := by
      obtain ⟨⟨h3, h4⟩, h5, h6⟩ := h2
      refine ⟨⟨?_, ?_⟩, ?_, ?_⟩ <;> omega
    simp [c]

/-! ## SpatialHash -/

theorem JSObject_get_set {V : Type} (m : JSObject V) (k : Int) (v : V) (k1 : Int) :
    (JSObject.set m k v).get? k1 = if k1 = k then some v else m.get? k1 := by
  induction m with
  | nil =>
    simp only [JSObject.set, JSObject.get?]
    by_cases h : k = k1
    · subst h; simp
    · have : ¬ k1 = k := fun e => h e.symm
      simp [h, this]
  | cons p m ih =>
    obtain ⟨k2, v2⟩ := p
    simp only [JSObject.set]
    by_cases h2 : k2 = k
    · subst h2
      simp only [if_true, JSObject.get?]
      by_cases h : k2 = k1
      · subst h; simp
      · have : ¬ k1 = k2 := fun e => h e.symm
        simp [h, this]
    · simp only [h2, if_false, JSObject.get?, ih]
      by_cases h : k2 = k1
      · subst h
        simp [h2]
      · simp [h]

theorem SpatialHash_rowLive_insertCell (s : SpatialHash) (obj : Ref) (y : Int)
    (row : JSObject Cell) (x x1 : Int) :
    SpatialHash.rowLive (SpatialHash.insertCell s obj y row x) x1 =
      if x1 = x then SpatialHash.rowLive row x ++ [obj] else SpatialHash.rowLive row x1 := by
  unfold SpatialHash.insertCell SpatialHash.rowLive
  simp only [JSObject_get_set]
  by_cases h : x1 = x
  · subst h
    cases row.get? x1 <;> simp [Cell.push]
  · simp [h]

theorem SpatialHash_rowLive_foldl_insertCell (s : SpatialHash) (obj : Ref) (y : Int)
    (xs : List Int) (hxs : xs.Nodup) (row : JSObject Cell) (x1 : Int) :
    SpatialHash.rowLive (xs.foldl (SpatialHash.insertCell s obj y) row) x1 =
      if x1 ∈ xs then SpatialHash.rowLive row x1 ++ [obj] else SpatialHash.rowLive row x1 := by
  induction xs generalizing row with
  | nil => simp
  | cons a xs ih =>
    obtain ⟨ha, hxs1⟩ := List.nodup_cons.1 hxs
    simp only [List.foldl_cons, ih hxs1, SpatialHash_rowLive_insertCell, List.mem_cons]
    by_cases hx : x1 = a
    · subst hx
      simp [ha]
    · simp [hx]

theorem SpatialHash_rowLive_removeCell (obj : Ref) (row : JSObject Cell) (x x1 : Int) :
    SpatialHash.rowLive (SpatialHash.removeCell obj row x) x1 =
      if x1 = x then (SpatialHash.rowLive row x).erase obj else SpatialHash.rowLive row x1 := by
  unfold SpatialHash.removeCell SpatialHash.rowLive
  by_cases h : x1 = x
  · subst h
    cases hc : row.get? x1 <;> simp [JSObject_get_set, hc, Cell.remove,
      DynamicBuffer_live_remove]
  · cases hc : row.get? x <;> simp [JSObject_get_set, h]

theorem SpatialHash_rowLive_foldl_removeCell (obj : Ref) (xs : List Int) (hxs : xs.Nodup)
    (row : JSObject Cell) (x1 : Int) :
    SpatialHash.rowLive (xs.foldl (SpatialHash.removeCell obj) row) x1 =
      if x1 ∈ xs then (SpatialHash.rowLive row x1).erase obj
      else SpatialHash.rowLive row x1 := by
  induction xs generalizing row with
  | nil => simp
  | cons a xs ih =>
    obtain ⟨ha, hxs1⟩ := List.nodup_cons.1 hxs
    simp only [List.foldl_cons, ih hxs1, SpatialHash_rowLive_removeCell, List.mem_cons]
    by_cases hx : x1 = a
    · subst hx
      simp [ha]
    · simp [hx]

theorem SpatialHash_cellLive_insertRow (s : SpatialHash) (o : Ref) (r : CellRange)
    (d : JSObject (JSObject Cell)) (a y2 x2 : Int) :
    SpatialHash.cellLive (SpatialHash.insertRow s o r d a) y2 x2 =
      if y2 = a ∧ x2 ∈ intRange r.xMin r.xMax then SpatialHash.cellLive d y2 x2 ++ [o]
      else SpatialHash.cellLive d y2 x2 := by
  unfold SpatialHash.insertRow SpatialHash.cellLive
  simp only [JSObject_get_set]
  by_cases hy : y2 = a
  · subst hy
    simp only [if_true, true_and,
      SpatialHash_rowLive_foldl_insertCell s o y2 _ (nodup_intRange _ _)]
    cases d.get? y2 <;> simp [SpatialHash.rowLive, JSObject.get?]
  · simp [hy]

theorem SpatialHash_cellLive_removeRow (o : Ref) (r : CellRange)
    (d : JSObject (JSObject Cell)) (a y2 x2 : Int) :
    SpatialHash.cellLive (SpatialHash.removeRow o r d a) y2 x2 =
      if y2 = a ∧ x2 ∈ intRange r.xMin r.xMax then (SpatialHash.cellLive d y2 x2).erase o
      else SpatialHash.cellLive d y2 x2 := by
  unfold SpatialHash.removeRow
  cases hd : d.get? a with
  | none =>
    simp only []
    by_cases hy : y2 = a
    · subst hy
      simp [SpatialHash.cellLive, hd]
    · simp [hy]
  | some row =>
    simp only []
    unfold SpatialHash.cellLive
    simp only [JSObject_get_set]
    by_cases hy : y2 = a
    · subst hy
      simp only [if_true, true_and, hd,
        SpatialHash_rowLive_foldl_removeCell o _ (nodup_intRange _ _)]
    · simp [hy]

theorem SpatialHash_cellLive_insert (B : Bounds) (s : SpatialHash) (o : Ref) (y1 x1 : Int) :
    SpatialHash.cellLive (SpatialHash.insert B s o).data y1 x1 =
      if ((s.range (B o)).yMin ≤ y1 ∧ y1 ≤ (s.range (B o)).yMax) ∧
          ((s.range (B o)).xMin ≤ x1 ∧ x1 ≤ (s.range (B o)).xMax) then
        SpatialHash.cellLive s.data y1 x1 ++ [o]
      else SpatialHash.cellLive s.data y1 x1 := by
  unfold SpatialHash.insert
  simp only [← mem_intRange]
  have hys := nodup_intRange (s.range (B o)).yMin (s.range (B o)).yMax
  generalize intRange (s.range (B o)).yMin (s.range (B o)).yMax = ys at hys
  generalize s.data = d
  induction ys generalizing d with
  | nil => simp
  | cons a ys ih =>
    obtain ⟨ha, hys1⟩ := List.nodup_cons.1 hys
    simp only [List.foldl_cons, ih hys1, List.mem_cons, SpatialHash_cellLive_insertRow]
    by_cases hy : y1 = a
    · subst hy
      by_cases hx : x1 ∈ intRange (s.range (B o)).xMin (s.range (B o)).xMax
      · simp [ha, hx]
      · simp [ha, hx]
    · simp [hy]

theorem SpatialHash_cellLive_remove (B : Bounds) (s : SpatialHash) (o : Ref) (y1 x1 : Int) :
    SpatialHash.cellLive (SpatialHash.remove B s o).data y1 x1 =
      if ((s.range (B o)).yMin ≤ y1 ∧ y1 ≤ (s.range (B o)).yMax) ∧
          ((s.range (B o)).xMin ≤ x1 ∧ x1 ≤ (s.range (B o)).xMax) then
        (SpatialHash.cellLive s.data y1 x1).erase o
      else SpatialHash.cellLive s.data y1 x1 := by
  unfold SpatialHash.remove
  simp only [← mem_intRange]
  have hys := nodup_intRange (s.range (B o)).yMin (s.range (B o)).yMax
  generalize intRange (s.range (B o)).yMin (s.range (B o)).yMax = ys at hys
  generalize s.data = d
  induction ys generalizing d with
  | nil => simp
  | cons a ys ih =>
    obtain ⟨ha, hys1⟩ := List.nodup_cons.1 hys
    simp only [List.foldl_cons, ih hys1, List.mem_cons, SpatialHash_cellLive_removeRow]
    by_cases hy : y1 = a
    · subst hy
      by_cases hx : x1 ∈ intRange (s.range (B o)).xMin (s.range (B o)).xMax
      · simp [ha, hx]
      · simp [ha, hx]
    · simp [hy]

theorem SpatialHash_mem_intersects (B : Bounds) (s : SpatialHash) (q : Ref)
    (res : Option DynamicBuffer) (r : Ref) :
    r ∈ (SpatialHash.intersects B s q res).live ↔
      hit B q r = true ∧ ∃ y x, ((s.range (B q)).yMin ≤ y ∧ y ≤ (s.range (B q)).yMax) ∧
        ((s.range (B q)).xMin ≤ x ∧ x ≤ (s.range (B q)).xMax) ∧
        r ∈ SpatialHash.cellLive s.data y x := by
  unfold SpatialHash.intersects
  simp only []
  rw [foldl_live_mem _ (fun y r => hit B q r = true ∧ ∃ x,
    ((s.range (B q)).xMin ≤ x ∧ x ≤ (s.range (B q)).xMax) ∧
      r ∈ SpatialHash.cellLive s.data y x)]
  · simp only [live_resultBuffer, List.not_mem_nil, false_or, mem_intRange]
    constructor
    · rintro ⟨y, hy, hh, x, hx, hm⟩
      exact ⟨hh, y, x, hy, hx, hm⟩
    · rintro ⟨hh, y, x, hy, hx, hm⟩
      exact ⟨y, hy, hh, x, hx, hm⟩
  · intro res y r
    unfold SpatialHash.cellLive
    cases s.data.get? y with
    | none => simp
    | some row =>
      simp only []
      rw [foldl_live_mem _ (fun x r => hit B q r = true ∧ r ∈ SpatialHash.rowLive row x)]
      · simp only [mem_intRange]
        constructor
        · rintro (h | ⟨x, hx, hh, hm⟩)
          · exact Or.inl h
          · exact Or.inr ⟨hh, x, hx, hm⟩
        · rintro (h | ⟨hh, x, hx, hm⟩)
          · exact Or.inl h
          · exact Or.inr ⟨x, hx, hh, hm⟩
      · intro res x r
        unfold SpatialHash.rowLive
        cases row.get? x with
        | none => simp
        | some c =>
          simp only [mem_scanPushNew]
          tauto

theorem SpatialHash_nodup_intersects (B : Bounds) (s : SpatialHash) (q : Ref)
    (res : Option DynamicBuffer) : (SpatialHash.intersects B s q res).live.Nodup := by
  unfold SpatialHash.intersects
  simp only []
  apply foldl_live_nodup
  · intro res y hres
    cases s.data.get? y with
    | none => exact hres
    | some row =>
      simp only []
      apply foldl_live_nodup _ _ _ _ hres
      intro res x hres
      cases row.get? x with
      | none => exact hres
      | some c => exact nodup_scanPushNew B q c.buf res hres
  · simp

theorem SpatialHash_range_insert (B : Bounds) (s : SpatialHash) (o : Ref) (b : Box2) :
    (SpatialHash.insert B s o).range b = s.range b := rfl

theorem SpatialHash_range_foldl_insert (B : Bounds) (objs : List Ref) (s : SpatialHash)
    (b : Box2) : (objs.foldl (SpatialHash.insert B) s).range b = s.range b := by
  induction objs generalizing s with
  | nil => rfl
  | cons o objs ih => simp only [List.foldl_cons, ih, SpatialHash_range_insert]

theorem SpatialHash_mem_cellLive_foldl_insert (B : Bounds) (objs : List Ref)
    (s : SpatialHash) (y x : Int) (r : Ref) :
    r ∈ SpatialHash.cellLive (objs.foldl (SpatialHash.insert B) s).data y x ↔
      r ∈ SpatialHash.cellLive s.data y x ∨
        (r ∈ objs ∧ ((s.range (B r)).yMin ≤ y ∧ y ≤ (s.range (B r)).yMax) ∧
          ((s.range (B r)).xMin ≤ x ∧ x ≤ (s.range (B r)).xMax)) := by
  induction objs generalizing s with
  | nil => simp
  | cons o objs ih =>
    simp only [List.foldl_cons, ih, SpatialHash_cellLive_insert, SpatialHash_range_insert,
      List.mem_cons]
    by_cases h : (((s.range (B o)).yMin ≤ y ∧ y ≤ (s.range (B o)).yMax) ∧
          ((s.range (B o)).xMin ≤ x ∧ x ≤ (s.range (B o)).xMax))
    · simp only [h, and_self, if_true, List.mem_append, List.mem_singleton]
      constructor
      · rintro ((h1 | rfl) | ⟨h1, h2⟩)
        · exact Or.inl h1
        · exact Or.inr ⟨Or.inl rfl, h⟩
        · exact Or.inr ⟨Or.inr h1, h2⟩
      · rintro (h1 | ⟨rfl | h1, h2⟩)
        · exact Or.inl (Or.inl h1)
        · exact Or.inl (Or.inr rfl)
        · exact Or.inr ⟨h1, h2⟩
    · simp only [h, if_false]
      constructor
      · rintro (h1 | ⟨h1, h2⟩)
        · exact Or.inl h1
        · exact Or.inr ⟨Or.inr h1, h2⟩
      · rintro (h1 | ⟨rfl | h1, h2⟩)
        · exact Or.inl h1
        · exact absurd h2 h
        · exact Or.inr ⟨h1, h2⟩

theorem SpatialHash_mem_cellLive_reset (B : Bounds) (s : SpatialHash) (objs : List Ref)
    (y x : Int) (r : Ref) :
    r ∈ SpatialHash.cellLive (SpatialHash.reset B s objs).data y x ↔
      r ∈ objs ∧ (((SpatialHash.reset B s objs).range (B r)).yMin ≤ y ∧
          y ≤ ((SpatialHash.reset B s objs).range (B r)).yMax) ∧
        (((SpatialHash.reset B s objs).range (B r)).xMin ≤ x ∧
          x ≤ ((SpatialHash.reset B s objs).range (B r)).xMax) := by
  unfold SpatialHash.reset
  simp only [SpatialHash_range_foldl_insert, SpatialHash_mem_cellLive_foldl_insert]
  simp [SpatialHash.cellLive, JSObject.get?]

/-! ## The operator `~~` -/

theorem trunc_eq (x : ℚ) :
    Int.tdiv x.num x.den = if 0 ≤ x then ⌊x⌋ else -⌊-x⌋ := by
  split
  · next h =>
    rw [Rat.floor_def, Int.tdiv_eq_ediv (Rat.num_nonneg.2 h) (by positivity)]
  · next h =>
    rw [Rat.floor_def, Rat.neg_num, Rat.neg_den]
    have hn : x.num < 0 := Rat.num_neg.2 (lt_of_not_le h)
    have h2 : 0 ≤ -x.num := by omega
    rw [← Int.tdiv_eq_ediv h2 (by positivity), Int.neg_tdiv, neg_neg]

theorem trunc_mono (x y : ℚ) (h : x ≤ y) : Int.tdiv x.num x.den ≤ Int.tdiv y.num y.den := by
  rw [trunc_eq, trunc_eq]
  by_cases hx : 0 ≤ x
  · have hy : 0 ≤ y := le_trans hx h
    simp only [hx, hy, if_true]
    exact Int.floor_mono h
  · by_cases hy : 0 ≤ y
    · simp only [hx, hy, if_true, if_false]
      have h1 : 0 ≤ ⌊-x⌋ := Int.floor_nonneg.2 (by linarith)
      have h2 : 0 ≤ ⌊y⌋ := Int.floor_nonneg.2 hy
      omega
    · simp only [hx, hy, if_false]
      have : ⌊-y⌋ ≤ ⌊-x⌋ := Int.floor_mono (by linarith)
      omega

theorem trunc_range (x : ℚ) (h : InInt32 x) :
    -2147483648 ≤ Int.tdiv x.num x.den ∧ Int.tdiv x.num x.den < 2147483648 := by
  obtain ⟨h1, h2⟩ := h
  rw [trunc_eq]
  by_cases hx : 0 ≤ x
  · simp only [hx, if_true]
    have a1 : 0 ≤ ⌊x⌋ := Int.floor_nonneg.2 hx
    have a2 : ⌊x⌋ < 2147483648 := by
      rw [Int.floor_lt]
      exact_mod_cast h2
    omega
  · simp only [hx, if_false]
    have a1 : 0 ≤ ⌊-x⌋ := Int.floor_nonneg.2 (by linarith)
    have a2 : ⌊-x⌋ ≤ 2147483648 := by
      have : ⌊-x⌋ ≤ ⌊(2147483648 : ℚ)⌋ := Int.floor_mono (by linarith)
      have e : ⌊(2147483648 : ℚ)⌋ = 2147483648 := by
        exact_mod_cast Int.floor_intCast (2147483648 : ℤ)
      omega
    omega

theorem toInt32_eq (x : ℚ) (h : InInt32 x) : toInt32 x = Int.tdiv x.num x.den := by
  have := trunc_range x h
  unfold toInt32
  simp only []
  split <;> omega

theorem toInt32_mono (x y : ℚ) (hx : InInt32 x) (hy : InInt32 y) (h : x ≤ y) :
    toInt32 x ≤ toInt32 y := by
  rw [toInt32_eq x hx, toInt32_eq y hy]
  exact trunc_mono x y h

/-- Two well-formed boxes that pass the overlap test meet on both axes. -/
theorem overlaps_meet (B : Bounds) (q r : Ref) (hq : (B q).WellFormed)
    (hr : (B r).WellFormed) (ho : overlaps B q r = true) :
    (B q).min.x ≤ (B r).max.x ∧ (B r).min.x ≤ (B q).max.x ∧
      (B q).min.y ≤ (B r).max.y ∧ (B r).min.y ≤ (B q).max.y := by
  rw [overlaps_iff] at ho
  obtain ⟨q1, q2⟩ := hq
  obtain ⟨r1, r2⟩ := hr
  rcases ho with (h | h) | h
  · rw [Box2_isIntersectionBox_iff] at h
    exact h
  · rw [Box2_containsBox_iff] at h
    obtain ⟨h1, h2, h3, h4⟩ := h
    refine ⟨?_, ?_, ?_, ?_⟩ <;> linarith
  · rw [Box2_containsBox_iff] at h
    obtain ⟨h1, h2, h3, h4⟩ := h
    refine ⟨?_, ?_, ?_, ?_⟩ <;> linarith

/-! # Properties of the four strategies -/

/-- The scene of the specification on a world 1000 by 1000: on every strategy
intersects(A) returns exactly `B` and intersects(C) returns nothing. -/
theorem scene_ABC_results :
    (Basic.intersects sceneABC (Basic.reset Basic.init [0, 1, 2]) 0 none).live = [1] ∧
      (Basic.intersects sceneABC (Basic.reset Basic.init [0, 1, 2]) 2 none).live = [] ∧
      (Grid.intersects sceneABC
        (Grid.reset sceneABC (Grid.init sceneABC) [0, 1, 2] 1000 1000) 0 none).live = [1] ∧
      (Grid.intersects sceneABC
        (Grid.reset sceneABC (Grid.init sceneABC) [0, 1, 2] 1000 1000) 2 none).live = [] ∧
      (Quadtree.intersects sceneABC
        (Quadtree.reset sceneABC (Quadtree.init sceneABC alpha0) [0, 1, 2] 1000 1000
          alpha0).1 0 none).live = [1] ∧
      (Quadtree.intersects sceneABC
        (Quadtree.reset sceneABC (Quadtree.init sceneABC alpha0) [0, 1, 2] 1000 1000
          alpha0).1 2 none).live = [] ∧
      (SpatialHash.intersects sceneABC
        (SpatialHash.reset sceneABC (SpatialHash.init sceneABC) [0, 1, 2]) 0 none).live = [1] ∧
      (SpatialHash.intersects sceneABC
        (SpatialHash.reset sceneABC (SpatialHash.init sceneABC) [0, 1, 2]) 2 none).live = [] := by
  decide!

theorem Basic_mem_intersects_reset (B : Bounds) (b : Basic) (objs : List Ref) (q : Ref)
    (res : Option DynamicBuffer) (r : Ref) :
    r ∈ (Basic.intersects B (Basic.reset b objs) q res).live ↔
      r ∈ objs ∧ hit B q r = true := by
  rw [Basic_live_intersects, Basic_live_reset, List.mem_filter]

theorem hit_iff_test (B : Bounds) (q r : Ref) :
    hit B q r = true ↔ r ≠ q ∧
      ((B q).isIntersectionBox (B r) || (B q).containsBox (B r) ||
        (B r).containsBox (B q)) = true := by
  rw [hit_iff]
  unfold overlaps
  exact ⟨fun h => ⟨fun e => h.1 e.symm, h.2⟩, fun h => ⟨fun e => h.1 e.symm, h.2⟩⟩

/-- C1. Quadtree agrees with brute force: for every world size, every list of
pairwise-distinct well-formed boxes and every well-formed query box `q`, an object is in the
result of Quadtree.intersects(q) after Quadtree.reset(objs, w, h) exactly when it is in the
result of Basic.intersects(q) after Basic.reset(objs), and that is exactly when it is an
object of `objs` other than `q` that passes the overlap test with `q`. -/
theorem quadtree_agrees_with_basic (B : Bounds) (t : Quadtree) (b : Basic) (A : Alpha)
    (objs : List Ref) (w h : ℚ) (q : Ref) (_hd : objs.Nodup)
    (hw : ∀ s, s ∈ objs → (B s).WellFormed) (_hq : (B q).WellFormed) (r : Ref) :
    (r ∈ (Quadtree.intersects B (Quadtree.reset B t objs w h A).1 q none).live ↔
        r ∈ (Basic.intersects B (Basic.reset b objs) q none).live) ∧
      (r ∈ (Basic.intersects B (Basic.reset b objs) q none).live ↔
        r ∈ objs ∧ r ≠ q ∧
          ((B q).isIntersectionBox (B r) || (B q).containsBox (B r) ||
            (B r).containsBox (B q)) = true) := by
  have hp := Quadtree_reset_stored B t objs w h A
  have hf := Quadtree_reset_fits B t objs w h A
  have hws : ∀ s, s ∈ (Quadtree.reset B t objs w h A).1.stored → (B s).WellFormed :=
    fun s hs => hw s (hp.mem_iff.1 hs)
  constructor
  · rw [Quadtree_mem_intersects B _ q none hf hws, Basic_mem_intersects_reset, hp.mem_iff]
  · rw [Basic_mem_intersects_reset, hit_iff_test]

/-- Witness of C1 on the scene of the specification (world 1000 by 1000, query `A`). -/
theorem quadtree_agrees_with_basic_witness :
    (1 ∈ (Quadtree.intersects sceneABC
          (Quadtree.reset sceneABC (Quadtree.init sceneABC alpha0) [0, 1, 2] 1000 1000
            alpha0).1 0 none).live ↔
        1 ∈ (Basic.intersects sceneABC (Basic.reset Basic.init [0, 1, 2]) 0 none).live) ∧
      (1 ∈ (Basic.intersects sceneABC (Basic.reset Basic.init [0, 1, 2]) 0 none).live ↔
        1 ∈ [0, 1, 2] ∧ 1 ≠ 0 ∧
          ((sceneABC 0).isIntersectionBox (sceneABC 1) ||
            (sceneABC 0).containsBox (sceneABC 1) ||
            (sceneABC 1).containsBox (sceneABC 0)) = true) :=
  quadtree_agrees_with_basic sceneABC (Quadtree.init sceneABC alpha0) Basic.init alpha0
    [0, 1, 2] 1000 1000 0 (by decide) (by decide!) (by decide!) 1

/-- Counterexample to C2 as stated: object 0 = `[[0,0],[236223201280,10]]` is well-formed,
`~~(236223201280 / 110)` wraps to `-2147483648`, so SpatialHash.insert stores it in no cell;
the query 1 = `[[5,5],[6,6]]` finds it in Basic but not in SpatialHash. -/
theorem spatialhash_wrap_counterexample :
    [0].Nodup ∧ (sceneWide 0).WellFormed ∧ (sceneWide 1).WellFormed ∧
      0 ∈ (Basic.intersects sceneWide (Basic.reset Basic.init [0]) 1 none).live ∧
      0 ∉ (SpatialHash.intersects sceneWide
            (SpatialHash.reset sceneWide (SpatialHash.init sceneWide) [0]) 1 none).live := by
  decide!

theorem SpatialHash_range_reset (B : Bounds) (s : SpatialHash) (objs : List Ref) (b : Box2) :
    (SpatialHash.reset B s objs).range b = s.range b := by
  unfold SpatialHash.reset
  rw [SpatialHash_range_foldl_insert]
  rfl

/-- Two well-formed in-range boxes that meet on both axes share a cell of the hash. -/
theorem SpatialHash_common_cell (s : SpatialHash) (hx : 0 < s.sizeX) (hy : 0 < s.sizeY)
    (a b : Box2) (ha : a.WellFormed) (hb : b.WellFormed)
    (ia : a.InInt32 s.sizeX s.sizeY) (ib : b.InInt32 s.sizeX s.sizeY)
    (hm : a.min.x ≤ b.max.x ∧ b.min.x ≤ a.max.x ∧ a.min.y ≤ b.max.y ∧ b.min.y ≤ a.max.y) :
    ∃ y x, (((s.range a).yMin ≤ y ∧ y ≤ (s.range a).yMax) ∧
        ((s.range a).xMin ≤ x ∧ x ≤ (s.range a).xMax)) ∧
      (((s.range b).yMin ≤ y ∧ y ≤ (s.range b).yMax) ∧
        ((s.range b).xMin ≤ x ∧ x ≤ (s.range b).xMax)) := by
  obtain ⟨a1, a2, a3, a4⟩ := ia
  obtain ⟨b1, b2, b3, b4⟩ := ib
  obtain ⟨m1, m2, m3, m4⟩ := hm
  have dx : ∀ u v : ℚ, u ≤ v → u / s.sizeX ≤ v / s.sizeX :=
    fun u v h => div_le_div_of_nonneg_right h (le_of_lt hx)
  have dy : ∀ u v : ℚ, u ≤ v → u / s.sizeY ≤ v / s.sizeY :=
    fun u v h => div_le_div_of_nonneg_right h (le_of_lt hy)
  have e1 := toInt32_mono _ _ a1 a2 (dx _ _ ha.1)
  have e2 := toInt32_mono _ _ b1 b2 (dx _ _ hb.1)
  have e3 := toInt32_mono _ _ a1 b2 (dx _ _ m1)
  have e4 := toInt32_mono _ _ b1 a2 (dx _ _ m2)
  have f1 := toInt32_mono _ _ a3 a4 (dy _ _ ha.2)
  have f2 := toInt32_mono _ _ b3 b4 (dy _ _ hb.2)
  have f3 := toInt32_mono _ _ a3 b4 (dy _ _ m3)
  have f4 := toInt32_mono _ _ b3 a4 (dy _ _ m4)
  refine ⟨max (s.range a).yMin (s.range b).yMin, max (s.range a).xMin (s.range b).xMin, ?_⟩
  unfold SpatialHash.range
  simp only []
  refine ⟨⟨⟨?_, ?_⟩, ?_, ?_⟩, ⟨?_, ?_⟩, ?_, ?_⟩ <;> omega

/-- C2, amended. SpatialHash agrees with brute force on boxes whose cell quotients do not
wrap: for every hash with positive cell sizes (init sets 110 by 110), every list of
pairwise-distinct well-formed boxes and every well-formed query box `q`, all with
`coordinate / size` in the signed 32-bit range, an object is in the result of
SpatialHash.intersects(q) after SpatialHash.reset(objs) exactly when it is in the result of
Basic.intersects(q) after Basic.reset(objs). -/
theorem spatialhash_agrees_with_basic_in_range (B : Bounds) (s : SpatialHash) (b : Basic)
    (objs : List Ref) (q : Ref) (hx : 0 < s.sizeX) (hy : 0 < s.sizeY) (_hd : objs.Nodup)
    (hw : ∀ o, o ∈ objs → (B o).WellFormed ∧ (B o).InInt32 s.sizeX s.sizeY)
    (hq : (B q).WellFormed ∧ (B q).InInt32 s.sizeX s.sizeY) (r : Ref) :
    r ∈ (SpatialHash.intersects B (SpatialHash.reset B s objs) q none).live ↔
      r ∈ (Basic.intersects B (Basic.reset b objs) q none).live := by
  rw [SpatialHash_mem_intersects, Basic_mem_intersects_reset]
  simp only [SpatialHash_mem_cellLive_reset, SpatialHash_range_reset]
  constructor
  · rintro ⟨hh, y, x, _, _, hr, _⟩
    exact ⟨hr, hh⟩
  · rintro ⟨hr, hh⟩
    have ho := ((hit_iff B q r).1 hh).2
    obtain ⟨y, x, ⟨c1, c2⟩, c3⟩ := SpatialHash_common_cell s hx hy (B q) (B r) hq.1 (hw r hr).1
      hq.2 (hw r hr).2 (overlaps_meet B q r hq.1 (hw r hr).1 ho)
    exact ⟨hh, y, x, c1, c2, hr, c3⟩

/-- Witness of C2, amended, on the scene of the specification with the hash built by init. -/
theorem spatialhash_agrees_with_basic_in_range_witness :
    1 ∈ (SpatialHash.intersects sceneABC
          (SpatialHash.reset sceneABC (SpatialHash.init sceneABC) [0, 1, 2]) 0 none).live ↔
      1 ∈ (Basic.intersects sceneABC (Basic.reset Basic.init [0, 1, 2]) 0 none).live :=
  spatialhash_agrees_with_basic_in_range sceneABC (SpatialHash.init sceneABC) Basic.init
    [0, 1, 2] 0 (by decide!) (by decide!) (by decide) (by decide!) (by decide!) 1

/-- C3, the code at the failing input: world 700 by 600 (cells 100 by 100), object 0 =
`[[800,0],[810,10]]` and query 1 = `[[805,5],[815,15]]` are well-formed and overlap. The
column range of object 0 is `xMin = 8`, `xMax = 6` after the bounding, so Grid.insert pushes
it into no cell; Basic returns object 0 for the query, Grid returns nothing. -/
theorem grid_drops_out_of_world_object :
    [0].Nodup ∧ (sceneOutside 0).WellFormed ∧ (sceneOutside 1).WellFormed ∧
      (Grid.reset sceneOutside (Grid.init sceneOutside) [0] 700 600).range (sceneOutside 0) =
        ⟨8, 0, 6, 0⟩ ∧
      (Basic.intersects sceneOutside (Basic.reset Basic.init [0]) 1 none).live = [0] ∧
      (Grid.intersects sceneOutside
        (Grid.reset sceneOutside (Grid.init sceneOutside) [0] 700 600) 1 none).live = [] := by
  decide!

/-- C4. Grid and SpatialHash never return duplicates: in every state of the grid and of the
hash (so in every state reached from reset by insert and remove calls, whatever was inserted
twice or spans several cells), for every query and every supplied result buffer, no object
occurs twice in the live contents of the buffer returned by intersects. -/
theorem grid_spatialhash_no_duplicates (B : Bounds) (g : Grid) (s : SpatialHash) (q : Ref)
    (res : Option DynamicBuffer) :
    (Grid.intersects B g q res).live.Nodup ∧ (SpatialHash.intersects B s q res).live.Nodup :=
  ⟨Grid_nodup_intersects B g q res, SpatialHash_nodup_intersects B s q res⟩

/-- Counterexample to C5 as stated: after reset on a world 16 by 16, inserting object 0 =
`[[1,1],[2,2]]` twice, the query 1 = `[[0,0],[3,3]]` returns object 0 twice. -/
theorem quadtree_duplicates_counterexample :
    (Quadtree.intersects sceneNested
      (Quadtree.insert sceneNested
        (Quadtree.insert sceneNested
          (Quadtree.reset sceneNested (Quadtree.init sceneNested alpha0) [] 16 16 alpha0).1
          0 alpha0).state.1 0 alpha0).state.1 1 none).live = [0, 0] := by
  decide!

theorem Quadtree_nodup_of_insertedOnce (t : Quadtree) (ht : Quadtree.InsertedOnce t) :
    t.stored.Nodup := by
  induction ht with
  | reset B t objs w h A hd => exact (Quadtree_reset_stored B t objs w h A).nodup_iff.2 hd
  | insert B t obj A _ hn ih => exact Quadtree_insert_nodup B t obj A ih hn
  | remove B t obj _ ih => exact Quadtree_remove_nodup B t obj ih

/-- C5, amended. Quadtree returns no duplicates when no object is inserted while it is
already held: for every state reached from a reset on pairwise-distinct objects by remove
calls and by insert calls of objects not held at that moment, and for every query, no object
occurs twice in the live contents of the buffer returned by Quadtree.intersects. -/
theorem quadtree_no_duplicates_inserted_once (t : Quadtree) (ht : Quadtree.InsertedOnce t)
    (B : Bounds) (q : Ref) (res : Option DynamicBuffer) :
    (Quadtree.intersects B t q res).live.Nodup :=
  ((Quadtree_nodup_of_insertedOnce t ht).filter _).sublist
    (Quadtree_intersects_sublist B t q res)

/-- Witness of C5, amended: reset on the scene of the specification, then remove object 1 and
insert it again. -/
theorem quadtree_no_duplicates_inserted_once_witness :
    (Quadtree.intersects sceneABC
      (Quadtree.insert sceneABC
        (Quadtree.remove sceneABC
          (Quadtree.reset sceneABC (Quadtree.init sceneABC alpha0) [0, 1, 2] 1000 1000
            alpha0).1 1).state 1 alpha0).state.1 0 none).live.Nodup :=
  quadtree_no_duplicates_inserted_once _
    (Quadtree.InsertedOnce.insert sceneABC _ 1 alpha0
      (Quadtree.InsertedOnce.remove sceneABC _ 1
        (Quadtree.InsertedOnce.reset sceneABC (Quadtree.init sceneABC alpha0) [0, 1, 2]
          1000 1000 alpha0 (by decide)))
      (by decide!))
    sceneABC 0 none

theorem hit_self (B : Bounds) (o : Ref) : hit B o o = false := by
  unfold hit
  simp

/-- C6. No self-match: in every state of each of the four strategies (so in every reachable
state, also after insert(o) was called twice), for every object `o` and every supplied result
buffer, the result of intersects(o) does not contain `o`. -/
theorem no_self_match (B : Bounds) (b : Basic) (g : Grid) (t : Quadtree) (s : SpatialHash)
    (o : Ref) (res : Option DynamicBuffer) :
    o ∉ (Basic.intersects B b o res).live ∧ o ∉ (Grid.intersects B g o res).live ∧
      o ∉ (Quadtree.intersects B t o res).live ∧
      o ∉ (SpatialHash.intersects B s o res).live := by
  refine ⟨?_, ?_, ?_, ?_⟩
  · rw [Basic_live_intersects, List.mem_filter]
    rintro ⟨_, h⟩
    rw [hit_self] at h
    cases h
  · rw [Grid_mem_intersects]
    rintro ⟨h, _⟩
    rw [hit_self] at h
    cases h
  · intro h
    have := (Quadtree_intersects_sublist B t o res).subset h
    rw [List.mem_filter, hit_self] at this
    cases this.2
  · rw [SpatialHash_mem_intersects]
    rintro ⟨h, _⟩
    rw [hit_self] at h
    cases h

/-- Counterexample to C7 as stated: boxes 0 = `[[3,3],[1,1]]` and 1 = `[[3,3],[2.5,2.5]]`
(both with `min > max`) loaded by Quadtree.reset on a world 16 by 16: object 1 is in the
result of intersects(0), object 0 is not in the result of intersects(1). -/
theorem quadtree_symmetry_counterexample :
    (0 : Ref) ≠ 1 ∧
      1 ∈ (Quadtree.intersects sceneMalformed
            (Quadtree.reset sceneMalformed (Quadtree.init sceneMalformed alpha0) [0, 1] 16 16
              alpha0).1 0 none).live ∧
      0 ∉ (Quadtree.intersects sceneMalformed
            (Quadtree.reset sceneMalformed (Quadtree.init sceneMalformed alpha0) [0, 1] 16 16
              alpha0).1 1 none).live := by
  decide!

theorem Grid_symmetric_reset (B : Bounds) (g : Grid) (objs : List Ref) (w h : ℚ) (a b : Ref)
    (ha : a ∈ objs)
    (hab : b ∈ (Grid.intersects B (Grid.reset B g objs w h) a none).live) :
    a ∈ (Grid.intersects B (Grid.reset B g objs w h) b none).live := by
  rw [Grid_mem_intersects] at hab ⊢
  obtain ⟨hh, y, x, hy, hx, hm⟩ := hab
  rw [Grid_mem_cellLive_reset] at hm
  refine ⟨by rw [hit_comm]; exact hh, y, x, hm.2.1, hm.2.2, ?_⟩
  rw [Grid_mem_cellLive_reset]
  exact ⟨ha, hy, hx⟩

theorem SpatialHash_symmetric_reset (B : Bounds) (s : SpatialHash) (objs : List Ref)
    (a b : Ref) (ha : a ∈ objs)
    (hab : b ∈ (SpatialHash.intersects B (SpatialHash.reset B s objs) a none).live) :
    a ∈ (SpatialHash.intersects B (SpatialHash.reset B s objs) b none).live := by
  rw [SpatialHash_mem_intersects] at hab ⊢
  obtain ⟨hh, y, x, hy, hx, hm⟩ := hab
  rw [SpatialHash_mem_cellLive_reset] at hm
  refine ⟨by rw [hit_comm]; exact hh, y, x, hm.2.1, hm.2.2, ?_⟩
  rw [SpatialHash_mem_cellLive_reset]
  exact ⟨ha, hy, hx⟩

/-- C7, amended. Query symmetry: for every population `objs` loaded by reset and every two
non-identical objects `a` and `b` of `objs`, if `b` is in the result of intersects(a) then
`a` is in the result of intersects(b); for Basic, Grid and SpatialHash whatever the boxes
are, for Quadtree when the boxes of `objs` are well-formed. -/
theorem query_symmetry (B : Bounds) (objs : List Ref) (a b : Ref) (ha : a ∈ objs)
    (_hb : b ∈ objs) (_hne : a ≠ b) :
    (∀ s : Basic, b ∈ (Basic.intersects B (Basic.reset s objs) a none).live →
        a ∈ (Basic.intersects B (Basic.reset s objs) b none).live) ∧
      (∀ (g : Grid) (w h : ℚ),
        b ∈ (Grid.intersects B (Grid.reset B g objs w h) a none).live →
          a ∈ (Grid.intersects B (Grid.reset B g objs w h) b none).live) ∧
      (∀ s : SpatialHash,
        b ∈ (SpatialHash.intersects B (SpatialHash.reset B s objs) a none).live →
          a ∈ (SpatialHash.intersects B (SpatialHash.reset B s objs) b none).live) ∧
      (∀ (t : Quadtree) (w h : ℚ) (A : Alpha), (∀ o, o ∈ objs → (B o).WellFormed) →
        b ∈ (Quadtree.intersects B (Quadtree.reset B t objs w h A).1 a none).live →
          a ∈ (Quadtree.intersects B (Quadtree.reset B t objs w h A).1 b none).live) := by
  refine ⟨?_, ?_, ?_, ?_⟩
  · intro s h
    rw [Basic_mem_intersects_reset] at h ⊢
    exact ⟨ha, by rw [hit_comm]; exact h.2⟩
  · intro g w h hab
    exact Grid_symmetric_reset B g objs w h a b ha hab
  · intro s hab
    exact SpatialHash_symmetric_reset B s objs a b ha hab
  · intro t w h A hw hab
    have hp := Quadtree_reset_stored B t objs w h A
    have hf := Quadtree_reset_fits B t objs w h A
    have hws : ∀ s, s ∈ (Quadtree.reset B t objs w h A).1.stored → (B s).WellFormed :=
      fun s hs => hw s (hp.mem_iff.1 hs)
    rw [Quadtree_mem_intersects B _ _ none hf hws] at hab ⊢
    exact ⟨hp.mem_iff.2 ha, by rw [hit_comm]; exact hab.2⟩

/-- Witness of C7, amended, on the scene of the specification: `A` and `B`. -/
theorem query_symmetry_witness :
    (∀ s : Basic, 1 ∈ (Basic.intersects sceneABC (Basic.reset s [0, 1, 2]) 0 none).live →
        0 ∈ (Basic.intersects sceneABC (Basic.reset s [0, 1, 2]) 1 none).live) ∧
      (∀ (g : Grid) (w h : ℚ),
        1 ∈ (Grid.intersects sceneABC (Grid.reset sceneABC g [0, 1, 2] w h) 0 none).live →
          0 ∈ (Grid.intersects sceneABC (Grid.reset sceneABC g [0, 1, 2] w h) 1 none).live) ∧
      (∀ s : SpatialHash,
        1 ∈ (SpatialHash.intersects sceneABC
              (SpatialHash.reset sceneABC s [0, 1, 2]) 0 none).live →
          0 ∈ (SpatialHash.intersects sceneABC
                (SpatialHash.reset sceneABC s [0, 1, 2]) 1 none).live) ∧
      (∀ (t : Quadtree) (w h : ℚ) (A : Alpha),
        (∀ o, o ∈ [0, 1, 2] → (sceneABC o).WellFormed) →
        1 ∈ (Quadtree.intersects sceneABC
              (Quadtree.reset sceneABC t [0, 1, 2] w h A).1 0 none).live →
          0 ∈ (Quadtree.intersects sceneABC
                (Quadtree.reset sceneABC t [0, 1, 2] w h A).1 1 none).live) :=
  query_symmetry sceneABC [0, 1, 2] 0 1 (by decide) (by decide) (by decide)

theorem Grid_mem_cellLive_insert_remove (B : Bounds) (g : Grid) (o : Ref) (y x : Int)
    (r : Ref) :
    r ∈ Grid.cellLive (Grid.remove B (Grid.insert B g o) o).data y x ↔
      r ∈ Grid.cellLive g.data y x := by
  rw [Grid_cellLive_remove, Grid_range_insert, Grid_cellLive_insert]
  by_cases h : (((g.range (B o)).yMin ≤ y ∧ y ≤ (g.range (B o)).yMax) ∧
      ((g.range (B o)).xMin ≤ x ∧ x ≤ (g.range (B o)).xMax))
  · cases hc : Grid.cell g.data y x with
    | none =>
      have : Grid.cellLive g.data y x = [] := by simp [Grid.cellLive, hc]
      simp [h, this]
    | some c =>
      simp only [h, and_self, Option.isSome_some, if_true, true_and, and_true]
      exact mem_erase_append_self _ o r
  · have h2 : ¬ (((g.range (B o)).yMin ≤ y ∧ y ≤ (g.range (B o)).yMax) ∧
        ((g.range (B o)).xMin ≤ x ∧ x ≤ (g.range (B o)).xMax) ∧
        (Grid.cell g.data y x).isSome = true) := fun c => h ⟨c.1, c.2.1⟩
    simp only [h, h2, if_false]

theorem Grid_insert_remove_mem (B : Bounds) (g : Grid) (o q : Ref)
    (res : Option DynamicBuffer) (r : Ref) :
    r ∈ (Grid.intersects B (Grid.remove B (Grid.insert B g o) o) q res).live ↔
      r ∈ (Grid.intersects B g q res).live := by
  rw [Grid_mem_intersects, Grid_mem_intersects]
  simp only [Grid_range_remove, Grid_range_insert, Grid_mem_cellLive_insert_remove]

theorem SpatialHash_range_remove (B : Bounds) (s : SpatialHash) (o : Ref) (b : Box2) :
    (SpatialHash.remove B s o).range b = s.range b := rfl

theorem SpatialHash_mem_cellLive_insert_remove (B : Bounds) (s : SpatialHash) (o : Ref)
    (y x : Int) (r : Ref) :
    r ∈ SpatialHash.cellLive (SpatialHash.remove B (SpatialHash.insert B s o) o).data y x ↔
      r ∈ SpatialHash.cellLive s.data y x := by
  rw [SpatialHash_cellLive_remove, SpatialHash_range_insert, SpatialHash_cellLive_insert]
  by_cases h : (((s.range (B o)).yMin ≤ y ∧ y ≤ (s.range (B o)).yMax) ∧
      ((s.range (B o)).xMin ≤ x ∧ x ≤ (s.range (B o)).xMax))
  · simp only [h, and_self, if_true]
    exact mem_erase_append_self _ o r
  · simp only [h, if_false]

theorem SpatialHash_insert_remove_mem (B : Bounds) (s : SpatialHash) (o q : Ref)
    (res : Option DynamicBuffer) (r : Ref) :
    r ∈ (SpatialHash.intersects B (SpatialHash.remove B (SpatialHash.insert B s o) o)
          q res).live ↔
      r ∈ (SpatialHash.intersects B s q res).live := by
  rw [SpatialHash_mem_intersects, SpatialHash_mem_intersects]
  simp only [SpatialHash_range_remove, SpatialHash_range_insert,
    SpatialHash_mem_cellLive_insert_remove]

/-- C8. Membership round-trip: for each strategy, every state reached by reset, every
well-formed box `o` and every query `q` other than `o`, an object is in the result of
intersects(q) after insert(o) immediately followed by remove(o) exactly when it is in the
result of intersects(q) before the insert. -/
theorem insert_remove_round_trip (B : Bounds) (objs : List Ref) (o q : Ref)
    (_ho : (B o).WellFormed) (_hq : q ≠ o) (r : Ref) :
    (∀ b : Basic,
        r ∈ (Basic.intersects B
              (Basic.remove (Basic.insert (Basic.reset b objs) o).state o).state q none).live ↔
          r ∈ (Basic.intersects B (Basic.reset b objs) q none).live) ∧
      (∀ (g : Grid) (w h : ℚ),
        r ∈ (Grid.intersects B
              (Grid.remove B (Grid.insert B (Grid.reset B g objs w h) o) o) q none).live ↔
          r ∈ (Grid.intersects B (Grid.reset B g objs w h) q none).live) ∧
      (∀ (t : Quadtree) (w h : ℚ) (A : Alpha),
        r ∈ (Quadtree.intersects B
              (Quadtree.remove B
                (Quadtree.insert B (Quadtree.reset B t objs w h A).1 o
                  (Quadtree.reset B t objs w h A).2).state.1 o).state q none).live ↔
          r ∈ (Quadtree.intersects B (Quadtree.reset B t objs w h A).1 q none).live) ∧
      (∀ s : SpatialHash,
        r ∈ (SpatialHash.intersects B
              (SpatialHash.remove B (SpatialHash.insert B (SpatialHash.reset B s objs) o) o)
              q none).live ↔
          r ∈ (SpatialHash.intersects B (SpatialHash.reset B s objs) q none).live) := by
  refine ⟨?_, ?_, ?_, ?_⟩
  · intro b
    rfl
  · intro g w h
    exact Grid_insert_remove_mem B _ o q none r
  · intro t w h A
    exact Quadtree_insert_remove_mem B _ o _ q none r
  · intro s
    exact SpatialHash_insert_remove_mem B _ o q none r

/-- Witness of C8 on the scene of the specification: insert and remove `C` in the indexes
holding `A` and `B`, query `A`. -/
theorem insert_remove_round_trip_witness :
    (∀ b : Basic,
        1 ∈ (Basic.intersects sceneABC
              (Basic.remove (Basic.insert (Basic.reset b [0, 1]) 2).state 2).state 0
              none).live ↔
          1 ∈ (Basic.intersects sceneABC (Basic.reset b [0, 1]) 0 none).live) ∧
      (∀ (g : Grid) (w h : ℚ),
        1 ∈ (Grid.intersects sceneABC
              (Grid.remove sceneABC (Grid.insert sceneABC (Grid.reset sceneABC g [0, 1] w h) 2)
                2) 0 none).live ↔
          1 ∈ (Grid.intersects sceneABC (Grid.reset sceneABC g [0, 1] w h) 0 none).live) ∧
      (∀ (t : Quadtree) (w h : ℚ) (A : Alpha),
        1 ∈ (Quadtree.intersects sceneABC
              (Quadtree.remove sceneABC
                (Quadtree.insert sceneABC (Quadtree.reset sceneABC t [0, 1] w h A).1 2
                  (Quadtree.reset sceneABC t [0, 1] w h A).2).state.1 2).state 0 none).live ↔
          1 ∈ (Quadtree.intersects sceneABC
                (Quadtree.reset sceneABC t [0, 1] w h A).1 0 none).live) ∧
      (∀ s : SpatialHash,
        1 ∈ (SpatialHash.intersects sceneABC
              (SpatialHash.remove sceneABC
                (SpatialHash.insert sceneABC (SpatialHash.reset sceneABC s [0, 1]) 2) 2)
              0 none).live ↔
          1 ∈ (SpatialHash.intersects sceneABC (SpatialHash.reset sceneABC s [0, 1]) 0
                none).live) :=
  insert_remove_round_trip sceneABC [0, 1] 2 0 (by decide!) (by decide) 1

/-- C9, the code at the failing input: world 10 by 10, object 0 = `[[20,20],[30,30]]` does
not fit in the root box, so reset places it in the overflow buffer of the tree. After
clear() the overflow buffer still holds object 0, and the query 1 = `[[25,25],[35,35]]`
still returns it. -/
theorem quadtree_clear_keeps_overflow :
    (Quadtree.reset sceneOverflow (Quadtree.init sceneOverflow alpha0) [0] 10 10
        alpha0).1.data.live = [0] ∧
      (Quadtree.reset sceneOverflow (Quadtree.init sceneOverflow alpha0) [0] 10 10
        alpha0).1.clear.data.live = [0] ∧
      (Quadtree.intersects sceneOverflow
        (Quadtree.reset sceneOverflow (Quadtree.init sceneOverflow alpha0) [0] 10 10
          alpha0).1.clear 1 none).live = [0] := by
  decide!

/-- Counterexample to C10 as stated: on the scene of the specification Quadtree.remove(B)
removes the one occurrence of `B` and Quadtree.insert(B) finds a place for it, yet neither
call returns a boolean; the same holds for the empty bodies of Basic. -/
theorem public_insert_remove_return_counterexample :
    1 ∈ (Quadtree.reset sceneABC (Quadtree.init sceneABC alpha0) [0, 1, 2] 1000 1000
          alpha0).1.stored ∧
      1 ∉ (Quadtree.remove sceneABC
            (Quadtree.reset sceneABC (Quadtree.init sceneABC alpha0) [0, 1, 2] 1000 1000
              alpha0).1 1).state.stored ∧
      (Quadtree.remove sceneABC
          (Quadtree.reset sceneABC (Quadtree.init sceneABC alpha0) [0, 1, 2] 1000 1000
            alpha0).1 1).ret ≠ some true ∧
      (Quadtree.insert sceneABC
          (Quadtree.reset sceneABC (Quadtree.init sceneABC alpha0) [0, 2] 1000 1000
            alpha0).1 1 alpha0).ret ≠ some true ∧
      (Basic.remove (Basic.reset Basic.init [0, 1, 2]) 1).ret ≠ some true := by
  decide!

/-- C10, amended. The public insert and remove of Quadtree and of Basic return no value
(`undefined`). The booleans are returned by the node operations: Quadnode.remove(obj)
returns true exactly when one occurrence of `obj` was removed from the subtree (on false the
subtree is unchanged), and Quadnode.insert(obj) returns whether a place was found, which is
exactly whether the box of the node contains the object. -/
theorem insert_remove_return_values (B : Bounds) (obj : Ref) :
    (∀ (t : Quadtree) (A : Alpha), (Quadtree.insert B t obj A).ret = none) ∧
      (∀ t : Quadtree, (Quadtree.remove B t obj).ret = none) ∧
      (∀ b : Basic, (Basic.insert b obj).ret = none ∧ (Basic.remove b obj).ret = none) ∧
      (∀ (c : Vector2) (n : Quadnode),
        ((Quadnode.remove B obj c n).1 = true →
          n.stored.Perm (obj :: (Quadnode.remove B obj c n).2.stored)) ∧
        ((Quadnode.remove B obj c n).1 = false → (Quadnode.remove B obj c n).2 = n)) ∧
      (∀ (c : Vector2) (n : Quadnode) (A : Alpha),
        (Quadnode.insert B obj c n A).1 = n.box.containsBox (B obj) ∧
        ((Quadnode.insert B obj c n A).1 = true →
          (Quadnode.insert B obj c n A).2.1.stored.Perm (obj :: n.stored)) ∧
        ((Quadnode.insert B obj c n A).1 = false → (Quadnode.insert B obj c n A).2.1 = n)) := by
  refine ⟨?_, ?_, ?_, ?_, ?_⟩
  · intro t A
    unfold Quadtree.insert
    simp only []
    split <;> rfl
  · intro t
    unfold Quadtree.remove
    simp only []
    split <;> rfl
  · intro b
    exact ⟨rfl, rfl⟩
  · intro c n
    exact Quadnode_remove_spec B obj c n
  · intro c n A
    refine ⟨Quadnode_insert_ret B obj c n A, ?_, ?_⟩
    · intro h
      rw [Quadnode_insert_ret] at h
      exact Quadnode_insert_stored B obj c n A h
    · intro h
      rw [Quadnode_insert_ret] at h
      rw [Quadnode_insert_of_not B obj c n A h]

theorem DynamicBuffer_count_remove (b : DynamicBuffer) (o : Ref) :
    (b.remove o).1.count = if (b.remove o).2 = true then b.count - 1 else b.count := by
  unfold DynamicBuffer.remove
  simp only []

theorem DynamicBuffer_count_pos_of_mem (b : DynamicBuffer) (o : Ref) (h : o ∈ b.live) :
    0 < b.count := by
  unfold DynamicBuffer.live at h
  rw [mem_filterMap_range] at h
  obtain ⟨i, hi, _⟩ := h
  omega

/-- C20. DynamicBuffer.remove: for every buffer with live contents `L` and every object `o`,
if `o` occurs in `L` then remove(o) returns true, the new live contents are `L` with the first
occurrence of `o` erased (`L = l1 ++ o :: l2` with `o` not in `l1` becomes `l1 ++ l2`, the
other elements keep their order) and count decreases by exactly 1; if `o` does not occur in
`L` then remove(o) returns false and count and live contents are unchanged. -/
theorem dynamicbuffer_remove_spec (b : DynamicBuffer) (o : Ref) :
    (o ∈ b.live →
        (b.remove o).2 = true ∧ (b.remove o).1.live = b.live.erase o ∧
        (∃ l1 l2, o ∉ l1 ∧ b.live = l1 ++ o :: l2 ∧ (b.remove o).1.live = l1 ++ l2) ∧
        (b.remove o).1.count + 1 = b.count) ∧
      (o ∉ b.live →
        (b.remove o).2 = false ∧ (b.remove o).1.count = b.count ∧
        (b.remove o).1.live = b.live) := by
  constructor
  · intro h
    have hr := (DynamicBuffer_remove_ret b o).2 h
    have hc := DynamicBuffer_count_remove b o
    have hp := DynamicBuffer_count_pos_of_mem b o h
    rw [hr] at hc
    simp only [if_true] at hc
    refine ⟨hr, DynamicBuffer_live_remove b o, ?_, by omega⟩
    obtain ⟨l1, l2, h1, h2, h3⟩ := List.exists_erase_eq h
    exact ⟨l1, l2, h1, h2, by rw [DynamicBuffer_live_remove, h3]⟩
  · intro h
    have hr : (b.remove o).2 = false := by
      cases hb : (b.remove o).2
      · rfl
      · exact absurd ((DynamicBuffer_remove_ret b o).1 hb) h
    have he := DynamicBuffer_remove_eq_of_false b o hr
    exact ⟨hr, by rw [he], by rw [he]⟩

/-- Witness of C20: the buffer holding 5, 7, 5; remove(5) erases the first 5, remove(9)
changes nothing. -/
theorem dynamicbuffer_remove_spec_witness :
    ((bufferOf [5, 7, 5]).remove 5).2 = true ∧
      ((bufferOf [5, 7, 5]).remove 5).1.live = [7, 5] ∧
      ((bufferOf [5, 7, 5]).remove 5).1.count + 1 = (bufferOf [5, 7, 5]).count ∧
      ((bufferOf [5, 7, 5]).remove 9).2 = false ∧
      ((bufferOf [5, 7, 5]).remove 9).1.live = (bufferOf [5, 7, 5]).live :=
  have h1 := (dynamicbuffer_remove_spec (bufferOf [5, 7, 5]) 5).1 (by decide!)
  have h2 := (dynamicbuffer_remove_spec (bufferOf [5, 7, 5]) 9).2 (by decide!)
  ⟨h1.1, by decide!, h1.2.2.2, h2.1, h2.2.2⟩

/-- C11, the code at the failing input: world 700 by 600 (cells 100 by 100), the grid reset
to no objects, then insert(o) for the well-formed box o = `[[800,0],[810,10]]` to the right of
the world. The bounded column range is `xMin = 8`, `xMax = 6`, the insert loop runs over no
cell, and afterwards no cell of the grid holds `o`. -/
theorem grid_insert_out_of_world_in_no_cell :
    (sceneOutside 0).WellFormed ∧
      (Grid.reset sceneOutside (Grid.init sceneOutside) [] 700 600).range (sceneOutside 0) =
        ⟨8, 0, 6, 0⟩ ∧
      ∀ y x : Int, 0 ∉ Grid.cellLive
        (Grid.insert sceneOutside
          (Grid.reset sceneOutside (Grid.init sceneOutside) [] 700 600) 0).data y x := by
  refine ⟨by decide!, by decide!, ?_⟩
  intro y x
  have hr : (Grid.reset sceneOutside (Grid.init sceneOutside) [] 700 600).range
      (sceneOutside 0) = ⟨8, 0, 6, 0⟩ := by decide!
  rw [Grid_cellLive_insert, hr]
  have hc : ¬ (((0 : Int) ≤ y ∧ y ≤ 0) ∧ ((8 : Int) ≤ x ∧ x ≤ 6) ∧
      (Grid.cell (Grid.reset sceneOutside (Grid.init sceneOutside) [] 700 600).data
        y x).isSome = true) := by
    rintro ⟨_, ⟨h1, h2⟩, _⟩
    omega
  simp only [hc, if_false]
  rw [Grid_mem_cellLive_reset]
  rintro ⟨h, _⟩
  cases h

/-- C12. Quadtree overflow: for every quadtree state and every box `o` that is not fully
contained in the root box, Quadtree.insert(o) appends `o` to the overflow buffer of the tree
and leaves the whole tree of nodes unchanged; afterwards intersects(q) returns `o` for every
query `q` other than `o` that passes the overlap test with `o`. -/
theorem quadtree_overflow_insert (B : Bounds) (t : Quadtree) (o : Ref) (A : Alpha)
    (h : t.root.box.containsBox (B o) = false) :
    (Quadtree.insert B t o A).state.1.data.live = t.data.live ++ [o] ∧
      (Quadtree.insert B t o A).state.1.root = t.root ∧
      ∀ (q : Ref) (res : Option DynamicBuffer), q ≠ o → overlaps B q o = true →
        o ∈ (Quadtree.intersects B (Quadtree.insert B t o A).state.1 q res).live := by
  have e : (Quadtree.insert B t o A).state.1 = { t with data := t.data.push o } := by
    unfold Quadtree.insert
    rw [Quadnode_insert_of_not B o _ _ A h]
    simp
  rw [e]
  refine ⟨by simp, rfl, ?_⟩
  intro q res hq ho
  rw [Quadtree_live_intersects]
  apply List.mem_append_left
  rw [List.mem_filter]
  exact ⟨by simp, (hit_iff B q o).2 ⟨hq, ho⟩⟩

/-- Witness of C12: world 10 by 10, object 0 = `[[20,20],[30,30]]` lies outside the root box,
query 1 = `[[25,25],[35,35]]` overlaps it. -/
theorem quadtree_overflow_insert_witness :
    (Quadtree.insert sceneOverflow
        (Quadtree.reset sceneOverflow (Quadtree.init sceneOverflow alpha0) [] 10 10 alpha0).1
        0 alpha0).state.1.data.live =
      (Quadtree.reset sceneOverflow (Quadtree.init sceneOverflow alpha0) [] 10 10
        alpha0).1.data.live ++ [0] ∧
    (Quadtree.insert sceneOverflow
        (Quadtree.reset sceneOverflow (Quadtree.init sceneOverflow alpha0) [] 10 10 alpha0).1
        0 alpha0).state.1.root =
      (Quadtree.reset sceneOverflow (Quadtree.init sceneOverflow alpha0) [] 10 10
        alpha0).1.root ∧
    ∀ (q : Ref) (res : Option DynamicBuffer), q ≠ 0 → overlaps sceneOverflow q 0 = true →
      0 ∈ (Quadtree.intersects sceneOverflow
        (Quadtree.insert sceneOverflow
          (Quadtree.reset sceneOverflow (Quadtree.init sceneOverflow alpha0) [] 10 10
            alpha0).1 0 alpha0).state.1 q res).live :=
  quadtree_overflow_insert sceneOverflow
    (Quadtree.reset sceneOverflow (Quadtree.init sceneOverflow alpha0) [] 10 10 alpha0).1
    0 alpha0 (by decide!)

theorem toInt32_eq_roundTowardZero (x : ℚ) (h : InInt32 x) :
    toInt32 x = roundTowardZero x := by
  rw [toInt32_eq x h, trunc_eq]
  rfl

theorem toInt32_eq_floor (x : ℚ) (h0 : 0 ≤ x) (h1 : x < 2147483648) : toInt32 x = ⌊x⌋ := by
  have hi : InInt32 x := ⟨by linarith, h1⟩
  rw [toInt32_eq_roundTowardZero x hi]
  unfold roundTowardZero
  simp [h0]

/-- Counterexample to C14 as stated: the hash built by init (cell size 110), object 0 =
`[[-50,-50],[-10,-10]]`. The floor of `-50/110` and of `-10/110` is `-1`, yet
SpatialHash.insert stores the object in the cell of row 0, column 0 and not in the cell of
row -1, column -1. -/
theorem spatialhash_floor_counterexample :
    (sceneNegative 0).WellFormed ∧
      ⌊(sceneNegative 0).min.x / (SpatialHash.init sceneNegative).sizeX⌋ = -1 ∧
      ⌊(sceneNegative 0).max.x / (SpatialHash.init sceneNegative).sizeX⌋ = -1 ∧
      ⌊(sceneNegative 0).min.y / (SpatialHash.init sceneNegative).sizeY⌋ = -1 ∧
      ⌊(sceneNegative 0).max.y / (SpatialHash.init sceneNegative).sizeY⌋ = -1 ∧
      SpatialHash.cellLive
        (SpatialHash.insert sceneNegative (SpatialHash.init sceneNegative) 0).data (-1) (-1)
        = [] ∧
      SpatialHash.cellLive
        (SpatialHash.insert sceneNegative (SpatialHash.init sceneNegative) 0).data 0 0
        = [0] := by
  decide!

/-- C14, amended. SpatialHash cell keys round toward zero: for every hash state and every
well-formed box `o` with coordinates of any sign whose quotients `coordinate / size` lie in
the signed 32-bit range, SpatialHash.insert(o) appends `o` to exactly the cells whose column
index `c` satisfies `rtz(min.x/sizeX) <= c <= rtz(max.x/sizeX)` and whose row index `r`
satisfies `rtz(min.y/sizeY) <= r <= rtz(max.y/sizeY)`, and changes no other cell, where `rtz`
rounds toward zero; for a quotient that is not negative `rtz` is the mathematical floor. -/
theorem spatialhash_insert_cells (B : Bounds) (s : SpatialHash) (o : Ref)
    (_hw : (B o).WellFormed) (hr : (B o).InInt32 s.sizeX s.sizeY) :
    (∀ r c : Int,
        SpatialHash.cellLive (SpatialHash.insert B s o).data r c =
          if (roundTowardZero ((B o).min.y / s.sizeY) ≤ r ∧
                r ≤ roundTowardZero ((B o).max.y / s.sizeY)) ∧
              (roundTowardZero ((B o).min.x / s.sizeX) ≤ c ∧
                c ≤ roundTowardZero ((B o).max.x / s.sizeX)) then
            SpatialHash.cellLive s.data r c ++ [o]
          else SpatialHash.cellLive s.data r c) ∧
      ∀ z : ℚ, 0 ≤ z → roundTowardZero z = ⌊z⌋ := by
  obtain ⟨h1, h2, h3, h4⟩ := hr
  constructor
  · intro r c
    rw [SpatialHash_cellLive_insert]
    unfold SpatialHash.range
    simp only [toInt32_eq_roundTowardZero _ h1, toInt32_eq_roundTowardZero _ h2,
      toInt32_eq_roundTowardZero _ h3, toInt32_eq_roundTowardZero _ h4]
  · intro z hz
    unfold roundTowardZero
    simp [hz]

/-- Witness of C14, amended: the object at negative coordinates in the hash built by init. -/
theorem spatialhash_insert_cells_witness :
    (∀ r c : Int,
        SpatialHash.cellLive
            (SpatialHash.insert sceneNegative (SpatialHash.init sceneNegative) 0).data r c =
          if (roundTowardZero ((sceneNegative 0).min.y / (SpatialHash.init sceneNegative).sizeY)
                  ≤ r ∧
                r ≤ roundTowardZero
                  ((sceneNegative 0).max.y / (SpatialHash.init sceneNegative).sizeY)) ∧
              (roundTowardZero ((sceneNegative 0).min.x / (SpatialHash.init sceneNegative).sizeX)
                  ≤ c ∧
                c ≤ roundTowardZero
                  ((sceneNegative 0).max.x / (SpatialHash.init sceneNegative).sizeX)) then
            SpatialHash.cellLive (SpatialHash.init sceneNegative).data r c ++ [0]
          else SpatialHash.cellLive (SpatialHash.init sceneNegative).data r c) ∧
      ∀ z : ℚ, 0 ≤ z → roundTowardZero z = ⌊z⌋ :=
  spatialhash_insert_cells sceneNegative (SpatialHash.init sceneNegative) 0 (by decide!)
    (by decide!)

theorem Grid_reset_nil (B : Bounds) (g : Grid) (w h : ℚ) :
    Grid.reset B g [] w h = g.rebuild w h := rfl

theorem Grid_isSome_cell_rebuild (g : Grid) (w h : ℚ) (y x : Int) :
    (Grid.cell (g.rebuild w h).data y x).isSome = true ↔
      (0 ≤ y ∧ y < (g.divisionsY : Int)) ∧ (0 ≤ x ∧ x < (g.divisionsX : Int)) := by
  have hd : (g.rebuild w h).data = (List.range g.divisionsY).map (fun (y : Nat) =>
        (List.range g.divisionsX).map (fun (x : Nat) =>
          Grid.newCell (fl (w / (g.divisionsX : ℚ))) (fl (h / (g.divisionsY : ℚ))) y x)) := rfl
  rw [hd, Grid_cell_fresh]
  split <;> simp_all

/-! ## Rounding to doubles -/

theorem pow2_eq (e : Int) : pow2 e = (2 : ℚ) ^ e := by
  unfold pow2
  split
  · next h =>
    obtain ⟨n, rfl⟩ := Int.eq_ofNat_of_zero_le h
    simp [zpow_natCast]
  · next h =>
    obtain ⟨n, hn⟩ := Int.eq_ofNat_of_zero_le (by omega : 0 ≤ -e)
    have he : e = -(n : Int) := by omega
    subst he
    simp [zpow_neg]

theorem pow2_pos (e : Int) : 0 < pow2 e := by
  rw [pow2_eq]
  exact zpow_pos (by norm_num) e

theorem log2Floor_spec (fuel : Nat) :
    ∀ n, 0 < n → n ≤ fuel → 2 ^ log2Floor fuel n ≤ n ∧ n < 2 ^ (log2Floor fuel n + 1) := by
  induction fuel with
  | zero =>
    intro n h1 h2
    omega
  | succ k ih =>
    intro n h1 h2
    unfold log2Floor
    split
    · next h =>
      obtain ⟨a, b⟩ := ih (n / 2) (by omega) (by omega)
      generalize log2Floor k (n / 2) = r at a b ⊢
      have e1 : 2 ^ (r + 1) = 2 ^ r * 2 := pow_succ 2 r
      have e2 : 2 ^ (r + 1 + 1) = 2 ^ r * 2 * 2 := by rw [pow_succ, pow_succ]
      rw [e1] at b
      rw [e1, e2]
      generalize 2 ^ r = p at a b ⊢
      constructor <;> omega
    · next h =>
      simp only [pow_zero, zero_add, pow_one]
      omega

theorem binExponent_spec (q : ℚ) (hq : 0 < q) :
    (2 : ℚ) ^ binExponent q ≤ q ∧ q < (2 : ℚ) ^ (binExponent q + 1) := by
  have hnum : 0 < q.num := Rat.num_pos.mpr hq
  have ha0 : 0 < q.num.natAbs := Int.natAbs_pos.mpr (ne_of_gt hnum)
  have hb0 : 0 < q.den := q.den_pos
  obtain ⟨a1, a2⟩ := log2Floor_spec q.num.natAbs q.num.natAbs ha0 le_rfl
  obtain ⟨b1, b2⟩ := log2Floor_spec q.den q.den hb0 le_rfl
  have hqe : q = (q.num.natAbs : ℚ) / (q.den : ℚ) := by
    have h1 : ((q.num.natAbs : Int) : ℚ) = (q.num : ℚ) := by
      rw [Int.natAbs_of_nonneg (le_of_lt hnum)]
    have h2 : ((q.num.natAbs : Int) : ℚ) = (q.num.natAbs : ℚ) := Int.cast_natCast _
    rw [← h2, h1]
    exact (Rat.num_div_den q).symm
  unfold binExponent
  simp only [pow2_eq, abs_of_pos hq]
  generalize log2Floor q.num.natAbs q.num.natAbs = la at a1 a2 ⊢
  generalize log2Floor q.den q.den = lb at b1 b2 ⊢
  have A1 : (2 : ℚ) ^ la ≤ (q.num.natAbs : ℚ) := by exact_mod_cast a1
  have A2 : (q.num.natAbs : ℚ) < (2 : ℚ) ^ (la + 1) := by exact_mod_cast a2
  have B1 : (2 : ℚ) ^ lb ≤ (q.den : ℚ) := by exact_mod_cast b1
  have B2 : (q.den : ℚ) < (2 : ℚ) ^ (lb + 1) := by exact_mod_cast b2
  have hbq : (0 : ℚ) < (q.den : ℚ) := by exact_mod_cast hb0
  have p1 : (0 : ℚ) < (2 : ℚ) ^ lb := pow_pos (by norm_num) lb
  have p2 : (0 : ℚ) < (2 : ℚ) ^ (lb + 1) := pow_pos (by norm_num) _
  have two : (2 : ℚ) ≠ 0 := by norm_num
  have up : q < (2 : ℚ) ^ ((la : Int) - (lb : Int) + 1) := by
    have e : (2 : ℚ) ^ ((la : Int) - (lb : Int) + 1) = (2 : ℚ) ^ (la + 1) / (2 : ℚ) ^ lb := by
      have : ((la : Int) - (lb : Int) + 1) = ((la + 1 : Nat) : Int) - ((lb : Nat) : Int) := by
        push_cast; ring
      rw [this, zpow_sub₀ two, zpow_natCast, zpow_natCast]
    rw [e, hqe, div_lt_div_iff₀ hbq p1]
    calc (q.num.natAbs : ℚ) * 2 ^ lb ≤ (q.num.natAbs : ℚ) * (q.den : ℚ) :=
          mul_le_mul_of_nonneg_left B1 (by positivity)
      _ < 2 ^ (la + 1) * (q.den : ℚ) := mul_lt_mul_of_pos_right A2 hbq
  have lo : (2 : ℚ) ^ ((la : Int) - (lb : Int) - 1) < q := by
    have e : (2 : ℚ) ^ ((la : Int) - (lb : Int) - 1) = (2 : ℚ) ^ la / (2 : ℚ) ^ (lb + 1) := by
      have : ((la : Int) - (lb : Int) - 1) = ((la : Nat) : Int) - ((lb + 1 : Nat) : Int) := by
        push_cast; ring
      rw [this, zpow_sub₀ two, zpow_natCast, zpow_natCast]
    rw [e, hqe, div_lt_div_iff₀ p2 hbq]
    calc (2 : ℚ) ^ la * (q.den : ℚ) < 2 ^ la * 2 ^ (lb + 1) :=
          mul_lt_mul_of_pos_left B2 (pow_pos (by norm_num) la)
      _ ≤ (q.num.natAbs : ℚ) * 2 ^ (lb + 1) := mul_le_mul_of_nonneg_right A1 (le_of_lt p2)
  split
  · next h => exact ⟨h, up⟩
  · next h =>
    push_neg at h
    refine ⟨le_of_lt lo, ?_⟩
    have : ((la : Int) - (lb : Int) - 1 + 1) = (la : Int) - (lb : Int) := by ring
    rw [this]
    exact h

theorem roundHalfEven_mono (x y : ℚ) (h : x ≤ y) : roundHalfEven x ≤ roundHalfEven y := by
  have hm := Int.floor_mono h
  have ux : roundHalfEven x ≤ ⌊x⌋ + 1 := by
    unfold roundHalfEven
    split_ifs <;> omega
  have ly : ⌊y⌋ ≤ roundHalfEven y := by
    unfold roundHalfEven
    split_ifs <;> omega
  rcases lt_or_eq_of_le hm with hlt | heq
  · omega
  · unfold roundHalfEven
    rw [heq]
    split_ifs <;> first | omega | (exfalso; linarith)

theorem roundHalfEven_intCast (n : Int) : roundHalfEven (n : ℚ) = n := by
  unfold roundHalfEven
  simp

theorem fl_nonneg (q : ℚ) (h : 0 ≤ q) : 0 ≤ fl q := by
  unfold fl
  split
  · exact le_rfl
  · simp only []
    have hp := pow2_pos (max (binExponent q - 52) (-1074))
    have h0 : (0 : ℚ) ≤ q / pow2 (max (binExponent q - 52) (-1074)) := div_nonneg h (le_of_lt hp)
    have := roundHalfEven_mono _ _ h0
    rw [show roundHalfEven (0 : ℚ) = 0 from roundHalfEven_intCast 0] at this
    exact mul_nonneg (by exact_mod_cast this) (le_of_lt hp)

theorem fl_zero : fl 0 = 0 := by
  unfold fl
  simp

theorem fl_mono (x y : ℚ) (hx : 0 ≤ x) (h : x ≤ y) : fl x ≤ fl y := by
  rcases eq_or_lt_of_le hx with h0 | hpos
  · subst h0
    rw [fl_zero]
    exact fl_nonneg y h
  · have hy : 0 < y := lt_of_lt_of_le hpos h
    obtain ⟨x1, x2⟩ := binExponent_spec x hpos
    obtain ⟨y1, y2⟩ := binExponent_spec y hy
    have one2 : (1 : ℚ) < 2 := by norm_num
    have two : (2 : ℚ) ≠ 0 := by norm_num
    have hb : binExponent x ≤ binExponent y := by
      have h1 : (2 : ℚ) ^ binExponent x < 2 ^ (binExponent y + 1) :=
        lt_of_le_of_lt (le_trans x1 h) y2
      have h2 := (zpow_lt_zpow_iff_right₀ one2).mp h1
      omega
    unfold fl
    rw [if_neg (ne_of_gt hpos), if_neg (ne_of_gt hy)]
    simp only [pow2_eq]
    generalize binExponent x = bx at x1 x2 hb ⊢
    generalize binExponent y = bY at y1 y2 hb ⊢
    have hexy : max (bx - 52) (-1074) ≤ max (bY - 52) (-1074) :=
      max_le_max (by omega) le_rfl
    have hxl : bx - 52 ≤ max (bx - 52) (-1074) := le_max_left _ _
    have hxr : (-1074 : Int) ≤ max (bx - 52) (-1074) := le_max_right _ _
    have hyc : max (bY - 52) (-1074) = bY - 52 ∨ max (bY - 52) (-1074) = -1074 := by
      rcases le_total (bY - 52) (-1074) with hc | hc
      · exact Or.inr (max_eq_right hc)
      · exact Or.inl (max_eq_left hc)
    generalize max (bx - 52) (-1074) = ex at hexy hxl hxr ⊢
    generalize max (bY - 52) (-1074) = ey at hexy hyc ⊢
    have px : (0 : ℚ) < (2 : ℚ) ^ ex := zpow_pos (by norm_num) ex
    have py : (0 : ℚ) < (2 : ℚ) ^ ey := zpow_pos (by norm_num) ey
    rcases eq_or_lt_of_le hexy with heq | hlt
    · subst heq
      have hm := roundHalfEven_mono (x / 2 ^ ex) (y / 2 ^ ex)
        (div_le_div_of_nonneg_right h (le_of_lt px))
      exact mul_le_mul_of_nonneg_right (by exact_mod_cast hm) (le_of_lt px)
    · have hey : ey = bY - 52 := by
        rcases hyc with hc | hc
        · exact hc
        · omega
      have ux : x / 2 ^ ex ≤ ((9007199254740992 : Int) : ℚ) := by
        rw [div_le_iff₀ px]
        have e1 : (2 : ℚ) ^ (bx + 1) ≤ 2 ^ (ex + 53) :=
          zpow_le_zpow_right₀ (le_of_lt one2) (by omega)
        have e2 : (2 : ℚ) ^ (ex + 53) = 9007199254740992 * 2 ^ ex := by
          rw [zpow_add₀ two, mul_comm]
          norm_num
        push_cast
        linarith
      have ly : ((4503599627370496 : Int) : ℚ) ≤ y / 2 ^ ey := by
        rw [le_div_iff₀ py]
        have e2 : (2 : ℚ) ^ bY = 4503599627370496 * 2 ^ ey := by
          have : bY = ey + 52 := by omega
          rw [this, zpow_add₀ two, mul_comm]
          norm_num
        push_cast
        linarith
      have rx := roundHalfEven_mono _ _ ux
      have ry := roundHalfEven_mono _ _ ly
      rw [roundHalfEven_intCast] at rx ry
      have rxq : ((roundHalfEven (x / 2 ^ ex) : Int) : ℚ) ≤ 9007199254740992 := by
        exact_mod_cast rx
      have ryq : (4503599627370496 : ℚ) ≤ ((roundHalfEven (y / 2 ^ ey) : Int) : ℚ) := by
        exact_mod_cast ry
      have e3 : (9007199254740992 : ℚ) * 2 ^ ex ≤ 4503599627370496 * 2 ^ ey := by
        have e4 : (2 : ℚ) ^ (ex + 1) ≤ 2 ^ ey := zpow_le_zpow_right₀ (le_of_lt one2) (by omega)
        have e5 : (2 : ℚ) ^ (ex + 1) = 2 ^ ex * 2 := by
          rw [zpow_add₀ two]
          norm_num
        rw [e5] at e4
        linarith
      calc ((roundHalfEven (x / 2 ^ ex) : Int) : ℚ) * 2 ^ ex
          ≤ 9007199254740992 * 2 ^ ex := mul_le_mul_of_nonneg_right rxq (le_of_lt px)
        _ ≤ 4503599627370496 * 2 ^ ey := e3
        _ ≤ ((roundHalfEven (y / 2 ^ ey) : Int) : ℚ) * 2 ^ ey :=
            mul_le_mul_of_nonneg_right ryq (le_of_lt py)

/-- `~~(a / b)` for a quotient that is not negative and stays below `2^31`: the floor of the
rounded quotient. -/
theorem truncDiv_eq_floor (a s : ℚ) (ha : 0 ≤ a) (hs : 0 ≤ s)
    (hr : fl (a / s) < 2147483648) : truncDiv a s = ⌊fl (a / s)⌋ := by
  have h0 : 0 ≤ fl (a / s) := fl_nonneg _ (div_nonneg ha hs)
  unfold truncDiv
  split
  · next hc =>
    rcases hc with hc | hc
    · subst hc
      simp [fl_zero]
    · exfalso
      rw [abs_of_nonneg h0] at hc
      have : (2147483648 : ℚ) ≤ pow2 1024 := by
        rw [pow2_eq]
        have : (2 : ℚ) ^ (31 : Int) ≤ 2 ^ (1024 : Int) :=
          zpow_le_zpow_right₀ (by norm_num) (by norm_num)
        have e : (2 : ℚ) ^ (31 : Int) = 2147483648 := by norm_num
        linarith
      linarith
  · exact toInt32_eq_floor _ h0 hr

theorem truncDiv_mono (a b s : ℚ) (ha : 0 ≤ a) (hab : a ≤ b) (hs : 0 ≤ s)
    (hr : fl (b / s) < 2147483648) :
    0 ≤ truncDiv a s ∧ truncDiv a s ≤ truncDiv b s ∧ fl (a / s) < 2147483648 := by
  have hm : fl (a / s) ≤ fl (b / s) :=
    fl_mono _ _ (div_nonneg ha hs) (div_le_div_of_nonneg_right hab hs)
  have hra : fl (a / s) < 2147483648 := lt_of_le_of_lt hm hr
  rw [truncDiv_eq_floor a s ha hs hra, truncDiv_eq_floor b s (le_trans ha hab) hs hr]
  exact ⟨Int.floor_nonneg.2 (fl_nonneg _ (div_nonneg ha hs)), Int.floor_mono hm, hra⟩

/-! ## Grid cell coverage -/

/-- The cell range of a well-formed box that starts at coordinates that are not negative and
whose rounded quotients of the maximum corner lie below the division counts: no wrap and no
bounding takes place, the four loop bounds are the floors of the rounded quotients. -/
theorem Grid_range_rounded (g : Grid) (b : Box2)
    (hX : g.divisionsX ≤ 2147483648) (hY : g.divisionsY ≤ 2147483648)
    (hsx : 0 ≤ g.sizeX) (hsy : 0 ≤ g.sizeY)
    (hwf : b.WellFormed) (hmin : 0 ≤ b.min.x ∧ 0 ≤ b.min.y)
    (hmax : ⌊fl (b.max.x / g.sizeX)⌋ < (g.divisionsX : Int) ∧
      ⌊fl (b.max.y / g.sizeY)⌋ < (g.divisionsY : Int)) :
    g.range b =
        ⟨⌊fl (b.min.x / g.sizeX)⌋, ⌊fl (b.min.y / g.sizeY)⌋,
          ⌊fl (b.max.x / g.sizeX)⌋, ⌊fl (b.max.y / g.sizeY)⌋⟩ ∧
      (0 ≤ ⌊fl (b.min.x / g.sizeX)⌋ ∧ ⌊fl (b.min.x / g.sizeX)⌋ ≤ ⌊fl (b.max.x / g.sizeX)⌋) ∧
      (0 ≤ ⌊fl (b.min.y / g.sizeY)⌋ ∧ ⌊fl (b.min.y / g.sizeY)⌋ ≤ ⌊fl (b.max.y / g.sizeY)⌋) := by
  have qX : (g.divisionsX : ℚ) ≤ 2147483648 := by exact_mod_cast hX
  have qY : (g.divisionsY : ℚ) ≤ 2147483648 := by exact_mod_cast hY
  have rx : fl (b.max.x / g.sizeX) < 2147483648 := by
    have := Int.floor_lt.mp hmax.1
    have e : (((g.divisionsX : Int)) : ℚ) = (g.divisionsX : ℚ) := Int.cast_natCast _
    rw [e] at this
    linarith
  have ry : fl (b.max.y / g.sizeY) < 2147483648 := by
    have := Int.floor_lt.mp hmax.2
    have e : (((g.divisionsY : Int)) : ℚ) = (g.divisionsY : ℚ) := Int.cast_natCast _
    rw [e] at this
    linarith
  obtain ⟨a1, a2, a3⟩ := truncDiv_mono b.min.x b.max.x g.sizeX hmin.1 hwf.1 hsx rx
  obtain ⟨c1, c2, c3⟩ := truncDiv_mono b.min.y b.max.y g.sizeY hmin.2 hwf.2 hsy ry
  have ex1 := truncDiv_eq_floor b.min.x g.sizeX hmin.1 hsx a3
  have ex2 := truncDiv_eq_floor b.max.x g.sizeX (le_trans hmin.1 hwf.1) hsx rx
  have ey1 := truncDiv_eq_floor b.min.y g.sizeY hmin.2 hsy c3
  have ey2 := truncDiv_eq_floor b.max.y g.sizeY (le_trans hmin.2 hwf.2) hsy ry
  rw [ex1] at a1 a2
  rw [ex2] at a2
  rw [ey1] at c1 c2
  rw [ey2] at c2
  refine ⟨?_, ⟨a1, a2⟩, ⟨c1, c2⟩⟩
  unfold Grid.range
  simp only [ex1, ex2, ey1, ey2]
  have e1 : ¬ ⌊fl (b.min.x / g.sizeX)⌋ < 0 := by omega
  have e2 : ¬ ⌊fl (b.min.y / g.sizeY)⌋ < 0 := by omega
  have e3 : ¬ ⌊fl (b.max.x / g.sizeX)⌋ ≥ (g.divisionsX : Int) := by omega
  have e4 : ¬ ⌊fl (b.max.y / g.sizeY)⌋ ≥ (g.divisionsY : Int) := by omega
  simp only [e1, e2, e3, e4, if_false]

theorem Grid_sizes_rebuild (g : Grid) (w h : ℚ) (hw : 0 ≤ w) (hh : 0 ≤ h) :
    0 ≤ (g.rebuild w h).sizeX ∧ 0 ≤ (g.rebuild w h).sizeY :=
  ⟨fl_nonneg _ (div_nonneg hw (Nat.cast_nonneg _)),
    fl_nonneg _ (div_nonneg hh (Nat.cast_nonneg _))⟩

/-- Counterexample to C13 as stated: world 1000 by 1000 (7 columns, 6 rows), the well-formed
box o = `[[10,y],[20,y]]` with `y = 499.99999999999994` (the double below 500) lies inside the
world, and `floor(y / sizeY)` is 2, for the exact size `1000/6` as for the double the code
keeps in `sizeY`; the claim puts o in the cell of column 0, row 2. The code divides in doubles:
`y / sizeY` rounds to 3, and after insert(o) the cell of row 2 does not hold o, the cell of
row 3 does. -/
theorem grid_floor_counterexample :
    (sceneRounding 0).WellFormed ∧
      (0 ≤ (sceneRounding 0).min.x ∧ 0 ≤ (sceneRounding 0).min.y) ∧
      ((sceneRounding 0).max.x < 1000 ∧ (sceneRounding 0).max.y < 1000) ∧
      (⌊(sceneRounding 0).min.x / (1000 / 7)⌋ = 0 ∧ ⌊(sceneRounding 0).max.x / (1000 / 7)⌋ = 0 ∧
        ⌊(sceneRounding 0).min.y / (1000 / 6)⌋ = 2 ∧
        ⌊(sceneRounding 0).max.y / (1000 / 6)⌋ = 2) ∧
      (⌊(sceneRounding 0).min.x /
            (Grid.reset sceneRounding (Grid.init sceneRounding) [] 1000 1000).sizeX⌋ = 0 ∧
        ⌊(sceneRounding 0).max.x /
            (Grid.reset sceneRounding (Grid.init sceneRounding) [] 1000 1000).sizeX⌋ = 0 ∧
        ⌊(sceneRounding 0).min.y /
            (Grid.reset sceneRounding (Grid.init sceneRounding) [] 1000 1000).sizeY⌋ = 2 ∧
        ⌊(sceneRounding 0).max.y /
            (Grid.reset sceneRounding (Grid.init sceneRounding) [] 1000 1000).sizeY⌋ = 2) ∧
      0 ∉ Grid.cellLive
          (Grid.insert sceneRounding
            (Grid.reset sceneRounding (Grid.init sceneRounding) [] 1000 1000) 0).data 2 0 ∧
      Grid.cellLive
          (Grid.insert sceneRounding
            (Grid.reset sceneRounding (Grid.init sceneRounding) [] 1000 1000) 0).data 3 0
        = [0] := by
  decide!

/-- C13, amended. Grid cell coverage for in-world boxes, with the quotients as the code
computes them: for every grid (with the 7 columns and 6 rows set by init, or any counts up to
`2^31`) reset to an empty population with a world `w` by `h`, `w, h > 0`, the cell sizes are
the doubles nearest to `w/columns` and `h/rows`, and for every well-formed box `o` with
`0 <= min`, `max.x < w`, `max.y < h` whose maximum corner falls in a column and a row of the
grid, `F(max.x/sizeX) < columns` and `F(max.y/sizeY) < rows`: after insert(o) the cell at
column `c`, row `r` holds `o` if and only if `F(min.x/sizeX) <= c <= F(max.x/sizeX)` and
`F(min.y/sizeY) <= r <= F(max.y/sizeY)`, where `F` is the floor of the quotient rounded to a
double; after a following remove(o) no cell holds `o`. -/
theorem grid_cell_coverage_rounded (B : Bounds) (g : Grid) (w h : ℚ) (o : Ref)
    (hX : g.divisionsX ≤ 2147483648) (hY : g.divisionsY ≤ 2147483648)
    (hw : 0 < w) (hh : 0 < h) (hwf : (B o).WellFormed)
    (hmin : 0 ≤ (B o).min.x ∧ 0 ≤ (B o).min.y)
    (_hin : (B o).max.x < w ∧ (B o).max.y < h)
    (hmax : ⌊fl ((B o).max.x / (Grid.reset B g [] w h).sizeX)⌋ < (g.divisionsX : Int) ∧
      ⌊fl ((B o).max.y / (Grid.reset B g [] w h).sizeY)⌋ < (g.divisionsY : Int)) :
    ((Grid.reset B g [] w h).sizeX = fl (w / (g.divisionsX : ℚ)) ∧
        (Grid.reset B g [] w h).sizeY = fl (h / (g.divisionsY : ℚ))) ∧
      (∀ r c : Int,
        o ∈ Grid.cellLive (Grid.insert B (Grid.reset B g [] w h) o).data r c ↔
          (⌊fl ((B o).min.x / (Grid.reset B g [] w h).sizeX)⌋ ≤ c ∧
              c ≤ ⌊fl ((B o).max.x / (Grid.reset B g [] w h).sizeX)⌋) ∧
            (⌊fl ((B o).min.y / (Grid.reset B g [] w h).sizeY)⌋ ≤ r ∧
              r ≤ ⌊fl ((B o).max.y / (Grid.reset B g [] w h).sizeY)⌋)) ∧
      ∀ r c : Int,
        o ∉ Grid.cellLive
          (Grid.remove B (Grid.insert B (Grid.reset B g [] w h) o) o).data r c := by
  have hempty : ∀ r c : Int, o ∉ Grid.cellLive (Grid.reset B g [] w h).data r c := by
    intro r c hm
    rw [Grid_mem_cellLive_reset] at hm
    cases hm.1
  refine ⟨⟨rfl, rfl⟩, ?_, ?_⟩
  · intro r c
    rw [Grid_reset_nil] at hempty hmax ⊢
    obtain ⟨hsx, hsy⟩ := Grid_sizes_rebuild g w h (le_of_lt hw) (le_of_lt hh)
    obtain ⟨hr, ⟨x0, x1⟩, ⟨y0, y1⟩⟩ :=
      Grid_range_rounded (g.rebuild w h) (B o) hX hY hsx hsy hwf hmin hmax
    rw [Grid_cellLive_insert]
    have hs := Grid_isSome_cell_rebuild g w h r c
    rw [hr]
    simp only []
    constructor
    · intro hm
      split at hm
      · next hc => exact ⟨hc.2.1, hc.1⟩
      · exact absurd hm (hempty r c)
    · rintro ⟨⟨h1, h2⟩, h3, h4⟩
      have hin : (0 ≤ r ∧ r < (g.divisionsY : Int)) ∧ (0 ≤ c ∧ c < (g.divisionsX : Int)) := by
        refine ⟨⟨?_, ?_⟩, ?_, ?_⟩ <;> omega
      have hsome := hs.2 hin
      rw [if_pos ⟨⟨h3, h4⟩, ⟨h1, h2⟩, hsome⟩]
      simp
  · intro r c hm
    rw [Grid_mem_cellLive_insert_remove] at hm
    exact hempty r c hm

/-- Witness of C13, the boundary scenario: world 700 by 600, cell size 100, the box
`[[95,0],[105,10]]` lands in columns 0 and 1 of row 0 and is cleared from both. -/
theorem grid_cell_coverage_rounded_witness :
    (∀ r c : Int,
        0 ∈ Grid.cellLive
            (Grid.insert sceneBoundary
              (Grid.reset sceneBoundary (Grid.init sceneBoundary) [] 700 600) 0).data r c ↔
          ((0 : Int) ≤ c ∧ c ≤ 1) ∧ ((0 : Int) ≤ r ∧ r ≤ 0)) ∧
      ∀ r c : Int,
        0 ∉ Grid.cellLive
          (Grid.remove sceneBoundary
            (Grid.insert sceneBoundary
              (Grid.reset sceneBoundary (Grid.init sceneBoundary) [] 700 600) 0) 0).data r c := by
  have key := grid_cell_coverage_rounded sceneBoundary (Grid.init sceneBoundary) 700 600 0
    (by decide!) (by decide!) (by decide!) (by decide!) (by decide!) (by decide!) (by decide!)
    (by decide!)
  have f1 : ⌊fl ((sceneBoundary 0).min.x /
      (Grid.reset sceneBoundary (Grid.init sceneBoundary) [] 700 600).sizeX)⌋ = 0 := by decide!
  have f2 : ⌊fl ((sceneBoundary 0).max.x /
      (Grid.reset sceneBoundary (Grid.init sceneBoundary) [] 700 600).sizeX)⌋ = 1 := by decide!
  have f3 : ⌊fl ((sceneBoundary 0).min.y /
      (Grid.reset sceneBoundary (Grid.init sceneBoundary) [] 700 600).sizeY)⌋ = 0 := by decide!
  have f4 : ⌊fl ((sceneBoundary 0).max.y /
      (Grid.reset sceneBoundary (Grid.init sceneBoundary) [] 700 600).sizeY)⌋ = 0 := by decide!
  rw [f1, f2, f3, f4] at key
  exact key.2

/-! ## The result buffer -/

theorem pushedFrom_refl (r : DynamicBuffer) : r.PushedFrom r := ⟨[], rfl⟩

theorem pushedFrom_push (r r1 : DynamicBuffer) (o : Ref) (h : r.PushedFrom r1) :
    r.PushedFrom (r1.push o) := by
  obtain ⟨l, rfl⟩ := h
  exact ⟨l ++ [o], by simp [List.foldl_append]⟩

theorem pushedFrom_trans (r r1 r2 : DynamicBuffer) (h1 : r.PushedFrom r1)
    (h2 : r1.PushedFrom r2) : r.PushedFrom r2 := by
  obtain ⟨l1, rfl⟩ := h1
  obtain ⟨l2, rfl⟩ := h2
  exact ⟨l1 ++ l2, by simp [List.foldl_append]⟩

theorem foldl_pushedFrom {α : Type} (step : DynamicBuffer → α → DynamicBuffer)
    (hstep : ∀ (res : DynamicBuffer) (a : α), res.PushedFrom (step res a)) (l : List α) (res : DynamicBuffer) :
    res.PushedFrom (l.foldl step res) := by
  induction l generalizing res with
  | nil => exact pushedFrom_refl res
  | cons a l ih => exact pushedFrom_trans _ _ _ (hstep res a) (ih _)

theorem pushedFrom_scanPush (B : Bounds) (q : Ref) (buf res : DynamicBuffer) :
    res.PushedFrom (scanPush B q buf res) := by
  unfold scanPush
  apply foldl_pushedFrom
  intro res a
  split
  · exact pushedFrom_push _ _ _ (pushedFrom_refl res)
  · exact pushedFrom_refl res

theorem pushedFrom_scanPushNew (B : Bounds) (q : Ref) (buf res : DynamicBuffer) :
    res.PushedFrom (scanPushNew B q buf res) := by
  unfold scanPushNew
  apply foldl_pushedFrom
  intro res a
  split
  · split
    · exact pushedFrom_push _ _ _ (pushedFrom_refl res)
    · exact pushedFrom_refl res
  · exact pushedFrom_refl res

theorem Quadnode_pushedFrom_intersects (B : Bounds) (q : Ref) (c : Vector2) (n : Quadnode)
    (res : DynamicBuffer) : res.PushedFrom (Quadnode.intersects B q c n res) := by
  induction n generalizing res with
  | leaf box ce l data =>
    unfold Quadnode.intersects
    split
    · exact pushedFrom_refl res
    · exact pushedFrom_scanPush B q data res
  | inner box ce l data child ih =>
    unfold Quadnode.intersects
    split
    · exact pushedFrom_refl res
    · exact pushedFrom_trans _ _ _ (pushedFrom_scanPush B q data res)
        (pushedFrom_trans _ _ _ (ih .nw _)
          (pushedFrom_trans _ _ _ (ih .ne _) (pushedFrom_trans _ _ _ (ih .sw _) (ih .se _))))

/-- Two folds whose steps agree on the live contents end with the same live contents. -/
theorem foldl_live_congr {α : Type} (step1 step2 : DynamicBuffer → α → DynamicBuffer)
    (l : List α)
    (hstep : ∀ r1 r2 a, a ∈ l → r1.live = r2.live → (step1 r1 a).live = (step2 r2 a).live)
    (r1 r2 : DynamicBuffer) (h : r1.live = r2.live) :
    (l.foldl step1 r1).live = (l.foldl step2 r2).live := by
  induction l generalizing r1 r2 with
  | nil => simpa using h
  | cons a l ih =>
    simp only [List.foldl_cons]
    exact ih (fun r1 r2 b hb hr => hstep r1 r2 b (List.mem_cons_of_mem _ hb) hr) _ _
      (hstep r1 r2 a (List.mem_cons_self _ _) h)

theorem contains_congr (r1 r2 : DynamicBuffer) (h : r1.live = r2.live) (o : Ref) :
    r1.contains o = r2.contains o := by
  rw [Bool.eq_iff_iff, DynamicBuffer_contains_iff, DynamicBuffer_contains_iff, h]

/-- The scan of a cell under two bounds maps that agree on the query and on the objects of
the cell, from two result buffers with the same live contents. -/
theorem live_scanPushNew_congr (B1 B2 : Bounds) (q : Ref) (buf r1 r2 : DynamicBuffer)
    (hB : ∀ s, s ∈ buf.live → hit B1 q s = hit B2 q s) (h : r1.live = r2.live) :
    (scanPushNew B1 q buf r1).live = (scanPushNew B2 q buf r2).live := by
  unfold scanPushNew
  apply foldl_live_congr _ _ _ _ _ _ h
  intro a1 a2 s hs ha
  rw [hB s hs, contains_congr a1 a2 ha s]
  split
  · split
    · simp [ha]
    · exact ha
  · exact ha

theorem Grid_live_intersects_congr (B1 B2 : Bounds) (g : Grid) (q : Ref)
    (res1 res2 : Option DynamicBuffer) (hq : B1 q = B2 q)
    (hB : ∀ y x s, s ∈ Grid.cellLive g.data y x → hit B1 q s = hit B2 q s) :
    (Grid.intersects B1 g q res1).live = (Grid.intersects B2 g q res2).live := by
  unfold Grid.intersects
  simp only [hq]
  apply foldl_live_congr _ _ _ _ _ _ (by simp)
  intro r1 r2 y _ hr
  apply foldl_live_congr _ _ _ _ _ _ hr
  intro r1 r2 x _ hr
  have hc := hB y x
  unfold Grid.cellLive at hc
  cases hcell : Grid.cell g.data y x with
  | none => exact hr
  | some c =>
    rw [hcell] at hc
    exact live_scanPushNew_congr B1 B2 q c.buf r1 r2 hc hr

theorem SpatialHash_live_intersects_congr (B1 B2 : Bounds) (s : SpatialHash) (q : Ref)
    (res1 res2 : Option DynamicBuffer) (hq : B1 q = B2 q)
    (hB : ∀ y x o, o ∈ SpatialHash.cellLive s.data y x → hit B1 q o = hit B2 q o) :
    (SpatialHash.intersects B1 s q res1).live = (SpatialHash.intersects B2 s q res2).live := by
  unfold SpatialHash.intersects
  simp only [hq]
  apply foldl_live_congr _ _ _ _ _ _ (by simp)
  intro r1 r2 y _ hr
  have hy := hB y
  unfold SpatialHash.cellLive at hy
  cases hrow : s.data.get? y with
  | none => exact hr
  | some row =>
    rw [hrow] at hy
    simp only [] at hy ⊢
    apply foldl_live_congr _ _ _ _ _ _ hr
    intro r1 r2 x _ hr
    have hc := hy x
    unfold SpatialHash.rowLive at hc
    cases hcell : row.get? x with
    | none => exact hr
    | some c =>
      rw [hcell] at hc
      exact live_scanPushNew_congr B1 B2 q c.buf r1 r2 hc hr

theorem Grid_pushedFrom_intersects (B : Bounds) (g : Grid) (q : Ref)
    (res : Option DynamicBuffer) :
    (resultBuffer res).PushedFrom (Grid.intersects B g q res) := by
  unfold Grid.intersects
  simp only []
  apply foldl_pushedFrom
  intro r y
  apply foldl_pushedFrom
  intro r x
  cases Grid.cell g.data y x with
  | none => exact pushedFrom_refl r
  | some c => exact pushedFrom_scanPushNew B q c.buf r

theorem SpatialHash_pushedFrom_intersects (B : Bounds) (s : SpatialHash) (q : Ref)
    (res : Option DynamicBuffer) :
    (resultBuffer res).PushedFrom (SpatialHash.intersects B s q res) := by
  unfold SpatialHash.intersects
  simp only []
  apply foldl_pushedFrom
  intro r y
  cases s.data.get? y with
  | none => exact pushedFrom_refl r
  | some row =>
    simp only []
    apply foldl_pushedFrom
    intro r x
    cases row.get? x with
    | none => exact pushedFrom_refl r
    | some c => exact pushedFrom_scanPushNew B q c.buf r

/-- C15. Result buffer reuse: for each strategy, every state, every query `q` and every
caller-supplied DynamicBuffer `r` with arbitrary prior contents, the buffer returned by
intersects(q, r) is `r` itself after clear() and a sequence of push calls, and its live
contents are the same sequence as the live contents of the buffer returned by intersects(q)
called without a buffer; nothing of the prior contents of `r` is live any more. -/
theorem result_buffer_reuse (B : Bounds) (b : Basic) (g : Grid) (t : Quadtree)
    (s : SpatialHash) (q : Ref) (r : DynamicBuffer) :
    (r.clear.PushedFrom (Basic.intersects B b q (some r)) ∧
        (Basic.intersects B b q (some r)).live = (Basic.intersects B b q none).live) ∧
      (r.clear.PushedFrom (Grid.intersects B g q (some r)) ∧
        (Grid.intersects B g q (some r)).live = (Grid.intersects B g q none).live) ∧
      (r.clear.PushedFrom (Quadtree.intersects B t q (some r)) ∧
        (Quadtree.intersects B t q (some r)).live = (Quadtree.intersects B t q none).live) ∧
      (r.clear.PushedFrom (SpatialHash.intersects B s q (some r)) ∧
        (SpatialHash.intersects B s q (some r)).live =
          (SpatialHash.intersects B s q none).live) := by
  refine ⟨⟨?_, ?_⟩, ⟨?_, ?_⟩, ⟨?_, ?_⟩, ⟨?_, ?_⟩⟩
  · exact pushedFrom_scanPush B q b.data _
  · rw [Basic_live_intersects, Basic_live_intersects]
  · exact Grid_pushedFrom_intersects B g q (some r)
  · exact Grid_live_intersects_congr B B g q _ _ rfl (fun _ _ _ _ => rfl)
  · unfold Quadtree.intersects
    exact pushedFrom_trans _ _ _ (pushedFrom_scanPush B q t.data _)
      (Quadnode_pushedFrom_intersects B q _ t.root _)
  · rw [Quadtree_live_intersects, Quadtree_live_intersects]
  · exact SpatialHash_pushedFrom_intersects B s q (some r)
  · exact SpatialHash_live_intersects_congr B B s q _ _ rfl (fun _ _ _ _ => rfl)

/-! ## The alpha field -/

theorem Quadnode_mem_holderLevels_update (o : Ref) (box : Box2) (ce : Vector2) (l : Nat)
    (data : DynamicBuffer) (child : Quadrant → Quadnode) (q0 : Quadrant) (n1 : Quadnode)
    (L : Nat) (h : L ∈ n1.holderLevels o) :
    L ∈ (Quadnode.inner box ce l data (Function.update child q0 n1)).holderLevels o := by
  cases q0 <;> simp [Quadnode.holderLevels, Function.update, h]

/-- Quadnode.insert on a node that accepts the object writes exactly one alpha field, that of
the object, with a quarter of the level of a node that holds the object afterwards. -/
theorem Quadnode_insert_alpha (B : Bounds) (obj : Ref) (c : Vector2) (n : Quadnode)
    (A : Alpha) (h : n.box.containsBox (B obj) = true) :
    ∃ L, L ∈ (Quadnode.insert B obj c n A).2.1.holderLevels obj ∧
      (Quadnode.insert B obj c n A).2.2 = A.set obj (1 / 4 * (L : ℚ)) := by
  induction n generalizing A with
  | leaf box ce l data =>
    unfold Quadnode.box at h
    unfold Quadnode.insert
    simp only [h, if_true]
    exact ⟨l, by simp [Quadnode.holderLevels], rfl⟩
  | inner box ce l data child ih =>
    unfold Quadnode.box at h
    unfold Quadnode.insert
    simp only [h, if_true]
    by_cases hr : (Quadnode.insert B obj c (child (Quadnode.route c ce)) A).1 = true
    · have hc := hr
      rw [Quadnode_insert_ret] at hc
      obtain ⟨L, hL, hA⟩ := ih (Quadnode.route c ce) A hc
      simp only [hr, if_true]
      exact ⟨L, Quadnode_mem_holderLevels_update obj box ce l data child _ _ L hL, hA⟩
    · have hc : (child (Quadnode.route c ce)).box.containsBox (B obj) = false := by
        rw [← Quadnode_insert_ret B obj c _ A]
        simpa using hr
      rw [Quadnode_insert_of_not B obj c _ A hc]
      simp only [Bool.false_eq_true, if_false, Function.update_eq_self]
      exact ⟨l, by simp [Quadnode.holderLevels], rfl⟩

/-- Counterexample to C17 as stated: on a world 16 by 16, Quadtree.insert(o) for o =
`[[1,1],[2,2]]`, whose opacity `alpha` is 1 before the call, stores `o` in a leaf (level 1)
and leaves `o.alpha = 0.25`. -/
theorem quadtree_insert_writes_alpha_counterexample :
    alpha0 0 = 1 ∧
      (Quadtree.insert sceneNested
        (Quadtree.reset sceneNested (Quadtree.init sceneNested alpha0) [] 16 16 alpha0).1
        0 alpha0).state.2 0 = 1 / 4 := by
  decide!

/-- C17, amended. The index reads the bounds of the boxes and writes one payload field:
Quadtree.insert(o), when `o` fits in the root box, sets `o.alpha` (the opacity) to 0.25 times
the level of a node that holds `o` after the call, and writes nothing when `o` does not fit;
in both cases the alpha of every other object is unchanged. (Bounds are a read-only input of
every operation, and no other operation of the four strategies takes part in the alpha
fields.) -/
theorem quadtree_insert_alpha (B : Bounds) (t : Quadtree) (o : Ref) (A : Alpha) :
    (∀ r, r ≠ o → (Quadtree.insert B t o A).state.2 r = A r) ∧
      (t.root.box.containsBox (B o) = false → (Quadtree.insert B t o A).state.2 = A) ∧
      (t.root.box.containsBox (B o) = true →
        ∃ L, L ∈ (Quadtree.insert B t o A).state.1.root.holderLevels o ∧
          (Quadtree.insert B t o A).state.2 o = 1 / 4 * (L : ℚ)) := by
  by_cases hc : t.root.box.containsBox (B o) = true
  · obtain ⟨L, hL, hA⟩ := Quadnode_insert_alpha B o (B o).center t.root A hc
    have hr : (t.root.insert B o (B o).center A).1 = true := by
      rw [Quadnode_insert_ret]; exact hc
    have e1 : (Quadtree.insert B t o A).state.2 = A.set o (1 / 4 * (L : ℚ)) := by
      unfold Quadtree.insert
      simp only [hr, Bool.not_true, Bool.false_eq_true, if_false]
      exact hA
    have e2 : (Quadtree.insert B t o A).state.1.root = (t.root.insert B o (B o).center A).2.1 := by
      unfold Quadtree.insert
      simp only [hr, Bool.not_true, Bool.false_eq_true, if_false]
    refine ⟨?_, ?_, ?_⟩
    · intro r hne
      rw [e1]
      simp [Alpha.set, hne]
    · intro hf
      rw [hf] at hc
      cases hc
    · intro _
      refine ⟨L, by rw [e2]; exact hL, ?_⟩
      rw [e1]
      simp [Alpha.set]
  · have hf : t.root.box.containsBox (B o) = false := by simpa using hc
    have e1 : (Quadtree.insert B t o A).state.2 = A := by
      unfold Quadtree.insert
      rw [Quadnode_insert_of_not B o _ _ A hf]
      simp
    refine ⟨fun r _ => by rw [e1], fun _ => e1, fun h => ?_⟩
    rw [hf] at h
    cases h

theorem quadtree_insert_alpha_witness :
    (Quadtree.reset sceneNested (Quadtree.init sceneNested alpha0) [] 16 16
        alpha0).1.root.box.containsBox (sceneNested 0) = true ∧
      ∃ L, L ∈ (Quadtree.insert sceneNested
            (Quadtree.reset sceneNested (Quadtree.init sceneNested alpha0) [] 16 16 alpha0).1
            0 alpha0).state.1.root.holderLevels 0 ∧
        (Quadtree.insert sceneNested
            (Quadtree.reset sceneNested (Quadtree.init sceneNested alpha0) [] 16 16 alpha0).1
            0 alpha0).state.2 0 = 1 / 4 * (L : ℚ) :=
  ⟨by decide!,
    (quadtree_insert_alpha sceneNested
      (Quadtree.reset sceneNested (Quadtree.init sceneNested alpha0) [] 16 16 alpha0).1
      0 alpha0).2.2 (by decide!)⟩

/-! ## The skeleton of the tree -/

theorem Quadnode_skeleton_box (n : Quadnode) : n.skeleton.box = n.box := by
  cases n <;> rfl

theorem Quadnode_skeleton_level (n : Quadnode) : n.skeleton.level = n.level := by
  cases n <;> rfl

theorem Quadnode_skeleton_update (child : Quadrant → Quadnode) (q0 : Quadrant) (n1 : Quadnode)
    (h : n1.skeleton = (child q0).skeleton) :
    (fun q => (Function.update child q0 n1 q).skeleton) = fun q => (child q).skeleton := by
  funext q
  by_cases hq : q = q0
  · subst hq
    simp [h]
  · simp [Function.update, hq]

theorem Quadnode_skeleton_insert (B : Bounds) (obj : Ref) (c : Vector2) (n : Quadnode)
    (A : Alpha) : (Quadnode.insert B obj c n A).2.1.skeleton = n.skeleton := by
  induction n generalizing A with
  | leaf box ce l data =>
    unfold Quadnode.insert
    split <;> rfl
  | inner box ce l data child ih =>
    unfold Quadnode.insert
    split
    · simp only []
      split <;>
        simp only [Quadnode.skeleton, Quadnode_skeleton_update child _ _ (ih _ A)]
    · rfl

theorem Quadnode_skeleton_remove (B : Bounds) (obj : Ref) (c : Vector2) (n : Quadnode) :
    (Quadnode.remove B obj c n).2.skeleton = n.skeleton := by
  induction n with
  | leaf box ce l data =>
    unfold Quadnode.remove
    split <;> rfl
  | inner box ce l data child ih =>
    unfold Quadnode.remove
    split
    · simp only []
      split <;>
        simp only [Quadnode.skeleton, Quadnode_skeleton_update child _ _ (ih _)]
    · rfl

theorem Quadnode_skeleton_clear (n : Quadnode) : n.clear.skeleton = n.skeleton := by
  induction n with
  | leaf box ce l data => rfl
  | inner box ce l data child ih =>
    simp only [Quadnode.clear, Quadnode.skeleton, ih]

theorem Quadnode_skeleton_init (box : Box2) (l : Nat) :
    (Quadnode.init box l).skeleton = Quadnode.init box l := by
  induction l using Nat.strong_induction_on generalizing box with
  | _ l ih =>
    match l with
    | 0 => rfl
    | 1 => rfl
    | (k + 2) =>
      simp only [Quadnode.init, Quadnode.skeleton, ih (k + 1) (by omega)]

theorem Quadtree_skeleton_insert (B : Bounds) (t : Quadtree) (o : Ref) (A : Alpha) :
    (Quadtree.insert B t o A).state.1.root.skeleton = t.root.skeleton := by
  unfold Quadtree.insert
  simp only []
  split <;> exact Quadnode_skeleton_insert B o _ t.root A

theorem Quadtree_skeleton_remove (B : Bounds) (t : Quadtree) (o : Ref) :
    (Quadtree.remove B t o).state.root.skeleton = t.root.skeleton := by
  unfold Quadtree.remove
  simp only []
  split <;> exact Quadnode_skeleton_remove B o _ t.root

theorem Quadtree_skeleton_foldl_insert (B : Bounds) (objs : List Ref) (s : Quadtree × Alpha) :
    (objs.foldl (fun s o => (Quadtree.insert B s.1 o s.2).state) s).1.root.skeleton =
      s.1.root.skeleton := by
  induction objs generalizing s with
  | nil => rfl
  | cons o objs ih =>
    simp only [List.foldl_cons]
    rw [ih]
    exact Quadtree_skeleton_insert B s.1 o s.2

/-- After a reset the skeleton of the tree is the tree Quadnode.prototype.init builds on the
world box with the depth of the quadtree. -/
theorem Quadtree_skeleton_reset (B : Bounds) (t : Quadtree) (objs : List Ref) (w h : ℚ)
    (A : Alpha) :
    (Quadtree.reset B t objs w h A).1.root.skeleton = Quadnode.init ⟨⟨0, 0⟩, ⟨w, h⟩⟩ t.depth := by
  unfold Quadtree.reset
  simp only []
  rw [Quadtree_skeleton_foldl_insert]
  exact Quadnode_skeleton_init _ _

theorem Quadnode_shape_skeleton (n : Quadnode) : n.skeleton.Shape ↔ n.Shape := by
  induction n with
  | leaf box ce l data => rfl
  | inner box ce l data child ih =>
    simp only [Quadnode.skeleton, Quadnode.Shape, Quadnode_skeleton_box, Quadnode_skeleton_level,
      ih]

theorem Quadnode_built_skeleton (n : Quadnode) : n.skeleton.Built ↔ n.Built := by
  induction n with
  | leaf box ce l data => rfl
  | inner box ce l data child ih =>
    simp only [Quadnode.skeleton, Quadnode.Built, Quadnode_skeleton_box, ih]

theorem Quadnode_init_box (box : Box2) (l : Nat) : (Quadnode.init box l).box = box := by
  match l with
  | 0 => rfl
  | 1 => rfl
  | (k + 2) => rfl

theorem Quadnode_init_level (box : Box2) (l : Nat) : (Quadnode.init box l).level = l := by
  match l with
  | 0 => rfl
  | 1 => rfl
  | (k + 2) => rfl

theorem Quadnode_built_init (box : Box2) (l : Nat) : (Quadnode.init box l).Built := by
  induction l using Nat.strong_induction_on generalizing box with
  | _ l ih =>
    match l with
    | 0 => trivial
    | 1 => trivial
    | (k + 2) =>
      simp only [Quadnode.init, Quadnode.Built, Quadnode_init_box, true_and]
      intro q
      exact ih (k + 1) (by omega) _

theorem Quadnode_childBox_wellFormed (box : Box2) (h : box.WellFormed) (q : Quadrant) :
    (Quadnode.childBox box box.center q).WellFormed := by
  obtain ⟨hx, hy⟩ := h
  cases q <;> simp only [Quadnode.childBox, Box2.WellFormed, Box2.center] <;>
    constructor <;> linarith

/-- The tree Quadnode.prototype.init builds on a well-formed box with a positive level has the
shape of a complete tree of equal quadrants. -/
theorem Quadnode_shape_init (box : Box2) (h : box.WellFormed) (l : Nat) (hl : 0 < l) :
    (Quadnode.init box l).Shape := by
  induction l using Nat.strong_induction_on generalizing box with
  | _ l ih =>
    match l, hl with
    | 1, _ => simp [Quadnode.init, Quadnode.Shape]
    | (k + 2), _ =>
      obtain ⟨hx, hy⟩ := h
      simp only [Quadnode.init, Quadnode.Shape, Quadnode_init_box, Quadnode_init_level]
      refine ⟨by omega, ?_, ?_, ?_⟩
      · intro q
        refine ⟨trivial, ?_, ?_, ?_, ?_,
          ih (k + 1) (by omega) _ (Quadnode_childBox_wellFormed box ⟨hx, hy⟩ q) (by omega)⟩
        · cases q <;>
            simp only [Quadnode.childBox, Box2.containsBox, Box2.center, Bool.and_eq_true,
              decide_eq_true_eq] <;>
            refine ⟨⟨⟨?_, ?_⟩, ?_⟩, ?_⟩ <;> linarith
        · cases q <;> simp only [Quadnode.childBox, Box2.width, Box2.center] <;> ring
        · cases q <;> simp only [Quadnode.childBox, Box2.height, Box2.center] <;> ring
        · cases q <;> simp [Quadnode.childBox, Box2.HasCorner]
      · rintro p ⟨h1, h2, h3, h4⟩
        by_cases hpx : p.x ≤ box.center.x <;> by_cases hpy : p.y ≤ box.center.y
        · exact ⟨.nw, h1, hpx, h3, hpy⟩
        · exact ⟨.sw, h1, hpx, le_of_lt (not_le.mp hpy), h4⟩
        · exact ⟨.ne, le_of_lt (not_le.mp hpx), h2, h3, hpy⟩
        · exact ⟨.se, le_of_lt (not_le.mp hpx), h2, le_of_lt (not_le.mp hpy), h4⟩
      · rintro q1 q2 p hne ⟨⟨a1, a2, a3, a4⟩, ⟨b1, b2, b3, b4⟩⟩
        cases q1 <;> cases q2 <;> simp only [Quadnode.childBox] at a1 a2 a3 a4 b1 b2 b3 b4 <;>
          first
            | exact hne rfl
            | exact absurd (lt_trans a1 b2) (lt_irrefl _)
            | exact absurd (lt_trans b1 a2) (lt_irrefl _)
            | exact absurd (lt_trans a3 b4) (lt_irrefl _)
            | exact absurd (lt_trans b3 a4) (lt_irrefl _)

/-- C19: after Quadtree.reset(objs, w, h) with w, h > 0 (and a configured depth of at least
1; init sets 4), for any objs, the root has the configured depth as its level and the world
box as its box, and the tree is a complete 4-ary tree: a node is a leaf exactly when its
level is 1, every other node has four children one level lower, and the four child boxes are
the four equal quadrants of the box of the node meeting at its center (each is contained in
the parent, has half its width and height, the four cover the parent box, and two distinct
children share no interior point). -/
theorem quadtree_shape_after_reset (B : Bounds) (t : Quadtree) (objs : List Ref) (w h : ℚ)
    (A : Alpha) (hd : 0 < t.depth) (hw : 0 < w) (hh : 0 < h) :
    (Quadtree.reset B t objs w h A).1.root.level = t.depth ∧
      (Quadtree.reset B t objs w h A).1.root.box = ⟨⟨0, 0⟩, ⟨w, h⟩⟩ ∧
      (Quadtree.reset B t objs w h A).1.root.Shape := by
  have hs := Quadtree_skeleton_reset B t objs w h A
  refine ⟨?_, ?_, ?_⟩
  · rw [← Quadnode_skeleton_level, hs, Quadnode_init_level]
  · rw [← Quadnode_skeleton_box, hs, Quadnode_init_box]
  · rw [← Quadnode_shape_skeleton, hs]
    exact Quadnode_shape_init _ ⟨le_of_lt hw, le_of_lt hh⟩ _ hd

theorem quadtree_shape_after_reset_witness :
    0 < (Quadtree.init sceneABC alpha0).depth ∧ (0 : ℚ) < 700 ∧ (0 : ℚ) < 600 ∧
      (Quadtree.reset sceneABC (Quadtree.init sceneABC alpha0) [0, 1, 2] 700 600 alpha0).1.root.level
        = (Quadtree.init sceneABC alpha0).depth ∧
      (Quadtree.reset sceneABC (Quadtree.init sceneABC alpha0) [0, 1, 2] 700 600 alpha0).1.root.box
        = ⟨⟨0, 0⟩, ⟨700, 600⟩⟩ ∧
      (Quadtree.reset sceneABC (Quadtree.init sceneABC alpha0) [0, 1, 2] 700 600
        alpha0).1.root.Shape :=
  ⟨by decide, by norm_num, by norm_num,
    quadtree_shape_after_reset sceneABC (Quadtree.init sceneABC alpha0) [0, 1, 2] 700 600 alpha0
      (by decide) (by norm_num) (by norm_num)⟩

/-! ## The storage invariant of the nodes -/

theorem Quadnode_remove_box (B : Bounds) (obj : Ref) (c : Vector2) (n : Quadnode) :
    (Quadnode.remove B obj c n).2.box = n.box := by
  rw [← Quadnode_skeleton_box, Quadnode_skeleton_remove, Quadnode_skeleton_box]

theorem Quadnode_clear_box (n : Quadnode) : n.clear.box = n.box := by
  cases n <;> rfl

theorem Quadnode_built_insert (B : Bounds) (obj : Ref) (c : Vector2) (n : Quadnode)
    (A : Alpha) (h : n.Built) : (Quadnode.insert B obj c n A).2.1.Built := by
  rw [← Quadnode_built_skeleton, Quadnode_skeleton_insert, Quadnode_built_skeleton]
  exact h

theorem Quadnode_built_remove (B : Bounds) (obj : Ref) (c : Vector2) (n : Quadnode)
    (h : n.Built) : (Quadnode.remove B obj c n).2.Built := by
  rw [← Quadnode_built_skeleton, Quadnode_skeleton_remove, Quadnode_built_skeleton]
  exact h

theorem Quadnode_built_clear (n : Quadnode) (h : n.Built) : n.clear.Built := by
  rw [← Quadnode_built_skeleton, Quadnode_skeleton_clear, Quadnode_built_skeleton]
  exact h

/-- The routing by the center of the object picks the right child: a well-formed box that is
contained in the box of a node and in one of the four child boxes is contained in the child
box chosen by the center comparisons. -/
theorem Quadnode_route_contains (box o : Box2) (q : Quadrant) (hwf : o.WellFormed)
    (hb : box.containsBox o = true)
    (hq : (Quadnode.childBox box box.center q).containsBox o = true) :
    (Quadnode.childBox box box.center (Quadnode.route o.center box.center)).containsBox o
      = true := by
  obtain ⟨wx, wy⟩ := hwf
  simp only [Box2.containsBox, Bool.and_eq_true, decide_eq_true_eq] at hb
  obtain ⟨⟨⟨b1, b2⟩, b3⟩, b4⟩ := hb
  unfold Quadnode.route
  simp only [Box2.center] at hq ⊢
  cases q <;>
    simp only [Quadnode.childBox, Box2.containsBox, Bool.and_eq_true, decide_eq_true_eq] at hq <;>
    obtain ⟨⟨⟨q1, q2⟩, q3⟩, q4⟩ := hq <;>
    split_ifs with h1 h2 h2 <;>
    simp only [Quadnode.childBox, Box2.containsBox, Bool.and_eq_true, decide_eq_true_eq] <;>
    refine ⟨⟨⟨?_, ?_⟩, ?_⟩, ?_⟩ <;> linarith

theorem Quadnode_deepest_insert (B : Bounds) (obj : Ref) (n : Quadnode) (A : Alpha)
    (hwf : (B obj).WellFormed) (hb : n.Built) (hd : n.Deepest B) :
    (Quadnode.insert B obj (B obj).center n A).2.1.Deepest B := by
  induction n generalizing A with
  | leaf box ce l data =>
    unfold Quadnode.insert
    split
    · next h =>
      unfold Quadnode.Deepest at hd ⊢
      intro r hr
      simp only [DynamicBuffer.live_push, List.mem_append, List.mem_singleton] at hr
      rcases hr with hr | rfl
      · exact hd r hr
      · exact h
    · exact hd
  | inner box ce l data child ih =>
    obtain ⟨hce, hch⟩ := hb
    obtain ⟨hdata, hdc⟩ := hd
    unfold Quadnode.insert
    split
    · next h =>
      simp only []
      by_cases hr : (Quadnode.insert B obj (B obj).center
          (child (Quadnode.route (B obj).center ce)) A).1 = true
      · simp only [hr, if_true]
        refine ⟨fun r hmem => ⟨(hdata r hmem).1, fun q => ?_⟩, fun q => ?_⟩
        · by_cases hq : q = Quadnode.route (B obj).center ce
          · subst hq
            simp only [Function.update_same, Quadnode_insert_box]
            exact (hdata r hmem).2 _
          · simp only [Function.update, hq, dif_neg, not_false_eq_true]
            exact (hdata r hmem).2 q
        · by_cases hq : q = Quadnode.route (B obj).center ce
          · subst hq
            simp only [Function.update_same]
            exact ih _ A (hch _).2 (hdc _)
          · simp only [Function.update, hq, dif_neg, not_false_eq_true]
            exact hdc q
      · have hc : (child (Quadnode.route (B obj).center ce)).box.containsBox (B obj) = false := by
          rw [← Quadnode_insert_ret B obj (B obj).center _ A]
          simpa using hr
        rw [Quadnode_insert_of_not B obj _ _ A hc]
        simp only [Bool.false_eq_true, if_false, Function.update_eq_self]
        refine ⟨fun r hmem => ?_, hdc⟩
        simp only [DynamicBuffer.live_push, List.mem_append, List.mem_singleton] at hmem
        rcases hmem with hmem | rfl
        · exact hdata r hmem
        · refine ⟨h, fun q => ?_⟩
          by_contra hne
          have hq : (child q).box.containsBox (B r) = true := by simpa using hne
          rw [(hch q).1, hce] at hq
          have := Quadnode_route_contains box (B r) q hwf h hq
          rw [(hch _).1, hce] at hc
          rw [this] at hc
          cases hc
    · exact ⟨hdata, hdc⟩

theorem Quadnode_deepest_remove (B : Bounds) (obj : Ref) (c : Vector2) (n : Quadnode)
    (hd : n.Deepest B) : (Quadnode.remove B obj c n).2.Deepest B := by
  induction n with
  | leaf box ce l data =>
    unfold Quadnode.remove
    split
    · unfold Quadnode.Deepest at hd ⊢
      intro r hr
      rw [DynamicBuffer_live_remove] at hr
      exact hd r (List.mem_of_mem_erase hr)
    · exact hd
  | inner box ce l data child ih =>
    obtain ⟨hdata, hdc⟩ := hd
    have hbox : ∀ q, (Function.update child (Quadnode.route c ce)
        (Quadnode.remove B obj c (child (Quadnode.route c ce))).2 q).box = (child q).box := by
      intro q
      by_cases hq : q = Quadnode.route c ce
      · subst hq
        simp only [Function.update_same, Quadnode_remove_box]
      · simp only [Function.update, hq, dif_neg, not_false_eq_true]
    have hdeep : ∀ q, (Function.update child (Quadnode.route c ce)
        (Quadnode.remove B obj c (child (Quadnode.route c ce))).2 q).Deepest B := by
      intro q
      by_cases hq : q = Quadnode.route c ce
      · subst hq
        simp only [Function.update_same]
        exact ih _ (hdc _)
      · simp only [Function.update, hq, dif_neg, not_false_eq_true]
        exact hdc q
    unfold Quadnode.remove
    split
    · simp only []
      split
      · refine ⟨fun r hmem => ⟨(hdata r hmem).1, fun q => ?_⟩, hdeep⟩
        rw [hbox q]
        exact (hdata r hmem).2 q
      · refine ⟨fun r hmem => ?_, hdeep⟩
        rw [DynamicBuffer_live_remove] at hmem
        have hm := List.mem_of_mem_erase hmem
        refine ⟨(hdata r hm).1, fun q => ?_⟩
        rw [hbox q]
        exact (hdata r hm).2 q
    · exact ⟨hdata, hdc⟩

theorem Quadnode_deepest_clear (B : Bounds) (n : Quadnode) : n.clear.Deepest B := by
  induction n with
  | leaf box ce l data =>
    simp [Quadnode.clear, Quadnode.Deepest]
  | inner box ce l data child ih =>
    simp only [Quadnode.clear, Quadnode.Deepest, DynamicBuffer.live_clear, List.not_mem_nil,
      false_implies, implies_true, true_and]
    exact ih

theorem Quadnode_deepest_init (B : Bounds) (box : Box2) (l : Nat) :
    (Quadnode.init box l).Deepest B := by
  induction l using Nat.strong_induction_on generalizing box with
  | _ l ih =>
    match l with
    | 0 => simp [Quadnode.init, Quadnode.Deepest]
    | 1 => simp [Quadnode.init, Quadnode.Deepest]
    | (k + 2) =>
      simp only [Quadnode.init, Quadnode.Deepest, DynamicBuffer.live_init, List.not_mem_nil,
        false_implies, implies_true, true_and]
      intro q
      exact ih (k + 1) (by omega) _

theorem Quadtree_root_insert (B : Bounds) (t : Quadtree) (o : Ref) (A : Alpha) :
    (Quadtree.insert B t o A).state.1.root = (t.root.insert B o (B o).center A).2.1 := by
  unfold Quadtree.insert
  simp only []
  split <;> rfl

theorem Quadtree_root_remove (B : Bounds) (t : Quadtree) (o : Ref) :
    (Quadtree.remove B t o).state.root = (t.root.remove B o (B o).center).2 := by
  unfold Quadtree.remove
  simp only []
  split <;> rfl

theorem Quadtree_foldl_insert_deepest (B : Bounds) (objs : List Ref)
    (hwf : ∀ o, o ∈ objs → (B o).WellFormed) (s : Quadtree × Alpha)
    (h : s.1.root.Built ∧ s.1.root.Deepest B) :
    (objs.foldl (fun s o => (Quadtree.insert B s.1 o s.2).state) s).1.root.Built ∧
      (objs.foldl (fun s o => (Quadtree.insert B s.1 o s.2).state) s).1.root.Deepest B := by
  induction objs generalizing s with
  | nil => exact h
  | cons o objs ih =>
    simp only [List.foldl_cons]
    apply ih (fun r hr => hwf r (List.mem_cons_of_mem _ hr))
    rw [Quadtree_root_insert]
    exact ⟨Quadnode_built_insert B o _ _ _ h.1,
      Quadnode_deepest_insert B o _ _ (hwf o (List.mem_cons_self _ _)) h.1 h.2⟩

theorem Quadtree_reachable_built (B : Bounds) (t : Quadtree) (h : Quadtree.Reachable B t) :
    t.root.Built ∧ t.root.Deepest B := by
  induction h with
  | reset t objs w h A hwf =>
    unfold Quadtree.reset
    exact Quadtree_foldl_insert_deepest B objs hwf _
      ⟨Quadnode_built_init _ _, Quadnode_deepest_init B _ _⟩
  | insert t obj A _ hwf ih =>
    rw [Quadtree_root_insert]
    exact ⟨Quadnode_built_insert B obj _ _ _ ih.1, Quadnode_deepest_insert B obj _ _ hwf ih.1 ih.2⟩
  | remove t obj _ ih =>
    rw [Quadtree_root_remove]
    exact ⟨Quadnode_built_remove B obj _ _ ih.1, Quadnode_deepest_remove B obj _ _ ih.2⟩
  | clear t _ ih =>
    exact ⟨Quadnode_built_clear _ ih.1, Quadnode_deepest_clear B _⟩

/-- C18: in every Quadtree state reachable from reset by insert, remove and clear calls on
boxes whose bounds `B` do not change, every inserted box being well-formed, every object held
in the data buffer of a node is fully contained in the box of that node and, if the node is
not a leaf, is not fully contained in the box of any of its four children. -/
theorem quadnode_storage_invariant (B : Bounds) (t : Quadtree)
    (h : Quadtree.Reachable B t) : t.root.Deepest B :=
  (Quadtree_reachable_built B t h).2

theorem quadnode_storage_invariant_witness :
    Quadtree.Reachable sceneABC
        (Quadtree.remove sceneABC
          (Quadtree.insert sceneABC
            (Quadtree.reset sceneABC (Quadtree.init sceneABC alpha0) [0, 1] 700 600 alpha0).1
            2 alpha0).state.1 0).state ∧
      (Quadtree.remove sceneABC
          (Quadtree.insert sceneABC
            (Quadtree.reset sceneABC (Quadtree.init sceneABC alpha0) [0, 1] 700 600 alpha0).1
            2 alpha0).state.1 0).state.root.Deepest sceneABC :=
  have hr : Quadtree.Reachable sceneABC
      (Quadtree.remove sceneABC
        (Quadtree.insert sceneABC
          (Quadtree.reset sceneABC (Quadtree.init sceneABC alpha0) [0, 1] 700 600 alpha0).1
          2 alpha0).state.1 0).state :=
    Quadtree.Reachable.remove _ 0
      (Quadtree.Reachable.insert _ 2 alpha0
        (Quadtree.Reachable.reset _ [0, 1] 700 600 alpha0 (by decide!)) (by decide!))
  ⟨hr, quadnode_storage_invariant sceneABC _ hr⟩

/-! ## render -/

theorem sameOutside_refl (pool : DynamicBuffer) (H : Heap) : Heap.SameOutside pool H H :=
  fun _ _ => ⟨rfl, rfl, rfl⟩

theorem sameOutside_trans (pool : DynamicBuffer) (H H1 H2 : Heap)
    (h1 : Heap.SameOutside pool H H1) (h2 : Heap.SameOutside pool H1 H2) :
    Heap.SameOutside pool H H2 := by
  intro r hr
  obtain ⟨a1, a2, a3⟩ := h1 r hr
  obtain ⟨b1, b2, b3⟩ := h2 r hr
  exact ⟨b1.trans a1, b2.trans a2, b3.trans a3⟩

theorem pool_mem_live (pool : DynamicBuffer) (i : Nat) (r : Ref) (hi : i < pool.count)
    (h : pool.data.get i = some r) : r ∈ pool.live := by
  unfold DynamicBuffer.live
  rw [mem_filterMap_range]
  exact ⟨i, hi, h⟩

theorem sameOutside_blank (pool : DynamicBuffer) (H : Heap) (r : Ref) (hr : r ∈ pool.live) :
    Heap.SameOutside pool H (H.blank r) := by
  intro r1 hr1
  have hne : r1 ≠ r := fun h => hr1 (h ▸ hr)
  simp [Heap.blank, Alpha.set, hne]

theorem sameOutside_paint (pool : DynamicBuffer) (H : Heap) (r : Ref) (m : Option ℚ)
    (min max : Vector2) (hr : r ∈ pool.live) :
    Heap.SameOutside pool H (H.paint r m min max) := by
  intro r1 hr1
  have hne : r1 ≠ r := fun h => hr1 (h ▸ hr)
  simp [Heap.paint, Alpha.set, hne]

theorem blankLoop_spec (pool : DynamicBuffer) (hf : pool.Filled) (l : List Nat)
    (hl : ∀ i, i ∈ l → i < pool.count) (H : Heap) :
    ∃ H1, l.foldl
        (fun (st : Option Heap) (i : Nat) =>
          st.bind (fun (H1 : Heap) => (pool.data.get i).map (fun (r : Ref) => H1.blank r)))
        (some H) = some H1 ∧ H1.bounds = H.bounds ∧ Heap.SameOutside pool H H1 := by
  induction l generalizing H with
  | nil => exact ⟨H, rfl, rfl, sameOutside_refl pool H⟩
  | cons i l ih =>
    have hi := hl i (List.mem_cons_self _ _)
    obtain ⟨r, hr⟩ := Option.isSome_iff_exists.mp (hf i hi)
    obtain ⟨H1, e, hb, hs⟩ := ih (fun j hj => hl j (List.mem_cons_of_mem _ hj)) (H.blank r)
    refine ⟨H1, ?_, ?_, ?_⟩
    · simp only [List.foldl_cons, Option.some_bind, hr, Option.map_some']
      exact e
    · rw [hb]
      rfl
    · exact sameOutside_trans pool _ _ _ (sameOutside_blank pool H r (pool_mem_live pool i r hi hr)) hs

/-- On a pool whose slots are filled the blanking loop of render completes and writes only
`alpha` fields of pool boxes. -/
theorem blankRest_spec (pool : DynamicBuffer) (hf : pool.Filled) (used : Nat) (H : Heap) :
    ∃ H1, blankRest pool used H = some H1 ∧ H1.bounds = H.bounds ∧
      Heap.SameOutside pool H H1 := by
  unfold blankRest
  apply blankLoop_spec pool hf
  intro i hi
  rw [List.mem_range'_1] at hi
  omega

theorem renderRegion_spec (pool : DynamicBuffer) (hf : pool.Filled) (count : Nat)
    (m : Option ℚ) (min max : Vector2) (i : Nat) (H : Heap)
    (h : i + occupied count ≤ pool.count) :
    ∃ H1, renderRegion pool count m min max (i, H) = some (i + occupied count, H1) ∧
      Heap.SameOutside pool H H1 := by
  unfold renderRegion
  by_cases hc : count > 0
  · have ho : occupied count = 1 := by simp [occupied, hc]
    rw [ho] at h ⊢
    have hi : i < pool.count := by omega
    obtain ⟨r, hr⟩ := Option.isSome_iff_exists.mp (hf i hi)
    refine ⟨H.paint r m min max, ?_, sameOutside_paint pool H r m min max
      (pool_mem_live pool i r hi hr)⟩
    simp [hc, hr]
  · have ho : occupied count = 0 := by simp [occupied, hc]
    rw [ho]
    exact ⟨H, by simp [hc], sameOutside_refl pool H⟩

theorem renderFold_spec {α : Type} (pool : DynamicBuffer)
    (f : Option (Nat × Heap) → α → Option (Nat × Heap)) (w : α → Nat) (l : List α)
    (hstep : ∀ (a : α), a ∈ l → ∀ (i : Nat) (H : Heap), i + w a ≤ pool.count →
      ∃ H1, f (some (i, H)) a = some (i + w a, H1) ∧ Heap.SameOutside pool H H1)
    (i : Nat) (H : Heap) (h : i + (l.map w).sum ≤ pool.count) :
    ∃ H1, l.foldl f (some (i, H)) = some (i + (l.map w).sum, H1) ∧
      Heap.SameOutside pool H H1 := by
  induction l generalizing i H with
  | nil => exact ⟨H, rfl, sameOutside_refl pool H⟩
  | cons a l ih =>
    simp only [List.map_cons, List.sum_cons] at h ⊢
    obtain ⟨H1, e1, s1⟩ := hstep a (List.mem_cons_self _ _) i H (by omega)
    obtain ⟨H2, e2, s2⟩ := ih (fun b hb => hstep b (List.mem_cons_of_mem _ hb)) (i + w a) H1
      (by omega)
    refine ⟨H2, ?_, sameOutside_trans pool _ _ _ s1 s2⟩
    simp only [List.foldl_cons, e1, e2]
    congr 2
    omega

/-- Grid.prototype.render completes on a pool with filled slots and at least as many boxes
as there are occupied cells, and writes only fields of pool boxes. -/
theorem Grid_render_spec (g : Grid) (pool : DynamicBuffer) (H : Heap) (hf : pool.Filled)
    (hc : g.HasCells) (hn : g.occupied ≤ pool.count) :
    ∃ H1, g.render pool H = some H1 ∧ Heap.SameOutside pool H H1 := by
  unfold Grid.render
  have hloop := renderFold_spec pool
    (fun (st : Option (Nat × Heap)) (y : Nat) =>
      (List.range g.divisionsX).foldl (Grid.renderCell g pool y) st)
    (fun (y : Nat) => ((List.range g.divisionsX).map (fun (x : Nat) => g.occupiedAt y x)).sum)
    (List.range g.divisionsY) ?_ 0 H (by simpa [Grid.occupied] using hn)
  · obtain ⟨H1, e1, s1⟩ := hloop
    obtain ⟨H2, e2, _, s2⟩ := blankRest_spec pool hf
      (0 + ((List.range g.divisionsY).map (fun (y : Nat) =>
        ((List.range g.divisionsX).map (fun (x : Nat) => g.occupiedAt y x)).sum)).sum) H1
    refine ⟨H2, ?_, sameOutside_trans pool _ _ _ s1 s2⟩
    rw [e1]
    exact e2
  · intro y hy i H0 hi
    rw [List.mem_range] at hy
    apply renderFold_spec pool (Grid.renderCell g pool y) (fun (x : Nat) => g.occupiedAt y x)
      (List.range g.divisionsX) ?_ i H0 hi
    intro x hx j H3 hj
    rw [List.mem_range] at hx
    obtain ⟨c, hcell⟩ := Option.isSome_iff_exists.mp (hc y hy x hx)
    have ho : g.occupiedAt y x = occupied c.buf.count := by
      simp [Grid.occupiedAt, hcell]
    simp only [ho] at hj ⊢
    simp only [Grid.renderCell, Option.some_bind, hcell]
    exact renderRegion_spec pool hf _ _ _ _ j H3 hj

/-- Quadnode.prototype.render completes on a pool with filled slots and enough boxes left
for the occupied nodes of the subtree, returns the advanced index, and writes only fields of
pool boxes. -/
theorem Quadnode_render_spec (pool : DynamicBuffer) (hf : pool.Filled) (n : Quadnode)
    (i : Nat) (H : Heap) (h : i + n.occupied ≤ pool.count) :
    ∃ H1, n.render pool (i, H) = some (i + n.occupied, H1) ∧ Heap.SameOutside pool H H1 := by
  induction n generalizing i H with
  | leaf box ce l data =>
    simp only [Quadnode.render, Quadnode.occupied] at h ⊢
    exact renderRegion_spec pool hf _ _ _ _ i H h
  | inner box ce l data child ih =>
    simp only [Quadnode.occupied] at h
    obtain ⟨H1, e1, s1⟩ := ih .nw i H (by omega)
    obtain ⟨H2, e2, s2⟩ := ih .ne (i + (child .nw).occupied) H1 (by omega)
    obtain ⟨H3, e3, s3⟩ := ih .se (i + (child .nw).occupied + (child .ne).occupied) H2
      (by omega)
    obtain ⟨H4, e4, s4⟩ := ih .sw
      (i + (child .nw).occupied + (child .ne).occupied + (child .se).occupied) H3 (by omega)
    obtain ⟨H5, e5, s5⟩ := renderRegion_spec pool hf data.count (Quadnode.mult l) box.min
      box.max (i + (child .nw).occupied + (child .ne).occupied + (child .se).occupied +
        (child .sw).occupied) H4 (by omega)
    refine ⟨H5, ?_, sameOutside_trans pool _ _ _ s1 (sameOutside_trans pool _ _ _ s2
      (sameOutside_trans pool _ _ _ s3 (sameOutside_trans pool _ _ _ s4 s5)))⟩
    simp only [Quadnode.render, Quadnode.occupied, e1, e2, e3, e4, e5, Option.some_bind]
    congr 2
    omega

theorem Quadtree_render_spec (t : Quadtree) (pool : DynamicBuffer) (H : Heap)
    (hf : pool.Filled) (hn : t.root.occupied ≤ pool.count) :
    ∃ H1, t.render pool H = some H1 ∧ Heap.SameOutside pool H H1 := by
  unfold Quadtree.render
  obtain ⟨H1, e1, s1⟩ := Quadnode_render_spec pool hf t.root 0 H (by omega)
  obtain ⟨H2, e2, _, s2⟩ := blankRest_spec pool hf (0 + t.root.occupied) H1
  refine ⟨H2, ?_, sameOutside_trans pool _ _ _ s1 s2⟩
  rw [e1]
  exact e2

theorem JSObject_forInOrder_sum {V : Type} (o : JSObject V) (f : Int × V → Nat) :
    ((JSObject.forInOrder o).map f).sum = (o.map f).sum := by
  have hp : (JSObject.forInOrder o).Perm o := by
    unfold JSObject.forInOrder
    exact ((List.perm_insertionSort _ _).append_right _).trans (List.filter_append_perm _ o)
  exact (hp.map f).sum_eq

theorem SpatialHash_render_spec (s : SpatialHash) (pool : DynamicBuffer) (H : Heap)
    (hf : pool.Filled) (hn : s.occupied ≤ pool.count) :
    ∃ H1, s.render pool H = some H1 ∧ Heap.SameOutside pool H H1 := by
  unfold SpatialHash.render
  have hsum : ((JSObject.forInOrder s.data).map (fun (row : Int × JSObject Cell) =>
      ((JSObject.forInOrder row.2).map
        (fun (c : Int × Cell) => occupied c.2.buf.count)).sum)).sum = s.occupied := by
    rw [JSObject_forInOrder_sum]
    unfold SpatialHash.occupied
    congr 1
    apply List.map_congr_left
    intro row _
    exact JSObject_forInOrder_sum row.2 _
  have hloop := renderFold_spec pool
    (fun (st : Option (Nat × Heap)) (row : Int × JSObject Cell) =>
      (JSObject.forInOrder row.2).foldl (SpatialHash.renderCell pool) st)
    (fun (row : Int × JSObject Cell) =>
      ((JSObject.forInOrder row.2).map (fun (c : Int × Cell) => occupied c.2.buf.count)).sum)
    (JSObject.forInOrder s.data) ?_ 0 H (by rw [hsum]; omega)
  · obtain ⟨H1, e1, s1⟩ := hloop
    obtain ⟨H2, e2, _, s2⟩ := blankRest_spec pool hf
      (0 + ((JSObject.forInOrder s.data).map (fun (row : Int × JSObject Cell) =>
        ((JSObject.forInOrder row.2).map
          (fun (c : Int × Cell) => occupied c.2.buf.count)).sum)).sum) H1
    refine ⟨H2, ?_, sameOutside_trans pool _ _ _ s1 s2⟩
    rw [e1]
    exact e2
  · intro row _ i H0 hi
    apply renderFold_spec pool (SpatialHash.renderCell pool)
      (fun (c : Int × Cell) => occupied c.2.buf.count) (JSObject.forInOrder row.2) ?_ i H0 hi
    intro c _ j H3 hj
    simp only [SpatialHash.renderCell, Option.some_bind]
    exact renderRegion_spec pool hf _ _ _ _ j H3 hj

theorem Basic_render_spec (b : Basic) (pool : DynamicBuffer) (H : Heap) (hf : pool.Filled) :
    ∃ H1, b.render pool H = some H1 ∧ H1.bounds = H.bounds ∧ Heap.SameOutside pool H H1 :=
  blankRest_spec pool hf 0 H

/-! ## Queries after render -/

theorem hit_congr (B1 B2 : Bounds) (q s : Ref) (hq : B1 q = B2 q) (hs : B1 s = B2 s) :
    hit B1 q s = hit B2 q s := by
  simp [hit, overlaps, hq, hs]

theorem Quadnode_hits_congr (B1 B2 : Bounds) (q : Ref) (n : Quadnode) (hq : B1 q = B2 q)
    (hs : ∀ s, s ∈ n.stored → B1 s = B2 s) : n.hits B1 q = n.hits B2 q := by
  induction n with
  | leaf box ce l data =>
    simp only [Quadnode.stored] at hs
    simp only [Quadnode.hits, hq]
    rw [List.filter_congr (fun s hmem => hit_congr B1 B2 q s hq (hs s hmem))]
  | inner box ce l data child ih =>
    simp only [Quadnode.stored, List.mem_append] at hs
    simp only [Quadnode.hits, hq]
    rw [List.filter_congr (fun s hmem => hit_congr B1 B2 q s hq (hs s (Or.inl hmem))),
      ih .nw (fun s hmem => hs s (Or.inr (Or.inl hmem))),
      ih .ne (fun s hmem => hs s (Or.inr (Or.inr (Or.inl hmem)))),
      ih .sw (fun s hmem => hs s (Or.inr (Or.inr (Or.inr (Or.inl hmem))))),
      ih .se (fun s hmem => hs s (Or.inr (Or.inr (Or.inr (Or.inr hmem)))))]

theorem Quadtree_live_intersects_congr (B1 B2 : Bounds) (t : Quadtree) (q : Ref)
    (res1 res2 : Option DynamicBuffer) (hq : B1 q = B2 q)
    (hs : ∀ s, s ∈ t.stored → B1 s = B2 s) :
    (Quadtree.intersects B1 t q res1).live = (Quadtree.intersects B2 t q res2).live := by
  simp only [Quadtree.stored, List.mem_append] at hs
  rw [Quadtree_live_intersects, Quadtree_live_intersects,
    List.filter_congr (fun s hmem => hit_congr B1 B2 q s hq (hs s (Or.inl hmem))),
    Quadnode_hits_congr B1 B2 q t.root hq (fun s hmem => hs s (Or.inr hmem))]

theorem Basic_live_intersects_congr (B1 B2 : Bounds) (b : Basic) (q : Ref)
    (res1 res2 : Option DynamicBuffer) (h : B1 = B2) :
    (Basic.intersects B1 b q res1).live = (Basic.intersects B2 b q res2).live := by
  subst h
  rw [Basic_live_intersects, Basic_live_intersects]

theorem Grid_cellLive_mem_stored (g : Grid) (y x : Int) (o : Ref)
    (h : o ∈ Grid.cellLive g.data y x) : o ∈ g.stored := by
  unfold Grid.cellLive at h
  cases hc : Grid.cell g.data y x with
  | none => simp [hc] at h
  | some c =>
    simp only [hc] at h
    unfold Grid.cell at hc
    split at hc
    · cases hrow : g.data[y.toNat]? with
      | none => simp [hrow] at hc
      | some row =>
        simp only [hrow] at hc
        unfold Grid.stored
        rw [List.mem_flatMap]
        refine ⟨row, List.getElem?_mem hrow, ?_⟩
        rw [List.mem_flatMap]
        exact ⟨c, List.getElem?_mem hc, h⟩
    · cases hc

theorem JSObject_mem_of_get {V : Type} (m : JSObject V) (k : Int) (v : V)
    (h : JSObject.get? m k = some v) : (k, v) ∈ m := by
  induction m with
  | nil => simp [JSObject.get?] at h
  | cons a m ih =>
    obtain ⟨k1, v1⟩ := a
    simp only [JSObject.get?] at h
    split at h
    · next hk =>
      cases h
      subst hk
      exact List.mem_cons_self _ _
    · exact List.mem_cons_of_mem _ (ih h)

theorem SpatialHash_cellLive_mem_stored (s : SpatialHash) (y x : Int) (o : Ref)
    (h : o ∈ SpatialHash.cellLive s.data y x) : o ∈ s.stored := by
  unfold SpatialHash.cellLive at h
  cases hr : JSObject.get? s.data y with
  | none => simp [hr] at h
  | some row =>
    simp only [hr] at h
    unfold SpatialHash.rowLive at h
    cases hc : JSObject.get? row x with
    | none => simp [hc] at h
    | some c =>
      simp only [hc] at h
      unfold SpatialHash.stored
      rw [List.mem_flatMap]
      refine ⟨(y, row), JSObject_mem_of_get _ _ _ hr, ?_⟩
      rw [List.mem_flatMap]
      exact ⟨(x, c), JSObject_mem_of_get _ _ _ hc, h⟩

/-- Counterexample to C16 as stated: on a world 700 by 600 the grid holds the one object 0,
`[[0,0],[50,50]]`, and the pool is the buffer holding that same box, so it is large enough
for the one occupied cell. Before render the query `[[60,60],[70,70]]` returns nothing; render
writes the corners of the cell `[[0,0],[100,100]]` to object 0, and the same query then
returns object 0. -/
theorem render_aliasing_counterexample :
    (bufferOf [0]).Filled ∧
      (Grid.reset sceneRender (Grid.init sceneRender) [0] 700 600).occupied
        ≤ (bufferOf [0]).count ∧
      (Grid.intersects sceneRender (Grid.reset sceneRender (Grid.init sceneRender) [0] 700 600)
        1 none).live = [] ∧
      (Grid.render (Grid.reset sceneRender (Grid.init sceneRender) [0] 700 600) (bufferOf [0])
        ⟨sceneRender, alpha0, color0⟩).map
        (fun (H : Heap) =>
          (H.bounds 0, (Grid.intersects H.bounds
            (Grid.reset sceneRender (Grid.init sceneRender) [0] 700 600) 1 none).live))
        = some (box 0 0 100 100, [0]) := by
  decide!

/-- C16, amended. For each strategy, every state and every visual pool whose slots below
`count` hold boxes, at least as many as there are occupied regions (for the grid: in a state
that has all its cells, as after every reset): render(pool) completes and writes no field of
any box outside the pool (and it has no write to a bucket, node buffer or overflow buffer of
the index: it returns the store of boxes only); so for every query `q` such that neither `q` nor any object held by the index is a
box of the pool, intersects(q) returns the same objects before and after render (for Basic,
whose render writes opacities only, for every `q` and every pool content). -/
theorem render_keeps_query_results (pool : DynamicBuffer) (H : Heap) (q : Ref)
    (res : Option DynamicBuffer) (b : Basic) (g : Grid) (t : Quadtree) (s : SpatialHash)
    (hf : pool.Filled) (hq : q ∉ pool.live)
    (hgc : g.HasCells) (hgn : g.occupied ≤ pool.count)
    (hgs : ∀ o, o ∈ g.stored → o ∉ pool.live)
    (htn : t.root.occupied ≤ pool.count) (hts : ∀ o, o ∈ t.stored → o ∉ pool.live)
    (hsn : s.occupied ≤ pool.count) (hss : ∀ o, o ∈ s.stored → o ∉ pool.live) :
    (∃ H1, b.render pool H = some H1 ∧ Heap.SameOutside pool H H1 ∧
        ∀ q1, (Basic.intersects H1.bounds b q1 res).live
          = (Basic.intersects H.bounds b q1 res).live) ∧
      (∃ H1, g.render pool H = some H1 ∧ Heap.SameOutside pool H H1 ∧
        (Grid.intersects H1.bounds g q res).live = (Grid.intersects H.bounds g q res).live) ∧
      (∃ H1, t.render pool H = some H1 ∧ Heap.SameOutside pool H H1 ∧
        (Quadtree.intersects H1.bounds t q res).live
          = (Quadtree.intersects H.bounds t q res).live) ∧
      (∃ H1, s.render pool H = some H1 ∧ Heap.SameOutside pool H H1 ∧
        (SpatialHash.intersects H1.bounds s q res).live
          = (SpatialHash.intersects H.bounds s q res).live) := by
  refine ⟨?_, ?_, ?_, ?_⟩
  · obtain ⟨H1, e, hb, hs⟩ := Basic_render_spec b pool H hf
    exact ⟨H1, e, hs, fun q1 => Basic_live_intersects_congr _ _ b q1 res res hb⟩
  · obtain ⟨H1, e, hs⟩ := Grid_render_spec g pool H hf hgc hgn
    refine ⟨H1, e, hs, Grid_live_intersects_congr _ _ g q res res (hs q hq).1 ?_⟩
    intro y x o ho
    exact hit_congr _ _ q o (hs q hq).1 (hs o (hgs o (Grid_cellLive_mem_stored g y x o ho))).1
  · obtain ⟨H1, e, hs⟩ := Quadtree_render_spec t pool H hf htn
    exact ⟨H1, e, hs, Quadtree_live_intersects_congr _ _ t q res res (hs q hq).1
      (fun o ho => (hs o (hts o ho)).1)⟩
  · obtain ⟨H1, e, hs⟩ := SpatialHash_render_spec s pool H hf hsn
    refine ⟨H1, e, hs, SpatialHash_live_intersects_congr _ _ s q res res (hs q hq).1 ?_⟩
    intro y x o ho
    exact hit_congr _ _ q o (hs q hq).1
      (hs o (hss o (SpatialHash_cellLive_mem_stored s y x o ho))).1

theorem render_keeps_query_results_witness :
    poolABC.Filled ∧ 0 ∉ poolABC.live ∧
      gridABC.HasCells ∧ gridABC.occupied ≤ poolABC.count ∧
      (∀ o, o ∈ gridABC.stored → o ∉ poolABC.live) ∧
      quadtreeABC.root.occupied ≤ poolABC.count ∧
      (∀ o, o ∈ quadtreeABC.stored → o ∉ poolABC.live) ∧
      hashABC.occupied ≤ poolABC.count ∧
      (∀ o, o ∈ hashABC.stored → o ∉ poolABC.live) ∧
      ((∃ H1, basicABC.render poolABC heapABC = some H1 ∧
          Heap.SameOutside poolABC heapABC H1 ∧
          ∀ q1, (Basic.intersects H1.bounds basicABC q1 none).live
            = (Basic.intersects heapABC.bounds basicABC q1 none).live) ∧
        (∃ H1, gridABC.render poolABC heapABC = some H1 ∧
          Heap.SameOutside poolABC heapABC H1 ∧
          (Grid.intersects H1.bounds gridABC 0 none).live
            = (Grid.intersects heapABC.bounds gridABC 0 none).live) ∧
        (∃ H1, quadtreeABC.render poolABC heapABC = some H1 ∧
          Heap.SameOutside poolABC heapABC H1 ∧
          (Quadtree.intersects H1.bounds quadtreeABC 0 none).live
            = (Quadtree.intersects heapABC.bounds quadtreeABC 0 none).live) ∧
        (∃ H1, hashABC.render poolABC heapABC = some H1 ∧
          Heap.SameOutside poolABC heapABC H1 ∧
          (SpatialHash.intersects H1.bounds hashABC 0 none).live
            = (SpatialHash.intersects heapABC.bounds hashABC 0 none).live)) :=
  ⟨by decide!, by decide!, by decide!, by decide!, by decide!, by decide!, by decide!,
    by decide!, by decide!,
    render_keeps_query_results poolABC heapABC 0 none basicABC gridABC quadtreeABC hashABC
      (by decide!) (by decide!) (by decide!) (by decide!) (by decide!) (by decide!)
      (by decide!) (by decide!) (by decide!)⟩

/-! ## DynamicBuffer: push, capacity and contains -/

theorem DynamicBuffer_count_push (b : DynamicBuffer) (o : Ref) :
    (b.push o).count = b.count + 1 := rfl

theorem DynamicBuffer_get_push (b : DynamicBuffer) (o : Ref) (i : Nat) :
    (b.push o).data.get i =
      if i = b.count then some o
      else if b.count = b.data.length then (if i < b.data.length then b.data.get i else none)
      else b.data.get i := by
  unfold DynamicBuffer.push
  simp only [JSArray_get_set]
  by_cases hi : i = b.count
  · simp [hi]
  · simp only [hi, if_false]
    by_cases hc : b.count = b.data.length
    · simp only [hc, if_true, JSArray_copy_get]
      rfl
    · simp only [hc, if_false]

/-- C21. DynamicBuffer.push: for every buffer with live contents `L` and every object `o`,
after push(o) the live contents are `L` followed by `o` and count has increased by 1, whether
or not the push doubled the capacity; every slot below the old count keeps its content, and
the slot at the old count holds `o`. -/
theorem dynamicbuffer_push_spec (b : DynamicBuffer) (o : Ref) :
    (b.push o).live = b.live ++ [o] ∧ (b.push o).count = b.count + 1 ∧
      (∀ i, i < b.count → (b.push o).data.get i = b.data.get i) ∧
      (b.push o).data.get b.count = some o := by
  refine ⟨DynamicBuffer.live_push b o, rfl, ?_, ?_⟩
  · intro i hi
    rw [DynamicBuffer_get_push]
    have hne : i ≠ b.count := by omega
    simp only [hne, if_false]
    split
    · next hc =>
      have : i < b.data.length := by omega
      simp [this]
    · rfl
  · rw [DynamicBuffer_get_push]
    simp

theorem DynamicBuffer_count_foldl_push (l : List Ref) (b : DynamicBuffer) :
    (l.foldl (fun d o => d.push o) b).count = b.count + l.length := by
  induction l generalizing b with
  | nil => rfl
  | cons a l ih =>
    simp only [List.foldl_cons, List.length_cons]
    rw [ih, DynamicBuffer_count_push]
    omega

theorem DynamicBuffer_removeAll_loop (l1 : List Ref) (b : DynamicBuffer) (acc : List Bool)
    (hp : b.live.Perm l1) (hc : b.count = l1.length) :
    (l1.foldl
        (fun (st : DynamicBuffer × List Bool) (o : Ref) =>
          ((st.1.remove o).1, st.2 ++ [(st.1.remove o).2]))
        (b, acc)).1.count = 0 ∧
      (l1.foldl
        (fun (st : DynamicBuffer × List Bool) (o : Ref) =>
          ((st.1.remove o).1, st.2 ++ [(st.1.remove o).2]))
        (b, acc)).2 = acc ++ List.replicate l1.length true := by
  induction l1 generalizing b acc with
  | nil => simpa using hc
  | cons a l1 ih =>
    have hmem : a ∈ b.live := hp.symm.subset (List.mem_cons_self _ _)
    have hret : (b.remove a).2 = true := (DynamicBuffer_remove_ret b a).mpr hmem
    have hlive : (b.remove a).1.live.Perm l1 := by
      rw [DynamicBuffer_live_remove]
      have := hp.erase a
      simpa using this
    have hcount : (b.remove a).1.count = l1.length := by
      rw [DynamicBuffer_count_remove, hret]
      simp only [if_true, hc, List.length_cons]
      omega
    obtain ⟨h1, h2⟩ := ih (b.remove a).1 (acc ++ [(b.remove a).2]) hlive hcount
    simp only [List.foldl_cons]
    refine ⟨h1, ?_⟩
    rw [h2, hret]
    simp [List.replicate_succ]

/-- C22. DynamicBuffer push/remove round trip: for every list of objects (repetitions
allowed), starting from a fresh buffer of any initial size, pushing all the objects and then
calling remove once for each of them, in any order, leaves count = 0, and every one of those
remove calls returns true. -/
theorem dynamicbuffer_push_remove_round_trip (initial : Nat) (l l1 : List Ref)
    (h : l1.Perm l) :
    (((l.foldl (fun d o => d.push o) (DynamicBuffer.init initial)).removeAll l1).1.count = 0) ∧
      ((l.foldl (fun d o => d.push o) (DynamicBuffer.init initial)).removeAll l1).2 =
        List.replicate l.length true := by
  have hl : (l.foldl (fun d o => d.push o) (DynamicBuffer.init initial)).live.Perm l1 := by
    rw [foldl_push_live]
    simpa using h.symm
  have hc : (l.foldl (fun d o => d.push o) (DynamicBuffer.init initial)).count = l1.length := by
    rw [DynamicBuffer_count_foldl_push, h.length_eq]
    simp [DynamicBuffer.init]
  obtain ⟨h1, h2⟩ := DynamicBuffer_removeAll_loop l1 _ [] hl hc
  refine ⟨h1, ?_⟩
  unfold DynamicBuffer.removeAll
  rw [h2, h.length_eq]
  rfl

theorem dynamicbuffer_push_remove_round_trip_witness :
    [2, 1, 1].Perm [1, 2, 1] ∧
      (((([1, 2, 1] : List Ref).foldl (fun d o => d.push o)
          (DynamicBuffer.init 0)).removeAll [2, 1, 1]).1.count = 0) ∧
      ((([1, 2, 1] : List Ref).foldl (fun d o => d.push o)
          (DynamicBuffer.init 0)).removeAll [2, 1, 1]).2 =
        List.replicate ([1, 2, 1] : List Ref).length true :=
  ⟨by decide, dynamicbuffer_push_remove_round_trip 0 [1, 2, 1] [2, 1, 1] (by decide)⟩

theorem JSArray_length_set (a : JSArray) (i : Nat) (v : Option Ref) :
    (a.set i v).length = max a.length (i + 1) := rfl

theorem JSArray_copy_length (f : Nat → Option Ref) (n : Nat) (a0 : JSArray) :
    ((List.range n).foldl (fun d i => d.set i (f i)) a0).length = max a0.length n := by
  induction n with
  | zero => simp
  | succ n ih =>
    rw [List.range_succ, List.foldl_append]
    simp only [List.foldl_cons, List.foldl_nil, JSArray_length_set]
    rw [ih]
    omega

theorem DynamicBuffer_length_push (b : DynamicBuffer) (o : Ref) :
    (b.push o).data.length =
      if b.count = b.data.length then max (b.data.length * 2) (b.count + 1)
      else max b.data.length (b.count + 1) := by
  unfold DynamicBuffer.push
  simp only [JSArray_length_set]
  split
  · rw [JSArray_copy_length]
    simp only [JSArray.new]
    omega
  · rfl

theorem DynamicBuffer_removeLoop_length (obj : Ref) (data : JSArray) (removed : Bool) (n : Nat)
    (hn : n ≤ data.length) :
    ((List.range n).foldl (DynamicBuffer.removeStep obj) (data, removed)).1.length
      = data.length := by
  induction n with
  | zero => simp
  | succ n ih =>
    rw [List.range_succ, List.foldl_append]
    simp only [List.foldl_cons, List.foldl_nil]
    have h := ih (by omega)
    generalize (List.range n).foldl (DynamicBuffer.removeStep obj) (data, removed) = st at h
    unfold DynamicBuffer.removeStep
    split
    · simp only [JSArray_length_set]
      rw [h]
      omega
    · split <;> exact h

theorem DynamicBuffer_length_remove (b : DynamicBuffer) (o : Ref)
    (h : b.count ≤ b.data.length) : (b.remove o).1.data.length = b.data.length := by
  unfold DynamicBuffer.remove
  exact DynamicBuffer_removeLoop_length o b.data false b.count h

theorem DynamicBuffer_reachable_inv (b : DynamicBuffer) (h : b.Reachable) :
    b.count ≤ b.data.length ∧ 8 ≤ b.data.length := by
  induction h with
  | init initial =>
    simp only [DynamicBuffer.init, JSArray.new]
    split <;> omega
  | push b o _ ih =>
    rw [DynamicBuffer_length_push, DynamicBuffer_count_push]
    split <;> omega
  | remove b o _ ih =>
    rw [DynamicBuffer_length_remove b o ih.1, DynamicBuffer_count_remove]
    split <;> omega
  | clear b _ ih =>
    simp only [DynamicBuffer.clear]
    omega

/-- C23. DynamicBuffer capacity invariant: a buffer created by init(initial) has capacity
max(initial, 8), at least 8, and count 0; in every state reached from init by push, remove and
clear (contains changes nothing), count is at most the capacity and the capacity is at least
8; a push changes the capacity if and only if count equalled capacity before it, and then to
exactly twice the old capacity; remove and clear do not change the capacity. -/
theorem dynamicbuffer_capacity_invariant (b : DynamicBuffer) (h : b.Reachable)
    (initial : Nat) (o : Ref) :
    ((DynamicBuffer.init initial).data.length = max initial 8 ∧
        8 ≤ (DynamicBuffer.init initial).data.length ∧ (DynamicBuffer.init initial).count = 0) ∧
      (b.count ≤ b.data.length ∧ 8 ≤ b.data.length) ∧
      ((b.push o).data.length ≠ b.data.length ↔ b.count = b.data.length) ∧
      (b.count = b.data.length → (b.push o).data.length = 2 * b.data.length) ∧
      (b.remove o).1.data.length = b.data.length ∧
      b.clear.data.length = b.data.length := by
  obtain ⟨h1, h2⟩ := DynamicBuffer_reachable_inv b h
  refine ⟨⟨?_, ?_, rfl⟩, ⟨h1, h2⟩, ?_, ?_, DynamicBuffer_length_remove b o h1, rfl⟩
  · simp only [DynamicBuffer.init, JSArray.new]
    split <;> omega
  · simp only [DynamicBuffer.init, JSArray.new]
    split <;> omega
  · rw [DynamicBuffer_length_push]
    split <;> omega
  · intro hc
    rw [DynamicBuffer_length_push]
    simp only [hc, if_true]
    omega

theorem dynamicbuffer_capacity_invariant_witness :
    (bufferOf [0, 1, 2, 3, 4, 5, 6, 7]).Reachable ∧
      ((DynamicBuffer.init 20).data.length = max 20 8 ∧
        8 ≤ (DynamicBuffer.init 20).data.length ∧ (DynamicBuffer.init 20).count = 0) ∧
      ((bufferOf [0, 1, 2, 3, 4, 5, 6, 7]).count ≤ (bufferOf [0, 1, 2, 3, 4, 5, 6, 7]).data.length ∧
        8 ≤ (bufferOf [0, 1, 2, 3, 4, 5, 6, 7]).data.length) ∧
      (((bufferOf [0, 1, 2, 3, 4, 5, 6, 7]).push 8).data.length
          ≠ (bufferOf [0, 1, 2, 3, 4, 5, 6, 7]).data.length ↔
        (bufferOf [0, 1, 2, 3, 4, 5, 6, 7]).count
          = (bufferOf [0, 1, 2, 3, 4, 5, 6, 7]).data.length) ∧
      ((bufferOf [0, 1, 2, 3, 4, 5, 6, 7]).count = (bufferOf [0, 1, 2, 3, 4, 5, 6, 7]).data.length →
        ((bufferOf [0, 1, 2, 3, 4, 5, 6, 7]).push 8).data.length
          = 2 * (bufferOf [0, 1, 2, 3, 4, 5, 6, 7]).data.length) ∧
      ((bufferOf [0, 1, 2, 3, 4, 5, 6, 7]).remove 8).1.data.length
        = (bufferOf [0, 1, 2, 3, 4, 5, 6, 7]).data.length ∧
      (bufferOf [0, 1, 2, 3, 4, 5, 6, 7]).clear.data.length
        = (bufferOf [0, 1, 2, 3, 4, 5, 6, 7]).data.length :=
  have hr : (bufferOf [0, 1, 2, 3, 4, 5, 6, 7]).Reachable :=
    DynamicBuffer.Reachable.push _ 7 (DynamicBuffer.Reachable.push _ 6
      (DynamicBuffer.Reachable.push _ 5 (DynamicBuffer.Reachable.push _ 4
        (DynamicBuffer.Reachable.push _ 3 (DynamicBuffer.Reachable.push _ 2
          (DynamicBuffer.Reachable.push _ 1 (DynamicBuffer.Reachable.push _ 0
            (DynamicBuffer.Reachable.init 0))))))))
  ⟨hr, dynamicbuffer_capacity_invariant _ hr 20 8⟩

/-- C24. DynamicBuffer.contains ignores slots beyond count: contains(o) is true if and only if
`o` occurs among the first `count` slots; and after any sequence of pushes (onto any buffer)
followed by clear(), contains(x) is false for every pushed `x` although a slot of the storage
still holds `x`. -/
theorem dynamicbuffer_contains_spec (b : DynamicBuffer) (o : Ref) (l : List Ref) (x : Ref)
    (hx : x ∈ l) :
    (b.contains o = true ↔ ∃ i, i < b.count ∧ b.data.get i = some o) ∧
      (l.foldl (fun d o => d.push o) b).clear.contains x = false ∧
      ∃ i, (l.foldl (fun d o => d.push o) b).clear.data.get i = some x := by
  refine ⟨?_, ?_, ?_⟩
  · rw [DynamicBuffer_contains_iff]
    unfold DynamicBuffer.live
    exact mem_filterMap_range _ _ _
  · have h : ¬ ((l.foldl (fun d o => d.push o) b).clear.contains x = true) := by
      rw [DynamicBuffer_contains_iff]
      simp
    simpa using h
  · have hm : x ∈ (l.foldl (fun d o => d.push o) b).live := by
      rw [foldl_push_live]
      exact List.mem_append_right _ hx
    unfold DynamicBuffer.live at hm
    rw [mem_filterMap_range] at hm
    obtain ⟨i, _, hi⟩ := hm
    exact ⟨i, hi⟩

theorem dynamicbuffer_contains_spec_witness :
    2 ∈ ([1, 2] : List Ref) ∧
      ((bufferOf [5]).contains 5 = true ↔
        ∃ i, i < (bufferOf [5]).count ∧ (bufferOf [5]).data.get i = some 5) ∧
      (([1, 2] : List Ref).foldl (fun d o => d.push o) (bufferOf [5])).clear.contains 2 = false ∧
      ∃ i, (([1, 2] : List Ref).foldl (fun d o => d.push o)
        (bufferOf [5])).clear.data.get i = some 2 :=
  ⟨by decide, dynamicbuffer_contains_spec (bufferOf [5]) 5 [1, 2] 2 (by decide)⟩

/-! ## Basic: insert and remove -/

theorem Basic_run_eq (s : Basic) (calls : List BasicCall) : s.run calls = s := by
  unfold Basic.run
  induction calls with
  | nil => rfl
  | cons c calls ih =>
    simp only [List.foldl_cons]
    cases c <;> exact ih

/-- C25. Brute-force insert and remove are no-ops: for every Basic state and every object `o`,
Basic.insert(o) and Basic.remove(o) leave the state (the stored buffer) unchanged, so for every
query `q` Basic.intersects(q) returns the same buffer before and after the call; after
reset(objs) followed by any sequence of insert and remove calls the result holds exactly the
objects of `objs` that pass the test against `q`, in order, and after clear() followed by any
such sequence the result is empty. -/
theorem basic_insert_remove_noop (B : Bounds) (s : Basic) (o q : Ref)
    (res : Option DynamicBuffer) (objs : List Ref) (calls : List BasicCall) :
    ((Basic.insert s o).state = s ∧ (Basic.remove s o).state = s) ∧
      (Basic.intersects B (Basic.insert s o).state q res = Basic.intersects B s q res ∧
        Basic.intersects B (Basic.remove s o).state q res = Basic.intersects B s q res) ∧
      (Basic.intersects B ((Basic.reset s objs).run calls) q res).live
        = objs.filter (hit B q) ∧
      (Basic.intersects B (s.clear.run calls) q res).live = [] := by
  refine ⟨⟨rfl, rfl⟩, ⟨rfl, rfl⟩, ?_, ?_⟩
  · rw [Basic_run_eq, Basic_live_intersects, Basic_live_reset]
  · rw [Basic_run_eq, Basic_live_intersects]
    simp [Basic.clear]

/-! ## Center-routed insertion -/

theorem route_eq_chosenChild (oc nc : Vector2) : Quadnode.route oc nc = chosenChild oc nc := by
  unfold Quadnode.route chosenChild
  by_cases hy : oc.y ≤ nc.y <;> by_cases hx : oc.x ≤ nc.x <;> simp [hy, hx]

theorem Quadnode_insert_eq_pushAt (B : Bounds) (o : Ref) (n : Quadnode) (A : Alpha)
    (h : n.box.containsBox (B o) = true) :
    (Quadnode.insert B o (B o).center n A).2.1 = Quadnode.pushAt o (n.descent B o) n := by
  induction n generalizing A with
  | leaf box ce l data =>
    unfold Quadnode.box at h
    unfold Quadnode.insert
    simp only [h, if_true]
    rfl
  | inner box ce l data child ih =>
    unfold Quadnode.box at h
    unfold Quadnode.insert
    simp only [h, if_true, route_eq_chosenChild]
    by_cases hc : (child (chosenChild (B o).center ce)).box.containsBox (B o) = true
    · have hr : (Quadnode.insert B o (B o).center (child (chosenChild (B o).center ce)) A).1
          = true := by
        rw [Quadnode_insert_ret]
        exact hc
      simp only [hr, if_true, Quadnode.descent, hc, Quadnode.pushAt]
      rw [ih _ A hc]
    · have hf : (child (chosenChild (B o).center ce)).box.containsBox (B o) = false := by
        simpa using hc
      rw [Quadnode_insert_of_not B o _ _ A hf]
      simp only [Bool.false_eq_true, if_false, Function.update_eq_self, Quadnode.descent, hf,
        Quadnode.pushAt]

/-- C26. Quadtree center-routed insertion: for every tree state and every box `o` fully
contained in the root box, Quadtree.insert(o) appends `o` to the data buffer of exactly one
node and changes no other node and not the overflow buffer; that node is the last node of the
path from the root on which, at each node that is not a leaf, the child is chosen by comparing
the center of `o` with the center of the node (north pair for `center.y <= node center.y`,
west child for `center.x <= node center.x`) and the descent continues only while the box of
the chosen child fully contains `o`; and Quadnode.insert returns true if and only if the box
of the node contains `o`. -/
theorem quadtree_center_routed_insert (B : Bounds) (t : Quadtree) (o : Ref) (A : Alpha)
    (h : t.root.box.containsBox (B o) = true) :
    (Quadtree.insert B t o A).state.1.root = Quadnode.pushAt o (t.root.descent B o) t.root ∧
      (Quadtree.insert B t o A).state.1.data = t.data ∧
      ∀ (n : Quadnode) (c : Vector2) (A1 : Alpha),
        (Quadnode.insert B o c n A1).1 = true ↔ n.box.containsBox (B o) = true := by
  have hr : (t.root.insert B o (B o).center A).1 = true := by
    rw [Quadnode_insert_ret]
    exact h
  refine ⟨?_, ?_, ?_⟩
  · rw [Quadtree_root_insert]
    exact Quadnode_insert_eq_pushAt B o t.root A h
  · unfold Quadtree.insert
    simp only [hr, Bool.not_true, Bool.false_eq_true, if_false]
  · intro n c A1
    rw [Quadnode_insert_ret]

theorem quadtree_center_routed_insert_witness :
    quadtreeABC.root.descent sceneABC 1 = [Quadrant.nw, Quadrant.nw] ∧
      quadtreeABC.root.box.containsBox (sceneABC 1) = true ∧
      (Quadtree.insert sceneABC quadtreeABC 1 alpha0).state.1.root
        = Quadnode.pushAt 1 (quadtreeABC.root.descent sceneABC 1) quadtreeABC.root ∧
      (Quadtree.insert sceneABC quadtreeABC 1 alpha0).state.1.data = quadtreeABC.data ∧
      ∀ (n : Quadnode) (c : Vector2) (A1 : Alpha),
        (Quadnode.insert sceneABC 1 c n A1).1 = true ↔ n.box.containsBox (sceneABC 1) = true :=
  ⟨by decide!, by decide!,
    quadtree_center_routed_insert sceneABC quadtreeABC 1 alpha0 (by decide!)⟩

/-! ## Grid lookups -/

theorem Grid_isSome_cell_foldl_insert (B : Bounds) (objs : List Ref) (g : Grid) (y x : Int) :
    (Grid.cell (objs.foldl (Grid.insert B) g).data y x).isSome = (Grid.cell g.data y x).isSome := by
  induction objs generalizing g with
  | nil => rfl
  | cons o objs ih =>
    simp only [List.foldl_cons]
    rw [ih, Grid_isSome_cell_insert]

theorem Grid_divisions_foldl_insert (B : Bounds) (objs : List Ref) (g : Grid) :
    (objs.foldl (Grid.insert B) g).divisionsX = g.divisionsX ∧
      (objs.foldl (Grid.insert B) g).divisionsY = g.divisionsY := by
  induction objs generalizing g with
  | nil => exact ⟨rfl, rfl⟩
  | cons o objs ih =>
    simp only [List.foldl_cons]
    rw [(ih _).1, (ih _).2]
    exact ⟨rfl, rfl⟩

theorem Grid_divisions_reset (B : Bounds) (g : Grid) (objs : List Ref) (w h : ℚ) :
    (Grid.reset B g objs w h).divisionsX = g.divisionsX ∧
      (Grid.reset B g objs w h).divisionsY = g.divisionsY := by
  unfold Grid.reset
  rw [(Grid_divisions_foldl_insert B objs _).1, (Grid_divisions_foldl_insert B objs _).2]
  exact ⟨rfl, rfl⟩

/-- C29. Grid cell indexing is always in range: for every grid built by reset(objs, w, h) with
w, h > 0 and every box with arbitrary coordinates, every pair (row `y`, column `x`) that the
loops of Grid.insert, Grid.remove and Grid.intersects run through (the rows `yMin..yMax` and
columns `xMin..xMax` of the bounded cell range of the box) satisfies `0 <= y < rows` and
`0 <= x < columns`, and the grid has a cell at that row and column. -/
theorem grid_lookups_in_range (B : Bounds) (g : Grid) (objs : List Ref) (w h : ℚ) (o : Ref)
    (_hw : 0 < w) (_hh : 0 < h) (y x : Int)
    (hy : y ∈ intRange ((Grid.reset B g objs w h).range (B o)).yMin
      ((Grid.reset B g objs w h).range (B o)).yMax)
    (hx : x ∈ intRange ((Grid.reset B g objs w h).range (B o)).xMin
      ((Grid.reset B g objs w h).range (B o)).xMax) :
    (0 ≤ y ∧ y < ((Grid.reset B g objs w h).divisionsY : Int)) ∧
      (0 ≤ x ∧ x < ((Grid.reset B g objs w h).divisionsX : Int)) ∧
      (Grid.cell (Grid.reset B g objs w h).data y x).isSome = true := by
  rw [mem_intRange] at hy hx
  obtain ⟨b1, b2, b3, b4⟩ := Grid_range_bounds (Grid.reset B g objs w h) (B o)
  have hY : 0 ≤ y ∧ y < ((Grid.reset B g objs w h).divisionsY : Int) := ⟨by omega, by omega⟩
  have hX : 0 ≤ x ∧ x < ((Grid.reset B g objs w h).divisionsX : Int) := ⟨by omega, by omega⟩
  refine ⟨hY, hX, ?_⟩
  rw [(Grid_divisions_reset B g objs w h).1] at hX
  rw [(Grid_divisions_reset B g objs w h).2] at hY
  unfold Grid.reset
  rw [Grid_isSome_cell_foldl_insert, Grid_isSome_cell_rebuild]
  exact ⟨hY, hX⟩

theorem grid_lookups_in_range_witness :
    (0 : ℚ) < 700 ∧ (0 : ℚ) < 600 ∧
      (0 : Int) ∈ intRange ((Grid.reset sceneBoundary (Grid.init sceneBoundary) [0] 700
          600).range (sceneBoundary 0)).yMin
        ((Grid.reset sceneBoundary (Grid.init sceneBoundary) [0] 700 600).range
          (sceneBoundary 0)).yMax ∧
      (1 : Int) ∈ intRange ((Grid.reset sceneBoundary (Grid.init sceneBoundary) [0] 700
          600).range (sceneBoundary 0)).xMin
        ((Grid.reset sceneBoundary (Grid.init sceneBoundary) [0] 700 600).range
          (sceneBoundary 0)).xMax ∧
      ((0 : Int) ≤ 0 ∧
        (0 : Int) < ((Grid.reset sceneBoundary (Grid.init sceneBoundary) [0] 700
          600).divisionsY : Int)) ∧
      ((0 : Int) ≤ 1 ∧
        (1 : Int) < ((Grid.reset sceneBoundary (Grid.init sceneBoundary) [0] 700
          600).divisionsX : Int)) ∧
      (Grid.cell (Grid.reset sceneBoundary (Grid.init sceneBoundary) [0] 700 600).data 0 1).isSome
        = true :=
  ⟨by norm_num, by norm_num, by decide!, by decide!,
    grid_lookups_in_range sceneBoundary (Grid.init sceneBoundary) [0] 700 600 0
      (by norm_num) (by norm_num) 0 1 (by decide!) (by decide!)⟩

/-! ## Each match once -/

/-- C30. Quadtree returns each match exactly once when objects are inserted once: for every
world size, every list objs of pairwise-distinct well-formed boxes and every query `q`, after
Quadtree.reset(objs, w, h) each object of objs that passes the overlap test with `q` and is
not `q` occurs exactly once in the live contents of Quadtree.intersects(q), and every object
of objs is held exactly once in the tree (in one node buffer or in the overflow buffer). -/
theorem quadtree_each_match_once (B : Bounds) (t : Quadtree) (objs : List Ref) (w h : ℚ)
    (A : Alpha) (q : Ref) (res : Option DynamicBuffer) (s : Ref)
    (hnd : objs.Nodup) (hwf : ∀ o, o ∈ objs → (B o).WellFormed) (hs : s ∈ objs)
    (hne : s ≠ q) (ho : overlaps B q s = true) :
    (Quadtree.intersects B (Quadtree.reset B t objs w h A).1 q res).live.count s = 1 ∧
      (Quadtree.reset B t objs w h A).1.stored.count s = 1 := by
  have hp := Quadtree_reset_stored B t objs w h A
  have hsn : (Quadtree.reset B t objs w h A).1.stored.Nodup := hp.nodup_iff.mpr hnd
  have hst : s ∈ (Quadtree.reset B t objs w h A).1.stored := hp.symm.subset hs
  have hln : (Quadtree.intersects B (Quadtree.reset B t objs w h A).1 q res).live.Nodup :=
    (Quadtree_intersects_sublist B _ q res).nodup (hsn.filter _)
  have hhit : hit B q s = true := by
    simp [hit, ho, Ne.symm hne]
  have hmem : s ∈ (Quadtree.intersects B (Quadtree.reset B t objs w h A).1 q res).live :=
    (Quadtree_mem_intersects B _ q res (Quadtree_reset_fits B t objs w h A)
      (fun r hr => hwf r (hp.subset hr)) s).mpr ⟨hst, hhit⟩
  exact ⟨List.count_eq_one_of_mem hln hmem, List.count_eq_one_of_mem hsn hst⟩

theorem quadtree_each_match_once_witness :
    ([0, 1, 2] : List Ref).Nodup ∧ (∀ o, o ∈ ([0, 1, 2] : List Ref) → (sceneABC o).WellFormed) ∧
      (1 : Ref) ∈ ([0, 1, 2] : List Ref) ∧ (1 : Ref) ≠ 0 ∧ overlaps sceneABC 0 1 = true ∧
      (Quadtree.intersects sceneABC
        (Quadtree.reset sceneABC (Quadtree.init sceneABC alpha0) [0, 1, 2] 700 600 alpha0).1
        0 none).live.count 1 = 1 ∧
      (Quadtree.reset sceneABC (Quadtree.init sceneABC alpha0) [0, 1, 2] 700 600
        alpha0).1.stored.count 1 = 1 :=
  ⟨by decide, by decide!, by decide, by decide, by decide!,
    quadtree_each_match_once sceneABC (Quadtree.init sceneABC alpha0) [0, 1, 2] 700 600 alpha0
      0 none 1 (by decide) (by decide!) (by decide) (by decide) (by decide!)⟩

/-! ## Grid against brute force -/

theorem axis_common (amn amx bmn bmx d : Int) (h1 : amn ≤ amx) (h2 : bmn ≤ bmx)
    (h3 : amn ≤ bmx) (h4 : bmn ≤ amx) (h5 : amn < d) (h6 : bmn < d) :
    ∃ x, (amn ≤ x ∧ x ≤ min amx (d - 1)) ∧ (bmn ≤ x ∧ x ≤ min bmx (d - 1)) := by
  refine ⟨max amn bmn, ⟨le_max_left _ _, ?_⟩, ⟨le_max_right _ _, ?_⟩⟩
  · exact le_min (max_le h1 h4) (max_le (by omega) (by omega))
  · exact le_min (max_le h3 h2) (max_le (by omega) (by omega))

theorem Grid_range_startsInside (g : Grid) (w h : ℚ) (b : Box2)
    (hsx : 0 ≤ g.sizeX) (hsy : 0 ≤ g.sizeY) (hb : g.StartsInside w h b) :
    g.range b =
        ⟨truncDiv b.min.x g.sizeX, truncDiv b.min.y g.sizeY,
          min (truncDiv b.max.x g.sizeX) ((g.divisionsX : Int) - 1),
          min (truncDiv b.max.y g.sizeY) ((g.divisionsY : Int) - 1)⟩ ∧
      truncDiv b.min.x g.sizeX ≤ truncDiv b.max.x g.sizeX ∧
      truncDiv b.min.y g.sizeY ≤ truncDiv b.max.y g.sizeY := by
  obtain ⟨⟨wx, wy⟩, ⟨x0, _⟩, ⟨y0, _⟩, _, rx, ry⟩ := hb
  obtain ⟨a1, a2, _⟩ := truncDiv_mono b.min.x b.max.x g.sizeX x0 wx hsx rx
  obtain ⟨c1, c2, _⟩ := truncDiv_mono b.min.y b.max.y g.sizeY y0 wy hsy ry
  refine ⟨?_, a2, c2⟩
  unfold Grid.range
  simp only [CellRange.mk.injEq]
  refine ⟨?_, ?_, ?_, ?_⟩
  · split <;> omega
  · split <;> omega
  · split <;> omega
  · split <;> omega

theorem Grid_common_cell (g : Grid) (w h : ℚ) (a b : Box2)
    (hsx : 0 ≤ g.sizeX) (hsy : 0 ≤ g.sizeY)
    (ha : g.StartsInside w h a) (hb : g.StartsInside w h b)
    (hm : a.min.x ≤ b.max.x ∧ b.min.x ≤ a.max.x ∧ a.min.y ≤ b.max.y ∧ b.min.y ≤ a.max.y) :
    ∃ y x, (((g.range a).yMin ≤ y ∧ y ≤ (g.range a).yMax) ∧
        ((g.range a).xMin ≤ x ∧ x ≤ (g.range a).xMax)) ∧
      (((g.range b).yMin ≤ y ∧ y ≤ (g.range b).yMax) ∧
        ((g.range b).xMin ≤ x ∧ x ≤ (g.range b).xMax)) := by
  obtain ⟨ea, axm, aym⟩ := Grid_range_startsInside g w h a hsx hsy ha
  obtain ⟨eb, bxm, bym⟩ := Grid_range_startsInside g w h b hsx hsy hb
  obtain ⟨_, ⟨ax0, _⟩, ⟨ay0, _⟩, ⟨ax, ay⟩, arx, ary⟩ := ha
  obtain ⟨_, ⟨bx0, _⟩, ⟨by0, _⟩, ⟨bx, byd⟩, brx, bry⟩ := hb
  obtain ⟨m1, m2, m3, m4⟩ := hm
  have cx1 := (truncDiv_mono a.min.x b.max.x g.sizeX ax0 m1 hsx brx).2.1
  have cx2 := (truncDiv_mono b.min.x a.max.x g.sizeX bx0 m2 hsx arx).2.1
  have cy1 := (truncDiv_mono a.min.y b.max.y g.sizeY ay0 m3 hsy bry).2.1
  have cy2 := (truncDiv_mono b.min.y a.max.y g.sizeY by0 m4 hsy ary).2.1
  obtain ⟨x, hxa, hxb⟩ := axis_common _ _ _ _ (g.divisionsX : Int) axm bxm cx1 cx2 ax bx
  obtain ⟨y, hya, hyb⟩ := axis_common _ _ _ _ (g.divisionsY : Int) aym bym cy1 cy2 ay byd
  refine ⟨y, x, ?_, ?_⟩
  · rw [ea]
    exact ⟨hya, hxa⟩
  · rw [eb]
    exact ⟨hyb, hxb⟩

/-- Counterexample to C28 as stated, in two parts. The wrap: world 700 by 600 (cells 100 by
100), objs is the one well-formed box s = `[[0,0],[236223201280,10]]`, which starts inside the
world and extends past its maximum edge, and q = `[[5,5],[6,6]]`; the brute-force result for q
holds s; the grid computes `xMax = ~~(2362232012.8)`, a negative number after the wrap to 32
bits, stores s in no cell and returns nothing for q. The rounding: world 1000 by 1000 (6 rows,
`sizeY` the double 166.66666666666666), objs is the one well-formed box
s = `[[10,y1],[20,1005]]` with `y1 = 999.9999999999999 < 1000` and q = `[[0,990],[30,1010]]`;
the brute-force result for q holds s; the quotient `y1 / sizeY` rounds to the double 6, so
`yMin = 6`, which is not bounded from above, and `yMax` is bounded to 5: s is stored in no
cell and the grid returns nothing for q. -/
theorem grid_in_world_counterexample :
    (([0] : List Ref).Nodup ∧ (sceneWide 0).WellFormed ∧ (sceneWide 1).WellFormed ∧
      (0 ≤ (sceneWide 0).min.x ∧ (sceneWide 0).min.x < 700 ∧
        0 ≤ (sceneWide 0).min.y ∧ (sceneWide 0).min.y < 600) ∧
      (0 ≤ (sceneWide 1).min.x ∧ (sceneWide 1).min.x < 700 ∧
        0 ≤ (sceneWide 1).min.y ∧ (sceneWide 1).min.y < 600) ∧
      0 ∈ (Basic.intersects sceneWide (Basic.reset Basic.init [0]) 1 none).live ∧
      0 ∉ (Grid.intersects sceneWide
            (Grid.reset sceneWide (Grid.init sceneWide) [0] 700 600) 1 none).live) ∧
    (([1] : List Ref).Nodup ∧ (sceneRounding 1).WellFormed ∧ (sceneRounding 2).WellFormed ∧
      (0 ≤ (sceneRounding 1).min.x ∧ (sceneRounding 1).min.x < 1000 ∧
        0 ≤ (sceneRounding 1).min.y ∧ (sceneRounding 1).min.y < 1000) ∧
      (0 ≤ (sceneRounding 2).min.x ∧ (sceneRounding 2).min.x < 1000 ∧
        0 ≤ (sceneRounding 2).min.y ∧ (sceneRounding 2).min.y < 1000) ∧
      (sceneRounding 1).max.x / (1000 / 7) < 2147483648 ∧
      (sceneRounding 1).max.y / (1000 / 6) < 2147483648 ∧
      1 ∈ (Basic.intersects sceneRounding (Basic.reset Basic.init [1]) 2 none).live ∧
      1 ∉ (Grid.intersects sceneRounding
            (Grid.reset sceneRounding (Grid.init sceneRounding) [1] 1000 1000) 2 none).live ∧
      ((Grid.reset sceneRounding (Grid.init sceneRounding) [1] 1000 1000).range
          (sceneRounding 1)).yMin = 6 ∧
      ((Grid.reset sceneRounding (Grid.init sceneRounding) [1] 1000 1000).range
          (sceneRounding 1)).yMax = 5) := by
  decide!

/-- C28, amended. Grid agrees with brute force for populations that start inside the grid and
whose cell quotients do not wrap: for every world size (w, h) with w, h > 0 (and the 7 columns
and 6 rows set by init, or any other counts), every list objs of pairwise-distinct well-formed
boxes and every well-formed query q, all with `0 <= min.x < w`, `0 <= min.y < h`, with the
column `~~(min.x / sizeX)` and the row `~~(min.y / sizeY)` the code computes in doubles below
the column and row counts, and with the rounded quotients `max.x / sizeX`, `max.y / sizeY`
below `2^31`, the objects returned by Grid.intersects(q) after Grid.reset(objs, w, h) are the
objects returned by Basic.intersects(q) after Basic.reset(objs): the `s` in objs not identical
to `q` that pass the overlap test with `q`; boxes may extend past the maximum edge of the
world. -/
theorem grid_agrees_with_basic_in_grid (B : Bounds) (g : Grid) (b : Basic)
    (objs : List Ref) (w h : ℚ) (q : Ref)
    (hw : 0 < w) (hh : 0 < h) (_hd : objs.Nodup)
    (ho : ∀ o, o ∈ objs → (Grid.reset B g [] w h).StartsInside w h (B o))
    (hq : (Grid.reset B g [] w h).StartsInside w h (B q))
    (r : Ref) :
    (r ∈ (Grid.intersects B (Grid.reset B g objs w h) q none).live ↔
        r ∈ (Basic.intersects B (Basic.reset b objs) q none).live) ∧
      (r ∈ (Basic.intersects B (Basic.reset b objs) q none).live ↔
        r ∈ objs ∧ r ≠ q ∧
          ((B q).isIntersectionBox (B r) || (B q).containsBox (B r) ||
            (B r).containsBox (B q)) = true) := by
  have hbasic := Basic_mem_intersects_reset B b objs q none r
  refine ⟨?_, ?_⟩
  · rw [hbasic, Grid_mem_intersects]
    have hrange : ∀ bx : Box2, (Grid.reset B g objs w h).range bx = (g.rebuild w h).range bx := by
      intro bx
      unfold Grid.reset
      exact Grid_range_foldl_insert B objs _ bx
    constructor
    · rintro ⟨hh, y, x, _, _, hc⟩
      rw [Grid_mem_cellLive_reset] at hc
      exact ⟨hc.1, hh⟩
    · rintro ⟨hm, hh1⟩
      refine ⟨hh1, ?_⟩
      have hov : overlaps B q r = true := by
        have := hh1
        simp only [hit, Bool.and_eq_true] at this
        exact this.2
      have hmeet := overlaps_meet B q r hq.1 (ho r hm).1 hov
      obtain ⟨hsx, hsy⟩ := Grid_sizes_rebuild g w h (le_of_lt hw) (le_of_lt hh)
      have hq1 := hq
      have ho1 := ho r hm
      rw [Grid_reset_nil] at hq1 ho1
      obtain ⟨y, x, ⟨hy1, hx1⟩, ⟨hy2, hx2⟩⟩ :=
        Grid_common_cell (g.rebuild w h) w h (B q) (B r) hsx hsy hq1 ho1 hmeet
      refine ⟨y, x, ?_, ?_, ?_⟩
      · rw [hrange]; exact hy1
      · rw [hrange]; exact hx1
      · rw [Grid_mem_cellLive_reset, hrange]
        exact ⟨hm, hy2, hx2⟩
  · rw [hbasic, hit_iff_test]

theorem grid_agrees_with_basic_in_grid_witness :
    (0 : ℚ) < 700 ∧ (0 : ℚ) < 600 ∧ ([0, 1] : List Ref).Nodup ∧
      (∀ o, o ∈ ([0, 1] : List Ref) →
        (Grid.reset sceneABC (Grid.init sceneABC) [] 700 600).StartsInside 700 600
          (sceneABC o)) ∧
      (Grid.reset sceneABC (Grid.init sceneABC) [] 700 600).StartsInside 700 600 (sceneABC 0) ∧
      ((1 ∈ (Grid.intersects sceneABC
            (Grid.reset sceneABC (Grid.init sceneABC) [0, 1] 700 600) 0 none).live ↔
          1 ∈ (Basic.intersects sceneABC (Basic.reset Basic.init [0, 1]) 0 none).live) ∧
        (1 ∈ (Basic.intersects sceneABC (Basic.reset Basic.init [0, 1]) 0 none).live ↔
          1 ∈ ([0, 1] : List Ref) ∧ (1 : Ref) ≠ 0 ∧
            ((sceneABC 0).isIntersectionBox (sceneABC 1) ||
              (sceneABC 0).containsBox (sceneABC 1) ||
              (sceneABC 1).containsBox (sceneABC 0)) = true)) :=
  ⟨by norm_num, by norm_num, by decide, by decide!, by decide!,
    grid_agrees_with_basic_in_grid sceneABC (Grid.init sceneABC) Basic.init [0, 1] 700 600 0
      (by norm_num) (by norm_num) (by decide) (by decide!) (by decide!) 1⟩

/-! ## Slot accounting of the quadtree render -/

theorem Quadnode_regions_length (n : Quadnode) : n.regions.length = n.occupied := by
  induction n with
  | leaf box ce l data =>
    simp only [Quadnode.regions, Quadnode.occupied, occupied]
    split <;> rfl
  | inner box ce l data child ih =>
    simp only [Quadnode.regions, Quadnode.occupied, occupied, List.length_append, ih]
    split <;> rfl

theorem paints_region (pool : DynamicBuffer) (hf : pool.Filled) (count : Nat) (m : Option ℚ)
    (box : Box2) :
    Paints pool (renderRegion pool count m box.min box.max)
      (if count > 0 then [box] else []) := by
  intro i H hi
  by_cases hc : count > 0
  · simp only [hc, if_true, List.length_singleton] at hi ⊢
    have hlt : i < pool.count := by omega
    obtain ⟨r, hr⟩ := Option.isSome_iff_exists.mp (hf i hlt)
    refine ⟨H.paint r m box.min box.max, ?_, ?_, ?_⟩
    · simp [renderRegion, hc, hr]
    · intro k r1 hk hget
      have hk0 : k = 0 := by omega
      subst hk0
      rw [Nat.add_zero, hr] at hget
      cases hget
      simp [Heap.paint, Alpha.set, Box2.set]
    · intro r1 hne
      have h0 := hne 0 (by omega)
      rw [Nat.add_zero, hr] at h0
      have hr1 : r1 ≠ r := fun h => h0 (by rw [h])
      simp [Heap.paint, Alpha.set, hr1]
  · simp only [hc, if_false, List.length_nil, Nat.add_zero] at hi ⊢
    refine ⟨H, by simp [renderRegion, hc], ?_, ?_⟩
    · intro k r hk
      omega
    · intro r _
      exact ⟨rfl, rfl⟩

theorem paints_seq (pool : DynamicBuffer) (hd : pool.Distinct)
    (F G : Nat × Heap → Option (Nat × Heap)) (l1 l2 : List Box2)
    (hF : Paints pool F l1) (hG : Paints pool G l2) :
    Paints pool (fun st => (F st).bind G) (l1 ++ l2) := by
  intro i H hi
  rw [List.length_append] at hi
  obtain ⟨H1, e1, a1, b1⟩ := hF i H (by omega)
  obtain ⟨H2, e2, a2, b2⟩ := hG (i + l1.length) H1 (by omega)
  refine ⟨H2, ?_, ?_, ?_⟩
  · simp only [e1, Option.some_bind, e2, List.length_append, Nat.add_assoc]
  · intro k r hk hget
    rw [List.length_append] at hk
    by_cases hk1 : k < l1.length
    · obtain ⟨x1, x2⟩ := a1 k r hk1 hget
      have hout : ∀ (k2 : Nat), k2 < l2.length →
          pool.data.get (i + l1.length + k2) ≠ some r := by
        intro k2 hk2 hget2
        have := hd (i + l1.length + k2) (by omega) (i + k) (by omega) (by rw [hget2, hget])
        omega
      obtain ⟨y1, y2⟩ := b2 r hout
      rw [y1, y2, List.getElem?_append_left hk1]
      exact ⟨x1, x2⟩
    · have hk2 : k - l1.length < l2.length := by omega
      have hidx : i + l1.length + (k - l1.length) = i + k := by omega
      obtain ⟨x1, x2⟩ := a2 (k - l1.length) r hk2 (by rw [hidx]; exact hget)
      rw [List.getElem?_append_right (by omega)]
      exact ⟨x1, x2⟩
  · intro r hne
    rw [List.length_append] at hne
    obtain ⟨x1, x2⟩ := b1 r (fun k hk => hne k (by omega))
    obtain ⟨y1, y2⟩ := b2 r (fun k hk => by
      have := hne (l1.length + k) (by omega)
      rwa [← Nat.add_assoc] at this)
    exact ⟨y1.trans x1, y2.trans x2⟩

theorem Quadnode_render_paints (pool : DynamicBuffer) (hf : pool.Filled) (hd : pool.Distinct)
    (n : Quadnode) : Paints pool (n.render pool) n.regions := by
  induction n with
  | leaf box ce l data =>
    have h := paints_region pool hf data.count (Quadnode.mult l) box
    intro i H hi
    simp only [Quadnode.regions] at hi ⊢
    simp only [Quadnode.render]
    exact h i H hi
  | inner box ce l data child ih =>
    have h1 := paints_seq pool hd _ _ _ _ (ih .nw) (ih .ne)
    have h2 := paints_seq pool hd _ _ _ _ h1 (ih .se)
    have h3 := paints_seq pool hd _ _ _ _ h2 (ih .sw)
    have h4 := paints_seq pool hd _ _ _ _ h3
      (paints_region pool hf data.count (Quadnode.mult l) box)
    intro i H hi
    simp only [Quadnode.regions] at hi ⊢
    simp only [Quadnode.render]
    exact h4 i H hi

theorem Quadnode_render_index (pool : DynamicBuffer) (n : Quadnode) (i : Nat) (H : Heap)
    (j : Nat) (H1 : Heap) (h : n.render pool (i, H) = some (j, H1)) : j = i + n.occupied := by
  have hreg : ∀ (count : Nat) (m : Option ℚ) (mn mx : Vector2) (i : Nat) (H : Heap) (j : Nat)
      (H1 : Heap), renderRegion pool count m mn mx (i, H) = some (j, H1) →
      j = i + occupied count := by
    intro count m mn mx i H j H1 h
    unfold renderRegion at h
    unfold occupied
    split at h
    · next hc =>
      simp only [Option.map_eq_some'] at h
      obtain ⟨r, _, hr⟩ := h
      simp only [Prod.mk.injEq] at hr
      simp only [hc, if_true]
      omega
    · next hc =>
      simp only [Option.some.injEq, Prod.mk.injEq] at h
      simp only [hc, if_false]
      omega
  induction n generalizing i H j H1 with
  | leaf box ce l data =>
    simp only [Quadnode.render] at h
    exact hreg _ _ _ _ i H j H1 h
  | inner box ce l data child ih =>
    simp only [Quadnode.render, Option.bind_eq_some] at h
    obtain ⟨⟨j4, G4⟩, ⟨⟨j3, G3⟩, ⟨⟨j2, G2⟩, ⟨⟨j1, G1⟩, e1, e2⟩, e3⟩, e4⟩, e5⟩ := h
    have f1 := ih .nw i H j1 G1 e1
    have f2 := ih .ne j1 G1 j2 G2 e2
    have f3 := ih .se j2 G2 j3 G3 e3
    have f4 := ih .sw j3 G3 j4 G4 e4
    have f5 := hreg _ _ _ _ j4 G4 j H1 e5
    simp only [Quadnode.occupied]
    omega

theorem blankLoop_alpha (pool : DynamicBuffer) (hf : pool.Filled) (l : List Nat)
    (hl : ∀ i, i ∈ l → i < pool.count) (H : Heap) :
    ∃ H1, l.foldl
        (fun (st : Option Heap) (i : Nat) =>
          st.bind (fun (H1 : Heap) => (pool.data.get i).map (fun (r : Ref) => H1.blank r)))
        (some H) = some H1 ∧ H1.bounds = H.bounds ∧
      (∀ (j : Nat) (r : Ref), j ∈ l → pool.data.get j = some r → H1.alpha r = 0) ∧
      (∀ (r : Ref), (∀ (j : Nat), j ∈ l → pool.data.get j ≠ some r) →
        H1.alpha r = H.alpha r) := by
  induction l generalizing H with
  | nil => exact ⟨H, rfl, rfl, by simp, fun _ _ => rfl⟩
  | cons i l ih =>
    have hi := hl i (List.mem_cons_self _ _)
    obtain ⟨r0, hr0⟩ := Option.isSome_iff_exists.mp (hf i hi)
    obtain ⟨H1, e, hb, ha, hn⟩ := ih (fun j hj => hl j (List.mem_cons_of_mem _ hj)) (H.blank r0)
    refine ⟨H1, ?_, ?_, ?_, ?_⟩
    · simp only [List.foldl_cons, Option.some_bind, hr0, Option.map_some']
      exact e
    · rw [hb]
      rfl
    · intro j r hj hget
      by_cases hex : ∃ j1, j1 ∈ l ∧ pool.data.get j1 = some r
      · obtain ⟨j1, hj1, hg1⟩ := hex
        exact ha j1 r hj1 hg1
      · have hno : ∀ (j1 : Nat), j1 ∈ l → pool.data.get j1 ≠ some r :=
          fun j1 hj1 hg1 => hex ⟨j1, hj1, hg1⟩
        rw [hn r hno]
        rcases List.mem_cons.mp hj with rfl | hjl
        · rw [hr0] at hget
          cases hget
          simp [Heap.blank, Alpha.set]
        · exact absurd hget (hno j hjl)
    · intro r hno
      rw [hn r (fun j hj => hno j (List.mem_cons_of_mem _ hj))]
      have hne : r ≠ r0 := fun h => hno i (List.mem_cons_self _ _) (by rw [h]; exact hr0)
      simp [Heap.blank, Alpha.set, hne]

/-- Counterexample to C27 as stated: the tree after a reset on the one object
`[[0,0],[50,50]]` on a world 700 by 600 has one occupied node, so `k = 1`; the pool has two
slots, both holding the box 10. Quadnode.render returns 1 and slot 0 is given opacity 0.975,
but the blanking loop of Quadtree.render then writes opacity 0 through slot 1 to the same box:
after render the first slot has opacity 0. -/
theorem quadtree_render_duplicate_pool_counterexample :
    (bufferOf [10, 10]).Filled ∧ (bufferOf [10, 10]).count = 2 ∧
      (Quadtree.reset sceneABC (Quadtree.init sceneABC alpha0) [0] 700 600
        alpha0).1.root.occupied = 1 ∧
      (((Quadtree.reset sceneABC (Quadtree.init sceneABC alpha0) [0] 700 600
        alpha0).1.root.render (bufferOf [10, 10]) (0, heapABC)).map
          (fun (st : Nat × Heap) => (st.1, st.2.alpha 10))) = some (1, 39 / 40) ∧
      (bufferOf [10, 10]).data.get 0 = some 10 ∧
      (((Quadtree.reset sceneABC (Quadtree.init sceneABC alpha0) [0] 700 600
        alpha0).1.render (bufferOf [10, 10]) heapABC).map
          (fun (H : Heap) => H.alpha 10)) = some 0 := by
  decide!

/-- C27, amended. Quadtree render slot accounting: for every tree state, every node and every
start index `i`, whenever Quadnode.render(pool, i) returns, it returns `i` plus the number of
nodes of the subtree whose data buffer holds at least one object, and it does return on a pool
whose slots hold boxes, with room for that number from `i` on; consequently, for such a pool
with at least `k` slots, `k` the number of occupied nodes of the whole tree, Quadtree.render
completes and afterwards the box in every slot from `k` on has opacity 0, and, when the slots
of the pool hold pairwise different boxes, the box in each of the first `k` slots has opacity
0.975 and the bounds of one occupied node (the `j`-th in render order for slot `j`). -/
theorem quadtree_render_slots (t : Quadtree) (n : Quadnode) (pool : DynamicBuffer) (H : Heap)
    (i : Nat) (hf : pool.Filled) (hi : i + n.occupied ≤ pool.count)
    (hk : t.root.occupied ≤ pool.count) :
    (∃ H1, n.render pool (i, H) = some (i + n.occupied, H1)) ∧
      (∀ (pool1 : DynamicBuffer) (i1 : Nat) (H0 : Heap) (j : Nat) (H1 : Heap),
        n.render pool1 (i1, H0) = some (j, H1) → j = i1 + n.occupied) ∧
      ∃ H2, t.render pool H = some H2 ∧
        (∀ (j : Nat) (r : Ref), t.root.occupied ≤ j → j < pool.count →
          pool.data.get j = some r → H2.alpha r = 0) ∧
        (pool.Distinct → ∀ (j : Nat) (r : Ref), j < t.root.occupied →
          pool.data.get j = some r →
          H2.alpha r = 39 / 40 ∧ t.root.regions[j]? = some (H2.bounds r)) := by
  refine ⟨?_, fun pool1 i1 H0 j H1 h => Quadnode_render_index pool1 n i1 H0 j H1 h, ?_⟩
  · obtain ⟨H1, e, _⟩ := Quadnode_render_spec pool hf n i H hi
    exact ⟨H1, e⟩
  · obtain ⟨H1, e, _⟩ := Quadnode_render_spec pool hf t.root 0 H (by omega)
    rw [Nat.zero_add] at e
    obtain ⟨H2, e2, hb, ha, hn⟩ := blankLoop_alpha pool hf
      (List.range' t.root.occupied (pool.count - t.root.occupied))
      (fun j hj => by rw [List.mem_range'_1] at hj; omega) H1
    refine ⟨H2, ?_, ?_, ?_⟩
    · unfold Quadtree.render
      rw [e]
      exact e2
    · intro j r h1 h2 hget
      exact ha j r (by rw [List.mem_range'_1]; omega) hget
    · intro hd j r hj hget
      obtain ⟨H3, e3, a, _⟩ := Quadnode_render_paints pool hf hd t.root 0 H
        (by rw [Quadnode_regions_length]; omega)
      rw [Quadnode_regions_length, Nat.zero_add, e] at e3
      simp only [Option.some.injEq, Prod.mk.injEq, true_and] at e3
      subst e3
      rw [Quadnode_regions_length] at a
      obtain ⟨x1, x2⟩ := a j r hj (by rw [Nat.zero_add]; exact hget)
      have hno : ∀ (j1 : Nat), j1 ∈ List.range' t.root.occupied (pool.count - t.root.occupied) →
          pool.data.get j1 ≠ some r := by
        intro j1 hj1 hg1
        rw [List.mem_range'_1] at hj1
        have := hd j1 (by omega) j (by omega) (by rw [hg1, hget])
        omega
      rw [hn r hno, hb]
      exact ⟨x1, x2⟩

theorem quadtree_render_slots_witness :
    poolABC.Filled ∧ 0 + quadtreeABC.root.occupied ≤ poolABC.count ∧
      quadtreeABC.root.occupied = 2 ∧ poolABC.Distinct ∧
      ((∃ H1, quadtreeABC.root.render poolABC (0, heapABC)
          = some (0 + quadtreeABC.root.occupied, H1)) ∧
        (∀ (pool1 : DynamicBuffer) (i1 : Nat) (H0 : Heap) (j : Nat) (H1 : Heap),
          quadtreeABC.root.render pool1 (i1, H0) = some (j, H1) →
            j = i1 + quadtreeABC.root.occupied) ∧
        ∃ H2, quadtreeABC.render poolABC heapABC = some H2 ∧
          (∀ (j : Nat) (r : Ref), quadtreeABC.root.occupied ≤ j → j < poolABC.count →
            poolABC.data.get j = some r → H2.alpha r = 0) ∧
          (poolABC.Distinct → ∀ (j : Nat) (r : Ref), j < quadtreeABC.root.occupied →
            poolABC.data.get j = some r →
            H2.alpha r = 39 / 40 ∧ quadtreeABC.root.regions[j]? = some (H2.bounds r))) :=
  ⟨by decide!, by decide!, by decide!, by decide!,
    quadtree_render_slots quadtreeABC quadtreeABC.root poolABC heapABC 0
      (by decide!) (by decide!) (by decide!)⟩

end SQ
